import Mathlib

/-!
# Laidout node graph: a shallow embedding of `src/interfaces/nodeinterface.cc`

The node editor keeps a mutable, pointer-linked graph: nodes own properties,
properties list the connections attached to them, a group owns the nodes and
the connections.  The embedding keeps that shape.  Every C++ object lives in a
store indexed by its address (a natural number), a pointer is an address and a
nullable pointer is an `Option`.  Member functions become functions on the
store.  A `double` is modelled by the rational it denotes; the arithmetic of
`MathNode::Update` rounds every exact result to the nearest double
(`roundDouble`), the layout, which adds and halves text extents, is computed on
the exact rationals, and infinities and NaN are not modelled.  `time_t` is
modelled by `ℕ`, and `time(NULL)` by a clock that is read once per call.
Recursive member functions (`GetData`, `Update`) take a recursion budget and
report `Fault.outOfFuel` when it is used up; dereferencing a null pointer is
reported as `Fault.nullDeref`.  Reference counts are modelled only where
`NodeProperty::SetData` moves them, and the freeing of objects is not modelled.
-/

namespace Laidout

/-! ## Data model -/

/-- Modelled from the spec: the `NodeProperty::PropertyTypes` enumeration of
`nodeinterface.h`, which is not among the sources.  The spec gives the
directions Input, Output and Block; `PROP_Unknown` is the value the default
constructor assigns. -/
inductive PropertyTypes where
  | PROP_Unknown
  | PROP_Input
  | PROP_Output
  | PROP_Block
  deriving DecidableEq, Repr

/-- The operator enumeration `MathNodeOps`, in declaration order. -/
inductive MathNodeOps where
  | OP_None
  | OP_Add | OP_Subtract | OP_Multiply | OP_Divide | OP_Mod | OP_Power
  | OP_Greater_Than | OP_Greater_Than_Or_Equal | OP_Less_Than | OP_Less_Than_Or_Equal
  | OP_Equals | OP_Not_Equal | OP_Minimum | OP_Maximum | OP_Average | OP_Atan2
  | OP_RandomRange | OP_Clamp_Max | OP_Clamp_Min
  | OP_And | OP_Or | OP_Xor | OP_ShiftLeft | OP_ShiftRight
  | OP_Not | OP_AbsoluteValue | OP_Negative | OP_Sqrt | OP_Sin | OP_Cos | OP_Tan
  | OP_Asin | OP_Acos | OP_Atan | OP_Sinh | OP_Cosh | OP_Tanh | OP_Asinh | OP_Acosh
  | OP_Atanh | OP_Clamp_To_1
  | OP_Lerp | OP_Clamp
  | OP_Vector_Add | Op_Vector_Subtract | OP_Dot | OP_Cross | OP_Norm | OP_Perpendicular
  | OP_Parallel | OP_Angle | OP_Angle2 | OP_Swizzle_YXZ | OP_Swizzle_XZY | OP_Swizzle_YZX
  | OP_Swizzle_ZXY | OP_Swizzle_ZYX | OP_Swizzle_1234 | OP_Flip | OP_Normalize
  | OP_MAX
  deriving DecidableEq, Repr

/-- One field of an enumeration definition, as `pushEnumValue(name, Name, desc,
id)` records it: the name, the displayed name and the id. -/
structure EnumField where
  name : String
  Name : String
  id : MathNodeOps
  deriving DecidableEq, Repr

/-- An enumeration definition (`ObjectDef` of format "enum"): the fields in the
order they were pushed. -/
abbrev EnumDef := List EnumField

/-- The payload kinds of `Value` that the node code dispatches on. -/
inductive Value where
  | DoubleValue (d : ℚ)
  | IntValue (i : ℤ)
  | StringValue (str : String)
  | ColorValue (color : String)
  | EnumValue (enumdef : EnumDef) (value : ℤ)
  | OtherValue
  deriving DecidableEq

/-- A `NodeConnection`: four nullable pointers. -/
structure NodeConnection where
  from_ : Option Nat := none
  to_ : Option Nat := none
  fromprop : Option Nat := none
  toprop : Option Nat := none
  deriving DecidableEq, Repr

/-- A `NodeProperty`.  `connections` is the pointer stack of attached
connections, bottom first. -/
structure NodeProperty where
  owner : Option Nat := none
  data : Option Nat := none
  name : Option String := none
  label : Option String := none
  type : PropertyTypes := PropertyTypes.PROP_Unknown
  is_linkable : Bool := false
  is_editable : Bool := true
  modtime : Nat := 0
  connections : List Nat := []
  x : ℚ := 0
  y : ℚ := 0
  width : ℚ := 0
  height : ℚ := 0
  posx : ℚ := 0
  posy : ℚ := 0
  deriving DecidableEq

/-- The extra members of the `MathNode` subclass. -/
structure MathNode where
  operation : MathNodeOps := MathNodeOps.OP_None
  numargs : Int := 2
  a : ℚ := 0
  b : ℚ := 0
  result : ℚ := 0
  deriving DecidableEq

/-- A `NodeBase`.  `Id` is the string `Id()` returns.  `math` holds the members
of the `MathNode` subclass when the object is one; every other node of the file
is a plain `NodeBase`. -/
structure NodeBase where
  Id : String := ""
  Name : Option String := none
  type : Option String := none
  properties : List Nat := []
  collapsed : Bool := false
  fullwidth : ℚ := 0
  deletable : Bool := true
  modtime : Nat := 0
  x : ℚ := 0
  y : ℚ := 0
  width : ℚ := 0
  height : ℚ := 0
  math : Option MathNode := none
  colors : Option Nat := none
  total_preview : Option ℚ := none
  show_preview : Bool := true
  deriving DecidableEq

/-- The members `NodeGroup` adds to `NodeBase`: the owned node and connection
stacks and the two designated nodes; and the members of its own `NodeBase` part
that reading and writing a group use: the id, the label `Name`, the style
`colors`, and the six numbers of the matrix `m`. -/
structure NodeGroup where
  nodes : List Nat := []
  connections : List Nat := []
  output : Option Nat := none
  input : Option Nat := none
  Id : String := ""
  Name : Option String := none
  colors : Option Nat := none
  m : List ℚ := [1, 0, 0, 1, 0, 0]
  deriving DecidableEq

/-- Modelled from the spec: the part of the shared style object `NodeColors`
(declared in `nodeinterface.h`, not among the sources) that the layout reads:
the text height and the text extent of its font, and the slot radius.
`total_preview` of a node is modelled by the height `h()` of the preview image. -/
structure NodeColors where
  textheight : ℚ := 0
  extent : Option String → ℚ := fun _ => 0
  slot_radius : ℚ := 0

/-- The object store.  `ticks` counts the calls of `time(NULL)` made so far;
`nvals`, `nconns`, `nnodes` and `nprops` are the next free addresses for values,
connections, nodes and properties.
`calls` is a record kept for the statements only, which no function reads: the
nodes on which `Update()` has been entered, oldest first. -/
structure Heap where
  nodes : Nat → NodeBase := fun _ => {}
  props : Nat → NodeProperty := fun _ => {}
  conns : Nat → NodeConnection := fun _ => {}
  vals : Nat → Value := fun _ => Value.OtherValue
  ticks : Nat := 0
  nvals : Nat := 0
  nconns : Nat := 0
  calls : List Nat := []
  styles : Nat → NodeColors := fun _ => {}
  nnodes : Nat := 0
  nprops : Nat := 0

/-- How a call can fail to return: the recursion is still running when the
fuel is used up, or a null pointer is dereferenced. -/
inductive Fault where
  | outOfFuel
  | nullDeref
  deriving DecidableEq, Repr

deriving instance DecidableEq for Except

/-! ## NodeProperty -/

/-- Modelled from the spec: `NodeProperty::IsInput` of `nodeinterface.h`, which
is not among the sources: the property's direction is Input. -/
def NodeProperty.IsInput (p : NodeProperty) : Bool :=
  p.type == PropertyTypes.PROP_Input

/-- Modelled from the spec: `NodeProperty::IsOutput` of `nodeinterface.h`, which
is not among the sources: the property's direction is Output. -/
def NodeProperty.IsOutput (p : NodeProperty) : Bool :=
  p.type == PropertyTypes.PROP_Output

/-- Modelled from the spec: `NodeProperty::IsBlock` of `nodeinterface.h`, which
is not among the sources: the property's direction is Block. -/
def NodeProperty.IsBlock (p : NodeProperty) : Bool :=
  p.type == PropertyTypes.PROP_Block

/-- `NodeProperty::GetData`.  A connected input whose first connection has a
producer property answers with that property's `GetData()`; everything else
answers with the stored `data` pointer.  The recursion follows `fromprop`
pointers, so it is given fuel. -/
def GetData (h : Heap) : Nat → Nat → Except Fault (Option Nat)
  | 0, _ => Except.error Fault.outOfFuel
  | fuel + 1, p =>
    match (h.props p).IsInput, (h.props p).connections with
    | true, c :: _ =>
      match (h.conns c).fromprop with
      | some q => GetData h fuel q
      | none => Except.ok (h.props p).data
    | _, _ => Except.ok (h.props p).data

/-! ## Pointer stacks -/

/-- Modelled from the spec: `PtrStack::findindex` of the Laxkit list templates
(`lax/lists.cc`, not among the sources): the index of the first occurrence of
a pointer in the stack, or -1 when it is not there. -/
def findindex (l : List Nat) (x : Nat) : Int :=
  if x ∈ l then (l.indexOf x : Int) else -1

/-- Modelled from the spec: `PtrStack::remove(which)` of the Laxkit list
templates (`lax/lists.cc`, not among the sources): takes the element at index
`which` out of the stack and keeps the order of the others.  An index outside
the stack addresses the top element, as the default argument -1 does in
`selected.pop()`; nothing happens on an empty stack. -/
def remove (l : List Nat) (which : Int) : List Nat :=
  if which < 0 ∨ (l.length : Int) ≤ which then l.eraseIdx (l.length - 1)
  else l.eraseIdx which.toNat

/-- The write `prop->connections = l` on the store. -/
def setConnections (h : Heap) (p : Nat) (l : List Nat) : Heap :=
  { h with props := Function.update h.props p { h.props p with connections := l } }

/-- `NodeConnection::~NodeConnection`: the connection takes itself out of the
connection stack of its `fromprop` and then of its `toprop`, where set. -/
def NodeConnection.destroy (h : Heap) (c : Nat) : Heap :=
  let h1 := match (h.conns c).fromprop with
    | some p => setConnections h p
        (remove (h.props p).connections (findindex (h.props p).connections c))
    | none => h
  match (h1.conns c).toprop with
  | some p => setConnections h1 p
      (remove (h1.props p).connections (findindex (h1.props p).connections c))
  | none => h1

/-! ## NodeBase: status and update -/

/-- The environment of a run: the system clock as a function of the number of
earlier `time(NULL)` calls, and the `<cmath>`/`<cstdlib>` functions and integer
bit operators that `MathNode::Update` applies for the operators no property
below depends on. -/
structure Env where
  clock : Nat → Nat
  ext : MathNodeOps → ℚ → ℚ → ℚ

/-- First loop of `NodeBase::GetStatus`: the newest modification time among the
properties that are not outputs, starting from 0. -/
def GetStatus.newest (h : Heap) : List Nat → Nat → Nat
  | [], t => t
  | c :: cs, t =>
    if !(h.props c).IsOutput && decide ((h.props c).modtime > t)
    then GetStatus.newest h cs (h.props c).modtime
    else GetStatus.newest h cs t

/-- Second loop of `NodeBase::GetStatus`: outputs are passed over
(`if (IsOutput()) continue;`), any other property older than `t` gives 1. -/
def GetStatus.older (h : Heap) (t : Nat) : List Nat → Int
  | [] => 0
  | c :: cs =>
    if (h.props c).IsOutput then GetStatus.older h t cs
    else if (h.props c).modtime < t then 1
    else GetStatus.older h t cs

/-- `NodeBase::GetStatus`, the default policy. -/
def NodeBase.GetStatus (h : Heap) (n : Nat) : Int :=
  let t := GetStatus.newest h (h.nodes n).properties 0
  if t = 0 then 0 else GetStatus.older h t (h.nodes n).properties

/-- The read `dynamic_cast<DoubleValue*>(v)->d`: a null pointer, or a value of
another kind (for which the cast gives null), is a null dereference. -/
def readDouble (h : Heap) (v : Option Nat) : Except Fault ℚ :=
  match v with
  | none => Except.error Fault.nullDeref
  | some a =>
    match h.vals a with
    | Value.DoubleValue d => Except.ok d
    | _ => Except.error Fault.nullDeref

/-- The element `properties.e[i]` of a node. -/
def propAt (h : Heap) (n i : Nat) : Except Fault Nat :=
  match (h.nodes n).properties.get? i with
  | some p => Except.ok p
  | none => Except.error Fault.nullDeref

/-- The write of the `MathNode` members of node `n`. -/
def setMath (h : Heap) (n : Nat) (m : MathNode) : Heap :=
  { h with nodes := Function.update h.nodes n { h.nodes n with math := some m } }

/-- The conversion `int(x)` of a double: truncation towards zero. -/
def truncInt (x : ℚ) : ℤ := if 0 ≤ x then ⌊x⌋ else ⌈x⌉

/-- The domain test shared by `MathNode::GetStatus` and the Power branch of
`MathNode::Update`: `a==0 || (a<0 && fabs(b)-fabs(int(b))<1e-10)`. -/
def powerDomainError (a b : ℚ) : Bool :=
  a == 0 || (decide (a < 0) && decide (|b| - |(truncInt b : ℚ)| < 1 / 10000000000))

/-- `MathNode::GetStatus`.  It reloads `a` and `b` from the `data` members of
properties 1 and 2 and tests them. -/
def MathNode.GetStatus (h : Heap) (n : Nat) (m : MathNode) : Except Fault (Int × Heap) := do
  let p1 ← propAt h n 1
  let a ← readDouble h (h.props p1).data
  let p2 ← propAt h n 2
  let b ← readDouble h (h.props p2).data
  let h1 := setMath h n { m with a := a, b := b }
  if (m.operation == MathNodeOps.OP_Divide || m.operation == MathNodeOps.OP_Mod) && b == 0
  then pure (-1, h1)
  else if powerDomainError a b then pure (-1, h1)
  else do
    let p3 ← propAt h n 3
    if (h.props p3).data = none then pure (1, h1) else pure (0, h1)

/-- The virtual call `node->GetStatus()`. -/
def GetStatus (h : Heap) (n : Nat) : Except Fault (Int × Heap) :=
  match (h.nodes n).math with
  | none => Except.ok (NodeBase.GetStatus h n, h)
  | some m => MathNode.GetStatus h n m

/-- The statement `modtime = time(NULL)` of a node. -/
def stampNode (env : Env) (h : Heap) (n : Nat) : Heap :=
  { h with
    nodes := Function.update h.nodes n { h.nodes n with modtime := env.clock h.ticks }
    ticks := h.ticks + 1 }

/-- Inner loop of `NodeBase::Update` over the connections of one property:
`Update()` is invoked on the `to` node of every connection that has one. -/
def updateConns (upd : Heap → Nat → Except Fault (Int × Heap)) :
    Heap → List Nat → Except Fault Heap
  | h, [] => Except.ok h
  | h, c :: cs =>
    match (h.conns c).to_ with
    | some t =>
      match upd h t with
      | Except.ok r => updateConns upd r.2 cs
      | Except.error e => Except.error e
    | none => updateConns upd h cs

/-- Outer loop of `NodeBase::Update` over the properties: inputs are passed
over, as are properties without connections. -/
def updateProps (upd : Heap → Nat → Except Fault (Int × Heap)) :
    Heap → List Nat → Except Fault Heap
  | h, [] => Except.ok h
  | h, p :: ps =>
    if (h.props p).IsInput then updateProps upd h ps
    else if (h.props p).connections.length = 0 then updateProps upd h ps
    else
      match updateConns upd h (h.props p).connections with
      | Except.ok h1 => updateProps upd h1 ps
      | Except.error e => Except.error e

/-- `NodeBase::Update`, with the virtual call `to->Update()` passed in as
`upd`: propagate downstream, stamp this node, return `GetStatus()`. -/
def NodeBase.Update (upd : Heap → Nat → Except Fault (Int × Heap)) (env : Env)
    (h : Heap) (n : Nat) : Except Fault (Int × Heap) :=
  match updateProps upd h (h.nodes n).properties with
  | Except.ok h1 => Laidout.GetStatus (stampNode env h1 n) n
  | Except.error e => Except.error e

/-! ## MathNode -/

/-- The definition `MathNodeDef` built by `DefineMathNodeDef`: the operator
names in the order they are pushed, each with its displayed name and the
operator as its id. -/
def DefineMathNodeDef : EnumDef :=
  [⟨"Add", "Add", MathNodeOps.OP_Add⟩, ⟨"Subtract", "Subtract", MathNodeOps.OP_Subtract⟩,
   ⟨"Multiply", "Multiply", MathNodeOps.OP_Multiply⟩,
   ⟨"Divide", "Divide", MathNodeOps.OP_Divide⟩,
   ⟨"Mod", "Mod", MathNodeOps.OP_Mod⟩, ⟨"Power", "Power", MathNodeOps.OP_Power⟩,
   ⟨"GreaterThan", "Greater than", MathNodeOps.OP_Greater_Than⟩,
   ⟨"GreaterEqual", "Greater or equal", MathNodeOps.OP_Greater_Than_Or_Equal⟩,
   ⟨"LessThan", "Less than", MathNodeOps.OP_Less_Than⟩,
   ⟨"LessEqual", "Less or equal", MathNodeOps.OP_Less_Than_Or_Equal⟩,
   ⟨"Equals", "Equals", MathNodeOps.OP_Equals⟩,
   ⟨"NotEqual", "Not Equal", MathNodeOps.OP_Not_Equal⟩,
   ⟨"Minimum", "Minimum", MathNodeOps.OP_Minimum⟩,
   ⟨"Maximum", "Maximum", MathNodeOps.OP_Maximum⟩,
   ⟨"Average", "Average", MathNodeOps.OP_Average⟩, ⟨"Atan2", "Atan2", MathNodeOps.OP_Atan2⟩,
   ⟨"RandomR", "Random", MathNodeOps.OP_RandomRange⟩,
   ⟨"And", "And", MathNodeOps.OP_And⟩, ⟨"Or", "Or", MathNodeOps.OP_Or⟩,
   ⟨"Xor", "Xor", MathNodeOps.OP_Xor⟩,
   ⟨"ShiftLeft", "ShiftLeft", MathNodeOps.OP_ShiftLeft⟩,
   ⟨"ShiftRight", "ShiftRight", MathNodeOps.OP_ShiftRight⟩]

/-- Modelled from the spec: `ObjectDef::getEnumInfo(index, ..., &id)` of the
value system (`calculator/values.cc`, not among the sources): the id of the
enum field at `index`; an index outside the definition writes nothing, which
leaves the `OP_None` that `MathNode::Update` stored just before. -/
def getEnumInfo (enumdef : EnumDef) (index : ℤ) : MathNodeOps :=
  if index < 0 then MathNodeOps.OP_None
  else match enumdef.get? index.toNat with
    | some f => f.id
    | none => MathNodeOps.OP_None

/-- The read of the operator in `MathNode::Update`: the value seen through
property 0 must be an `EnumValue`. -/
def readOp (h : Heap) (v : Option Nat) : Except Fault MathNodeOps :=
  match v with
  | none => Except.error Fault.nullDeref
  | some a =>
    match h.vals a with
    | Value.EnumValue enumdef value => Except.ok (getEnumInfo enumdef value)
    | _ => Except.error Fault.nullDeref

/-- The truth value of a comparison stored in a double. -/
def boolQ (b : Bool) : ℚ := if b then 1 else 0

/-- The power of two `2^e` as a rational. -/
def pow2 (e : ℤ) : ℚ :=
  if 0 ≤ e then ((2 ^ e.toNat : ℕ) : ℚ) else 1 / ((2 ^ (-e).toNat : ℕ) : ℚ)

/-- The number of binary digits of `n`, by halving; `fuel` bounds the number of
digits and `n` itself is enough. -/
def bitLength : Nat → Nat → Nat
  | 0, _ => 0
  | fuel + 1, n => if n = 0 then 0 else bitLength fuel (n / 2) + 1

/-- The binary exponent of a positive rational `x`: the `e` with
`2^e ≤ x < 2^(e+1)`. -/
def binade (x : ℚ) : ℤ :=
  let e0 : ℤ := (bitLength x.num.toNat x.num.toNat : ℤ) - (bitLength x.den x.den : ℤ)
  if pow2 e0 ≤ x then e0 else e0 - 1

/-- The rounding that the arithmetic of the C++ type `double` (IEEE 754
binary64) applies to the exact result of `+`, `-`, `*` and `/`: the nearest
number with a 53-bit significand, ties to the even significand, with the spacing
of the smallest normal numbers below them (subnormals).  A result beyond the
largest finite `double` is an infinity on the machine; the rationals have none,
and the model gives such a result its rounded significand all the same: runs
that overflow are outside the model. -/
def roundDouble (x : ℚ) : ℚ :=
  if x = 0 then 0
  else
    let e := max (binade |x|) (-1022)
    let ulp := pow2 (e - 52)
    let q := |x| / ulp
    let f : ℤ := ⌊q⌋
    let k : ℤ :=
      if q - f < 1 / 2 then f
      else if 1 / 2 < q - f then f + 1
      else if f % 2 = 0 then f else f + 1
    (if x < 0 then -1 else 1) * (k : ℚ) * ulp

/-- The operator chain of `MathNode::Update`: `none` is the early
`result=0; return -1;` of a domain error, `some r` the computed result.  An
operator outside the chain leaves `result` as it was.  Every `+`, `-`, `*` and
`/` of the chain is an operation on doubles and rounds its exact result; the
comparisons and the choice of the smaller or larger operand are exact. -/
def compute (env : Env) (op : MathNodeOps) (a b old : ℚ) : Option ℚ :=
  match op with
  | MathNodeOps.OP_Add => some (roundDouble (a + b))
  | MathNodeOps.OP_Subtract => some (roundDouble (a - b))
  | MathNodeOps.OP_Multiply => some (roundDouble (a * b))
  | MathNodeOps.OP_Divide => if b ≠ 0 then some (roundDouble (a / b)) else none
  | MathNodeOps.OP_Mod =>
    if b ≠ 0 then
      some (roundDouble (a - roundDouble (b * (truncInt (roundDouble (a / b)) : ℚ))))
    else none
  | MathNodeOps.OP_Power =>
    if powerDomainError a b then none else some (env.ext MathNodeOps.OP_Power a b)
  | MathNodeOps.OP_Greater_Than_Or_Equal => some (boolQ (decide (a ≥ b)))
  | MathNodeOps.OP_Greater_Than => some (boolQ (decide (a > b)))
  | MathNodeOps.OP_Less_Than => some (boolQ (decide (a < b)))
  | MathNodeOps.OP_Less_Than_Or_Equal => some (boolQ (decide (a ≤ b)))
  | MathNodeOps.OP_Equals => some (boolQ (a == b))
  | MathNodeOps.OP_Not_Equal => some (boolQ (a != b))
  | MathNodeOps.OP_Minimum => some (if a < b then a else b)
  | MathNodeOps.OP_Maximum => some (if a > b then a else b)
  | MathNodeOps.OP_Average => some (roundDouble (roundDouble (a + b) / 2))
  | MathNodeOps.OP_Atan2 => some (env.ext MathNodeOps.OP_Atan2 a b)
  | MathNodeOps.OP_And => some (env.ext MathNodeOps.OP_And a b)
  | MathNodeOps.OP_Or => some (env.ext MathNodeOps.OP_Or a b)
  | MathNodeOps.OP_Xor => some (env.ext MathNodeOps.OP_Xor a b)
  | MathNodeOps.OP_ShiftLeft => some (env.ext MathNodeOps.OP_ShiftLeft a b)
  | MathNodeOps.OP_ShiftRight => some (env.ext MathNodeOps.OP_ShiftRight a b)
  | MathNodeOps.OP_RandomRange => some (env.ext MathNodeOps.OP_RandomRange a b)
  | _ => some old

/-- The store of the result into property 3: a fresh `DoubleValue` when the
property has no data yet, else an in-place write into the `DoubleValue` it
holds; then `modtime = time(NULL)` on the property. -/
def storeResult (env : Env) (h : Heap) (p3 : Nat) (r : ℚ) : Except Fault Heap :=
  let stamp (h : Heap) : Heap :=
    { h with
      props := Function.update h.props p3 { h.props p3 with modtime := env.clock h.ticks }
      ticks := h.ticks + 1 }
  match (h.props p3).data with
  | none =>
    Except.ok (stamp { h with
      vals := Function.update h.vals h.nvals (Value.DoubleValue r)
      props := Function.update h.props p3 { h.props p3 with data := some h.nvals }
      nvals := h.nvals + 1 })
  | some v =>
    match h.vals v with
    | Value.DoubleValue _ =>
      Except.ok (stamp { h with vals := Function.update h.vals v (Value.DoubleValue r) })
    | _ => Except.error Fault.nullDeref

/-- `MathNode::Update`, with the virtual call passed in as `upd` and the fuel
for the `GetData()` reads. -/
def MathNode.Update (upd : Heap → Nat → Except Fault (Int × Heap)) (env : Env) (fuel : Nat)
    (h : Heap) (n : Nat) (m : MathNode) : Except Fault (Int × Heap) := do
  let p1 ← propAt h n 1
  let va ← GetData h fuel p1
  let a ← readDouble h va
  let p2 ← propAt h n 2
  let vb ← GetData h fuel p2
  let b ← readDouble h vb
  let p0 ← propAt h n 0
  let vop ← GetData h fuel p0
  let op ← readOp h vop
  match compute env op a b m.result with
  | none => pure (-1, setMath h n { m with a := a, b := b, operation := op, result := 0 })
  | some r =>
    let h1 := setMath h n { m with a := a, b := b, operation := op, result := r }
    let p3 ← propAt h1 n 3
    let h2 ← storeResult env h1 p3 r
    NodeBase.Update upd env h2 n

/-- The entry of a call of `Update()` on node `n`, noted in the record. -/
def enter (h : Heap) (n : Nat) : Heap :=
  { h with calls := h.calls ++ [n] }

/-- The virtual call `node->Update()`: `MathNode::Update` for a math node,
`NodeBase::Update` for every other node.  Each nested call uses one unit of
fuel. -/
def Update (env : Env) : Nat → Heap → Nat → Except Fault (Int × Heap)
  | 0, _, _ => Except.error Fault.outOfFuel
  | fuel + 1, h, n =>
    match (h.nodes n).math with
    | none => NodeBase.Update (Update env fuel) env (enter h n) n
    | some m => MathNode.Update (Update env fuel) env (fuel + 1) (enter h n) n m

/-! ## NodeGroup: deleting nodes, connecting -/

/-- The variables of the outer loop of `NodeGroup::DeleteNodes`. -/
structure DeleteState where
  heap : Heap
  group : NodeGroup
  selected : List Nat
  numdel : Int

/-- The test `connection->from == node || connection->to == node`. -/
def touchesNode (h : Heap) (node c : Nat) : Bool :=
  decide ((h.conns c).from_ = some node) || decide ((h.conns c).to_ = some node)

/-- Inner loop of `NodeGroup::DeleteNodes`, `for (c2=connections.n-1; c2>=0; c2--)`
with `k = c2 + 1`: a connection whose `from` or `to` is `node` is removed from
the group's stack, which owns it and so runs its destructor. -/
def DeleteNodes.cut (node : Nat) : Nat → Heap × List Nat → Heap × List Nat
  | 0, st => st
  | c2 + 1, (h, connections) =>
    match connections.get? c2 with
    | none => DeleteNodes.cut node c2 (h, connections)
    | some c =>
      if touchesNode h node c then
        DeleteNodes.cut node c2 (NodeConnection.destroy h c, remove connections c2)
      else DeleteNodes.cut node c2 (h, connections)

/-- Outer loop of `NodeGroup::DeleteNodes`, `for (c=selected.n-1; c>=0; c--)`
with `k = c + 1`: a node that is not deletable is passed over; for a deletable
one the connections touching it are cut, then it is removed from `nodes` and
from `selected`, and counted. -/
def DeleteNodes.loop : Nat → DeleteState → DeleteState
  | 0, st => st
  | c + 1, st =>
    match st.selected.get? c with
    | none => DeleteNodes.loop c st
    | some node =>
      if (st.heap.nodes node).deletable = false then DeleteNodes.loop c st
      else
        let r := DeleteNodes.cut node st.group.connections.length
          (st.heap, st.group.connections)
        DeleteNodes.loop c
          { heap := r.1
            group := { st.group with
              nodes := remove st.group.nodes (findindex st.group.nodes node)
              connections := r.2 }
            selected := remove st.selected c
            numdel := st.numdel + 1 }

/-- `NodeGroup::DeleteNodes(selected)`: the final loop state; `numdel` is the
returned count.  Reference counts and the freeing of the removed objects are
not modelled. -/
def NodeGroup.DeleteNodes (h : Heap) (g : NodeGroup) (selected : List Nat) : DeleteState :=
  DeleteNodes.loop selected.length { heap := h, group := g, selected := selected, numdel := 0 }

/-- `NodeGroup::Connect(from, to, usethis)`: the body is the placeholder
`//***` followed by `return 0;`. -/
def NodeGroup.Connect (h : Heap) (g : NodeGroup) (_from _to : Nat) (_usethis : Option Nat) :
    Int × Heap × NodeGroup :=
  (0, h, g)

/-! ## Graph relations used in the statements -/

/-- The edges `NodeBase::Update` follows: `y` is the `to` node of a connection
listed by a property of `x` that is not an input. -/
def Downstream (h : Heap) (x y : Nat) : Prop :=
  ∃ p ∈ (h.nodes x).properties, (h.props p).IsInput = false ∧
    ∃ c ∈ (h.props p).connections, (h.conns c).to_ = some y

/-- The store `h'` has the graph of `h`: the same properties, connections and
values, and the same nodes up to their modification times. -/
def SameGraph (h h' : Heap) : Prop :=
  h'.props = h.props ∧ h'.conns = h.conns ∧ h'.vals = h.vals ∧
  h'.nvals = h.nvals ∧ h'.nconns = h.nconns ∧
  ∀ n, { h'.nodes n with modtime := 0 } = { h.nodes n with modtime := 0 }

/-- The modification time of node `m` in `h'` is a clock reading taken at or
after reading number `t0`. -/
def Stamped (env : Env) (t0 : Nat) (h' : Heap) (m : Nat) : Prop :=
  ∃ k, t0 ≤ k ∧ k < h'.ticks ∧ (h'.nodes m).modtime = env.clock k

/-- Between `h` and `h'`, `Update()` was entered on node `m` and `m` was
stamped. -/
def Visited (env : Env) (h h' : Heap) (m : Nat) : Prop :=
  m ∈ h'.calls.drop h.calls.length ∧ Stamped env h.ticks h' m

/-- What a run of default updates may change from `h` to `h'`: the graph stays,
the clock count and the call record only grow, and a node's modification time
is either untouched or a reading taken during the run. -/
def Step (env : Env) (h h' : Heap) : Prop :=
  SameGraph h h' ∧ h.ticks ≤ h'.ticks ∧ (∃ l, h'.calls = h.calls ++ l) ∧
  ∀ n, (h'.nodes n).modtime = (h.nodes n).modtime ∨ Stamped env h.ticks h' n

/-- The selected nodes that `DeleteNodes` deletes. -/
def deletedNodes (h : Heap) (selected : List Nat) : List Nat :=
  selected.filter (fun x => (h.nodes x).deletable)

/-- A connection has its `from` or its `to` among the nodes `D`. -/
def touches (h : Heap) (D : List Nat) (c : Nat) : Bool :=
  D.any (fun x => touchesNode h x c)

/-- The store with the connections satisfying `removed` taken out of every
property's connection stack. -/
def withoutConnections (h : Heap) (removed : Nat → Bool) : Heap :=
  { h with props := fun p =>
      { h.props p with connections := (h.props p).connections.filter (fun c => !removed c) } }

/-- Every connection of the group is listed exactly once by its `fromprop`,
exactly once by its `toprop` (twice when the two are one property) and by no
other property, and the group lists no connection twice. -/
def Registered (h : Heap) (g : NodeGroup) : Prop :=
  g.connections.Nodup ∧
  ∀ c ∈ g.connections, ∀ p,
    (h.props p).connections.count c =
      (if (h.conns c).fromprop = some p then 1 else 0) +
      (if (h.conns c).toprop = some p then 1 else 0)

/-! ## NodeGroup: reading the `connections` block -/

/-- An `Attribute` of the file format: a name, an optional value and
sub-attributes. -/
inductive Attribute where
  | mk (name : String) (value : Option String) (attributes : List Attribute)

/-- The member `name` of an attribute. -/
def Attribute.name : Attribute → String
  | Attribute.mk n _ _ => n

/-- The member `value` of an attribute. -/
def Attribute.value : Attribute → Option String
  | Attribute.mk _ v _ => v

/-- The member `attributes` of an attribute. -/
def Attribute.attributes : Attribute → List Attribute
  | Attribute.mk _ _ l => l

/-- The C library `strstr`: the offset of the first occurrence of `pat`. -/
def strstr : List Char → List Char → Option Nat
  | [], pat => if pat.isPrefixOf [] then some 0 else none
  | c :: s, pat =>
    if pat.isPrefixOf (c :: s) then some 0 else (strstr s pat).map (fun i => i + 1)

/-- The C library `strchr`: the offset of the first occurrence of `ch`. -/
def strchr : List Char → Char → Option Nat
  | [], _ => none
  | c :: s, ch => if c = ch then some 0 else (strchr s ch).map (fun i => i + 1)

/-- Modelled from the spec: `newnstr(str, n)` of the Laxkit string helpers
(`lax/strmanip.cc`, not among the sources): a fresh copy of the first `n`
characters of `str`, or of all of `str` when it is shorter; no string (NULL)
when `n` is not positive. -/
def newnstr (str : List Char) (n : Int) : Option String :=
  if n ≤ 0 then none else some (String.mk (str.take n.toNat))

/-- `NodeGroup::FindNode`: the first node of the group whose id is `name`. -/
def FindNode (h : Heap) (g : NodeGroup) (name : Option String) : Option Nat :=
  match name with
  | none => none
  | some nm => g.nodes.find? (fun n => (h.nodes n).Id == nm)

/-- `NodeBase::FindProperty`: the first property of the node named `prop`. -/
def FindProperty (h : Heap) (node : Nat) (prop : Option String) : Option Nat :=
  match prop with
  | none => none
  | some nm => (h.nodes node).properties.find? (fun q => (h.props q).name == some nm)

/-- The pointer stack operation `push(x)`: `x` becomes the top element. -/
def push (l : List Nat) (x : Nat) : List Nat := l ++ [x]

/-- The four strings cut out of the value of a `connect` entry in
`NodeGroup::dump_in_atts`, or `none` where the code says `continue`. -/
def splitConnect (value : List Char) :
    Option (Option String × Option String × Option String × Option String) :=
  match strstr value " -> ".data with
  | none => none
  | some div =>
    match strchr value ',', strchr (value.drop (div + 4)) ',' with
    | some comma, some k =>
      if comma > div then none
      else
        let comma2 := div + 4 + k
        some (newnstr value comma,
              newnstr (value.drop (comma + 1)) ((div : Int) - comma - 1),
              newnstr (value.drop (div + 4)) ((comma2 : Int) - (div + 4)),
              newnstr (value.drop (comma2 + 1)) ((value.length : Int) - comma2))
    | _, _ => none

/-- One round of the loop over the `connections` block in
`NodeGroup::dump_in_atts`: a `connect` entry that splits and whose two nodes and
two properties are found makes a new connection, pushed onto both properties
and onto the group; every other entry changes nothing. -/
def dump_in_atts.connect (st : Heap × NodeGroup) (att : Attribute) : Heap × NodeGroup :=
  if att.name = "connect" then
    match att.value with
    | none => st
    | some value =>
      match splitConnect value.data with
      | none => st
      | some (fromstr, fpstr, tostr, tpstr) =>
        match FindNode st.1 st.2 fromstr, FindNode st.1 st.2 tostr with
        | some from_, some to_ =>
          match FindProperty st.1 from_ fpstr, FindProperty st.1 to_ tpstr with
          | some fromprop, some toprop =>
            let h := st.1
            let newcon := h.nconns
            let h1 : Heap := { h with
              conns := Function.update h.conns newcon
                { from_ := some from_, to_ := some to_,
                  fromprop := some fromprop, toprop := some toprop }
              nconns := h.nconns + 1 }
            let h2 := setConnections h1 fromprop (push (h1.props fromprop).connections newcon)
            let h3 := setConnections h2 toprop (push (h2.props toprop).connections newcon)
            (h3, { st.2 with connections := push st.2.connections newcon })
          | _, _ => st
        | _, _ => st
  else st

/-- The block `if (conatt) { ... }` of `NodeGroup::dump_in_atts`: the loop over
the entries of the `connections` attribute. -/
def dump_in_atts.connections (h : Heap) (g : NodeGroup) (conatt : Attribute) :
    Heap × NodeGroup :=
  conatt.attributes.foldl dump_in_atts.connect (h, g)

/-! ## The operators as arithmetic, for the statements -/

/-- Inner loop of `CheckForward` and `CheckBackward` over the connections of one
property, with the recursive call passed in as `chk`: the first connection for
which the call gives a non-zero answer ends the search with 1. -/
def checkConns (chk : Nat → Except Fault Int) : List Nat → Except Fault Int
  | [] => Except.ok 0
  | c :: cs =>
    match chk c with
    | Except.error e => Except.error e
    | Except.ok r => if r ≠ 0 then Except.ok 1 else checkConns chk cs

/-- Outer loop of `CheckForward` and `CheckBackward` over the properties of
`check`: inputs are passed over. -/
def checkProps (h : Heap) (chk : Nat → Except Fault Int) : List Nat → Except Fault Int
  | [] => Except.ok 0
  | p :: ps =>
    if (h.props p).IsInput then checkProps h chk ps
    else
      match checkConns chk (h.props p).connections with
      | Except.error e => Except.error e
      | Except.ok r => if r ≠ 0 then Except.ok 1 else checkProps h chk ps

/-- `NodeGroup::CheckForward(node, connection)`. -/
def CheckForward (h : Heap) : Nat → Nat → Nat → Except Fault Int
  | 0, _, _ => Except.error Fault.outOfFuel
  | fuel + 1, node, connection =>
    match (h.conns connection).to_ with
    | none => Except.ok 0
    | some check =>
      if check = node then Except.ok 1
      else checkProps h (CheckForward h fuel node) (h.nodes check).properties

/-- `NodeGroup::CheckBackward(node, connection)`. -/
def CheckBackward (h : Heap) : Nat → Nat → Nat → Except Fault Int
  | 0, _, _ => Except.error Fault.outOfFuel
  | fuel + 1, node, connection =>
    match (h.conns connection).from_ with
    | none => Except.ok 0
    | some check =>
      if check = node then Except.ok 1
      else checkProps h (CheckBackward h fuel node) (h.nodes check).properties

/-- The condition under which the loop over the `connections` block makes a
connection for the entry `att`, for the statements: the entry is named
`connect`, has a value that splits into four strings, both node ids are found by
`FindNode` and both property names by `FindProperty` on those nodes. -/
def Resolves (st : Heap × NodeGroup) (att : Attribute) (from_ to_ fromprop toprop : Nat) : Prop :=
  att.name = "connect" ∧
  ∃ value fromstr fpstr tostr tpstr,
    att.value = some value ∧
    splitConnect value.data = some (fromstr, fpstr, tostr, tpstr) ∧
    FindNode st.1 st.2 fromstr = some from_ ∧ FindNode st.1 st.2 tostr = some to_ ∧
    FindProperty st.1 from_ fpstr = some fromprop ∧ FindProperty st.1 to_ tpstr = some toprop

/-! ## NodeGroup: writing the `connections` block -/

/-- The value of a `connect` entry as `NodeGroup::dump_out_atts` builds it: the
id of the `from` node, a comma, the name of the `from` property, `" -> "`, the
id of the `to` node, a comma and the name of the `to` property. -/
def connectString (fromId fromProp toId toProp : String) : String :=
  "" ++ fromId ++ "," ++ fromProp ++ " -> " ++ toId ++ "," ++ toProp

/-! ## NodeBase: layout -/

/-- Modelled from the spec: `isblank` of the Laxkit string helpers
(`lax/strmanip.cc`, not among the sources): true for no string and for a string
of white space only. -/
def isblank (s : Option String) : Bool :=
  match s with
  | none => true
  | some str => str.data.all Char.isWhitespace

/-- Modelled from the spec: `NodeProperty::Label()`, defined in
`nodeinterface.h`, which is not among the sources: the display label, or the
name when the property has no label. -/
def NodeProperty.Label (p : NodeProperty) : Option String :=
  match p.label with
  | some l => some l
  | none => p.name

/-- `NodeProperty::AllowInput`. -/
def NodeProperty.AllowInput (p : NodeProperty) : Bool := p.IsInput && p.is_linkable

/-- `NodeProperty::AllowOutput`. -/
def NodeProperty.AllowOutput (p : NodeProperty) : Bool := p.IsOutput

/-- Modelled from the spec: `NodeBase::UsesPreview()`, defined in
`nodeinterface.h`, which is not among the sources: the node has a preview image
and shows it. -/
def NodeBase.UsesPreview (n : NodeBase) : Bool := n.total_preview.isSome && n.show_preview

/-- The loop over the enum fields in `NodeBase::WrapFull`: the largest extent
of a displayed name that is not blank, starting from `ew`. -/
def WrapFull.enumWidth (colors : NodeColors) : EnumDef → ℚ → ℚ
  | [], ew => ew
  | f :: fs, ew =>
    if isblank (some f.Name) then WrapFull.enumWidth colors fs ew
    else
      WrapFull.enumWidth colors fs
        (if colors.extent (some f.Name) > ew then colors.extent (some f.Name) else ew)

/-- One round of the first loop of `NodeBase::WrapFull`: the width `w` the
property asks for, stored in the property when it has a value, and the running
maximum `width`. -/
def WrapFull.measure (colors : NodeColors) (st : Heap × ℚ) (p : Nat) : Heap × ℚ :=
  let h := st.1
  let th := colors.textheight
  let prop := h.props p
  let w0 := colors.extent prop.Label
  match prop.data with
  | some v =>
    let w :=
      match h.vals v with
      | Value.DoubleValue _ => w0 + 3 * th
      | Value.IntValue _ => w0 + 3 * th
      | Value.ColorValue _ => w0 + 3 * th
      | Value.StringValue str => w0 + (th + colors.extent (some str))
      | Value.EnumValue enumdef _ => w0 + WrapFull.enumWidth colors enumdef 0
      | Value.OtherValue => w0
    ({ h with props := Function.update h.props p { prop with x := 0, width := w, height := 3 / 2 * th } },
      if w > st.2 then w else st.2)
  | none =>
    (if prop.height = 0 then
        { h with props := Function.update h.props p { prop with height := 3 / 2 * th } }
      else h,
      if w0 > st.2 then w0 else st.2)

/-- One round of the second loop of `NodeBase::WrapFull`, on the store, the
running `y` and the running `height`. -/
def WrapFull.place (width : ℚ) (st : Heap × ℚ × ℚ) (p : Nat) : Heap × ℚ × ℚ :=
  let h := st.1
  let y := st.2.1
  let prop := h.props p
  ({ h with props := Function.update h.props p { prop with y := y, posy := y + prop.height / 2, posx := if prop.IsInput then 0 else width, width := width } },
    y + prop.height, st.2.2 + prop.height)

/-- `NodeBase::WrapFull`: the expanded layout.  Without a style it returns -1
and changes nothing. -/
def NodeBase.WrapFull (h : Heap) (n : Nat) : Int × Heap :=
  match (h.nodes n).colors with
  | none => (-1, h)
  | some c =>
    let colors := h.styles c
    let th := colors.textheight
    let node := h.nodes n
    let m := node.properties.foldl (WrapFull.measure colors) (h, colors.extent node.Name)
    let width1 := m.2 + 3 * th
    let width := if node.fullwidth > width1 then node.fullwidth else width1
    let height0 := 3 / 2 * th + (if node.UsesPreview then node.total_preview.getD 0 else 0)
    let pl := node.properties.foldl (WrapFull.place width) (m.1, height0, height0)
    (0, { pl.1 with nodes := Function.update pl.1.nodes n { pl.1.nodes n with width := width, height := pl.2.2 } })

/-- One round of the last loop of `NodeBase::WrapCollapsed`, on the store and
the running `in_y` and `out_y`. -/
def WrapCollapsed.place (colors : NodeColors) (width : ℚ) (st : Heap × ℚ × ℚ) (p : Nat) :
    Heap × ℚ × ℚ :=
  let h := st.1
  let th := colors.textheight
  let prop := h.props p
  if prop.AllowInput then
    ({ h with props := Function.update h.props p { prop with posx := 0, posy := st.2.1 + th * colors.slot_radius } },
      st.2.1 + 2 * th * colors.slot_radius, st.2.2)
  else if prop.AllowOutput then
    ({ h with props := Function.update h.props p { prop with posx := width, posy := st.2.2 + th * colors.slot_radius } },
      st.2.1, st.2.2 + 2 * th * colors.slot_radius)
  else st

/-- `NodeBase::WrapCollapsed`: the collapsed layout.  Without a style it returns
-1 and changes nothing. -/
def NodeBase.WrapCollapsed (h : Heap) (n : Nat) : Int × Heap :=
  match (h.nodes n).colors with
  | none => (-1, h)
  | some c =>
    let colors := h.styles c
    let th := colors.textheight
    let node := h.nodes n
    let width := 3 * th + colors.extent node.Name
    let height0 := th * (3 / 2) + (if node.UsesPreview then node.total_preview.getD 0 else 0)
    let num_in : ℚ := (node.properties.filter (fun p => (h.props p).AllowInput)).length
    let num_out : ℚ := (node.properties.filter (fun p => (h.props p).AllowOutput)).length
    let max := if num_out > num_in then num_out else num_in
    let height :=
      if height0 < th / 2 + max * th * 2 * colors.slot_radius then
        th / 2 + max * th * 2 * colors.slot_radius
      else height0
    let pl := node.properties.foldl (WrapCollapsed.place colors width)
      (h, height / 2 - num_in * th * colors.slot_radius,
        height / 2 - num_out * th * colors.slot_radius)
    (0, { pl.1 with nodes := Function.update pl.1.nodes n { pl.1.nodes n with width := width, height := height } })

/-- `NodeBase::Wrap`. -/
def NodeBase.Wrap (h : Heap) (n : Nat) : Int × Heap :=
  if (h.nodes n).collapsed then NodeBase.WrapCollapsed h n else NodeBase.WrapFull h n

/-! ## Text conversions defined outside the sources -/

/-- Modelled from the spec: the conversions between values and text that
reading and writing a group call, none of which is among the sources (`sprintf`
of the C library, `DoubleListAttribute`, `DoubleAttribute` and
`BooleanAttribute` of `lax/attributes.cc`, `Value::dump_out_atts` and
`AttributeToValue` of `calculator/values.cc`).  They are parameters of the
model.  `sprintf_g` prints every number with `%.10g`, separated by blanks;
`DoubleListAttribute value max` gives the numbers read, at most `max`;
`DoubleAttribute` gives the number read if there is one; `dump_out_atts v att`
is `att` after the value `v` has written itself into it. -/
structure Conversions where
  sprintf_g : List ℚ → String
  DoubleListAttribute : Option String → Nat → List ℚ
  DoubleAttribute : Option String → Option ℚ
  BooleanAttribute : Option String → Bool
  dump_out_atts : Value → Attribute → Attribute
  AttributeToValue : Attribute → Option Value

/-! ## The built-in node kinds and the factory -/

/-- The allocation `new V(...)` of a value. -/
def newValue (h : Heap) (v : Value) : Nat × Heap :=
  (h.nvals, { h with vals := Function.update h.vals h.nvals v, nvals := h.nvals + 1 })

/-- The allocation `new NodeBase`, with the members the constructor sets and
the name and type the caller stores right after.  The id of a fresh object,
which `anObject::Id()` (not among the sources) makes up on first use, is
modelled as the empty string. -/
def newNodeBase (h : Heap) (name type : String) (math : Option MathNode) : Nat × Heap :=
  (h.nnodes,
    { h with
      nodes := Function.update h.nodes h.nnodes { Name := some name, type := some type, math := math }
      nnodes := h.nnodes + 1 })

/-- The call `node->AddProperty(new NodeProperty(type, linkable, name, data, 1,
NULL, NULL, 0, editable))`: the property is allocated, pushed onto the node and
owned by it. -/
def NodeBase.AddProperty (h : Heap) (n : Nat) (type : PropertyTypes) (linkable : Bool)
    (name : String) (data : Option Nat) (editable : Bool) : Heap :=
  { h with
    props := Function.update h.props h.nprops
      { owner := some n, data := data, name := some name, type := type,
        is_linkable := linkable, is_editable := editable }
    nodes := Function.update h.nodes n
      { h.nodes n with properties := push (h.nodes n).properties h.nprops }
    nprops := h.nprops + 1 }

/-- `newDoubleNode`: a node of type `Value` with one output `V` holding 0. -/
def newDoubleNode (h : Heap) : Except Fault (Option Nat × Heap) :=
  let n := newNodeBase h "Value" "Value" none
  let v := newValue n.2 (Value.DoubleValue 0)
  Except.ok (some n.1,
    NodeBase.AddProperty v.2 n.1 PropertyTypes.PROP_Output true "V" (some v.1) true)

/-- `newColorNode`: a node of type `Color` with one output `Color`. -/
def newColorNode (h : Heap) : Except Fault (Option Nat × Heap) :=
  let n := newNodeBase h "Color" "Color" none
  let v := newValue n.2 (Value.ColorValue "#ffffff")
  Except.ok (some n.1,
    NodeBase.AddProperty v.2 n.1 PropertyTypes.PROP_Output true "Color" (some v.1) true)

/-- The constructor `MathNode(op, aa, bb)` behind `newMathNode`, which passes
the defaults 0, 0, 0: the four properties, then `Update()`.  The member
`operation` receives the integer `op`, and 0 is `OP_None`. -/
def newMathNode (env : Env) (fuel : Nat) (h : Heap) : Except Fault (Option Nat × Heap) :=
  let n := newNodeBase h "Math" "Math"
    (some { a := 0, b := 0, operation := MathNodeOps.OP_None, numargs := 2 })
  let e := newValue n.2 (Value.EnumValue DefineMathNodeDef 0)
  let h1 := NodeBase.AddProperty e.2 n.1 PropertyTypes.PROP_Input false "Op" (some e.1) true
  let a := newValue h1 (Value.DoubleValue 0)
  let h2 := NodeBase.AddProperty a.2 n.1 PropertyTypes.PROP_Input true "A" (some a.1) true
  let b := newValue h2 (Value.DoubleValue 0)
  let h3 := NodeBase.AddProperty b.2 n.1 PropertyTypes.PROP_Input true "B" (some b.1) true
  let h4 := NodeBase.AddProperty h3 n.1 PropertyTypes.PROP_Output true "Result" none false
  match Update env fuel h4 n.1 with
  | Except.error e => Except.error e
  | Except.ok r => Except.ok (some n.1, r.2)

/-- The definition `ColorDepth` built by `GetImageDepthDef`.  Its fields are
pushed without an id; the id `pushEnumValue` then gives (in
`calculator/values.cc`, not among the sources) is read by no code of this file
and is modelled as `OP_None`. -/
def GetImageDepthDef : EnumDef :=
  [⟨"d8", "8", MathNodeOps.OP_None⟩, ⟨"d16", "16", MathNodeOps.OP_None⟩,
   ⟨"d24", "24", MathNodeOps.OP_None⟩, ⟨"d32", "32", MathNodeOps.OP_None⟩,
   ⟨"d32f", "32f", MathNodeOps.OP_None⟩, ⟨"d64f", "64f", MathNodeOps.OP_None⟩]

/-- `newImageNode`: a node of type `NewImage` with five inputs and the output
`Color`, which has no value. -/
def newImageNode (h : Heap) : Except Fault (Option Nat × Heap) :=
  let n := newNodeBase h "New Image" "NewImage" none
  let w := newValue n.2 (Value.IntValue 100)
  let h1 := NodeBase.AddProperty w.2 n.1 PropertyTypes.PROP_Input true "Width" (some w.1) true
  let hv := newValue h1 (Value.IntValue 100)
  let h2 := NodeBase.AddProperty hv.2 n.1 PropertyTypes.PROP_Input true "Height" (some hv.1) true
  let c := newValue h2 (Value.IntValue 4)
  let h3 := NodeBase.AddProperty c.2 n.1 PropertyTypes.PROP_Input true "Channels" (some c.1) true
  let e := newValue h3 (Value.EnumValue GetImageDepthDef 0)
  let h4 := NodeBase.AddProperty e.2 n.1 PropertyTypes.PROP_Input true "Depth" (some e.1) true
  let col := newValue h4 (Value.ColorValue "#ffffff")
  let h5 := NodeBase.AddProperty col.2 n.1 PropertyTypes.PROP_Input true "Initial Color"
    (some col.1) true
  Except.ok (some n.1,
    NodeBase.AddProperty h5 n.1 PropertyTypes.PROP_Output true "Color" none true)

/-- The type table of an `ObjectFactory`: the registered names, each with its
constructor function, in registration order.  A constructor gives `none` where
the code's `newfunc` gives no object or one that is not a `NodeBase`. -/
abbrev ObjectFactory := List (String × (Heap → Except Fault (Option Nat × Heap)))

/-- `SetupDefaultNodeTypes`: the four built-in registrations, in the order of
the calls. -/
def SetupDefaultNodeTypes (env : Env) (fuel : Nat) : ObjectFactory :=
  [("Color", newColorNode), ("NewImage", newImageNode), ("Math", newMathNode env fuel),
   ("Value", newDoubleNode)]

/-- `NodeGroup::NewNode`: the node made by the first registration whose name is
`type`; no node when there is none, or when that constructor gives none. -/
def NewNode (factory : ObjectFactory) (type : String) (h : Heap) :
    Except Fault (Option Nat × Heap) :=
  match factory.find? (fun fnode => fnode.1 == type) with
  | some fnode => fnode.2 h
  | none => Except.ok (none, h)

/-! ## Setting a property from an attribute -/

/-- The search loop of `NodeBase::SetPropertyFromAtt`: the first property whose
name equals `propname` under `strcmp`, which dereferences both strings. -/
def SetPropertyFromAtt.find (h : Heap) (propname : Option String) :
    List Nat → Except Fault (Option Nat)
  | [] => Except.ok none
  | p :: ps =>
    match propname, (h.props p).name with
    | some pn, some nm =>
      if pn = nm then Except.ok (some p) else SetPropertyFromAtt.find h propname ps
    | _, _ => Except.error Fault.nullDeref

/-- `NodeBase::SetPropertyFromAtt`: the value read from the first sub-attribute
of `att`, when there is one, becomes the data of the property named `propname`. -/
def NodeBase.SetPropertyFromAtt (io : Conversions) (h : Heap) (n : Nat)
    (propname : Option String) (att : Attribute) : Except Fault (Int × Heap) :=
  match att.attributes with
  | [] => Except.ok (0, h)
  | a0 :: _ =>
    match SetPropertyFromAtt.find h propname (h.nodes n).properties with
    | Except.error e => Except.error e
    | Except.ok none => Except.ok (0, h)
    | Except.ok (some p) =>
      match io.AttributeToValue a0 with
      | none => Except.ok (1, h)
      | some v =>
        let nv := newValue h v
        Except.ok (1, { nv.2 with
          props := Function.update nv.2.props p { nv.2.props p with data := some nv.1 } })

/-- `MathNode::SetPropertyFromAtt`: every property but `Op` is set as in
`NodeBase`; for `Op` the enum value seen through property 0 gets the index of
the field whose displayed name is the value of the first sub-attribute. -/
def MathNode.SetPropertyFromAtt (io : Conversions) (fuel : Nat) (h : Heap) (n : Nat)
    (propname : Option String) (att : Attribute) : Except Fault (Int × Heap) :=
  match propname with
  | none => Except.error Fault.nullDeref
  | some pn =>
    if pn ≠ "Op" then NodeBase.SetPropertyFromAtt io h n propname att
    else if isblank att.value then Except.ok (0, h)
    else do
      let p0 ← propAt h n 0
      let v ← GetData h fuel p0
      match v with
      | none => Except.error Fault.nullDeref
      | some ev =>
        match h.vals ev with
        | Value.EnumValue enumdef _ =>
          match att.attributes with
          | [] => pure (0, h)
          | a0 :: _ =>
            match a0.value with
            | none => pure (0, h)
            | some nval =>
              if isblank (some nval) then pure (0, h)
              else if (enumdef.map EnumField.Name).indexOf nval < enumdef.length then
                pure (1, { h with vals := Function.update h.vals ev (Value.EnumValue enumdef ((enumdef.map EnumField.Name).indexOf nval : Nat)) })
              else pure (1, h)
        | _ => Except.error Fault.nullDeref

/-- The virtual call `node->SetPropertyFromAtt(propname, att)`. -/
def SetPropertyFromAtt (io : Conversions) (fuel : Nat) (h : Heap) (n : Nat)
    (propname : Option String) (att : Attribute) : Except Fault (Int × Heap) :=
  match (h.nodes n).math with
  | none => NodeBase.SetPropertyFromAtt io h n propname att
  | some _ => MathNode.SetPropertyFromAtt io fuel h n propname att

/-! ## NodeGroup: reading a group -/

/-- One round of the loop over the entries of a `node` block in
`NodeGroup::dump_in_atts`.  For `id`, a missing value is modelled as the empty
id. -/
def dump_in_atts.nodeEntry (io : Conversions) (fuel : Nat) (newnode : Nat) (h : Heap)
    (entry : Attribute) : Except Fault Heap :=
  let node := h.nodes newnode
  if entry.name = "id" then
    Except.ok { h with nodes := Function.update h.nodes newnode { node with Id := entry.value.getD "" } }
  else if entry.name = "xywh" then
    match io.DoubleListAttribute entry.value 4 with
    | [x, y, w, ht] =>
      Except.ok { h with nodes := Function.update h.nodes newnode { node with x := x, y := y, width := w, height := ht } }
    | _ => Except.ok h
  else if entry.name = "x" then
    match io.DoubleAttribute entry.value with
    | some d => Except.ok { h with nodes := Function.update h.nodes newnode { node with x := d } }
    | none => Except.ok h
  else if entry.name = "y" then
    match io.DoubleAttribute entry.value with
    | some d => Except.ok { h with nodes := Function.update h.nodes newnode { node with y := d } }
    | none => Except.ok h
  else if entry.name = "width" then
    match io.DoubleAttribute entry.value with
    | some d => Except.ok { h with nodes := Function.update h.nodes newnode { node with width := d } }
    | none => Except.ok h
  else if entry.name = "height" then
    match io.DoubleAttribute entry.value with
    | some d => Except.ok { h with nodes := Function.update h.nodes newnode { node with height := d } }
    | none => Except.ok h
  else if entry.name = "collapsed" then
    Except.ok { h with nodes := Function.update h.nodes newnode { node with collapsed := io.BooleanAttribute entry.value } }
  else if entry.name = "in" ∨ entry.name = "out" then
    match SetPropertyFromAtt io fuel h newnode entry.value entry with
    | Except.error e => Except.error e
    | Except.ok r => Except.ok r.2
  else Except.ok h

/-- The loop over the entries of a `node` block. -/
def dump_in_atts.nodeEntries (io : Conversions) (fuel : Nat) (newnode : Nat) :
    Heap → List Attribute → Except Fault Heap
  | h, [] => Except.ok h
  | h, entry :: rest =>
    match dump_in_atts.nodeEntry io fuel newnode h entry with
    | Except.error e => Except.error e
    | Except.ok h1 => dump_in_atts.nodeEntries io fuel newnode h1 rest

/-- The branch of `NodeGroup::dump_in_atts` for a `node` block: a blank type and
a type for which `NewNode` gives no node are passed over; otherwise the node is
built, its entries are read, it receives the group's style if it has none, it is
laid out, updated and pushed onto the group. -/
def dump_in_atts.node (io : Conversions) (factory : ObjectFactory) (env : Env) (fuel : Nat)
    (st : Heap × NodeGroup) (block : Attribute) : Except Fault (Heap × NodeGroup) :=
  match block.value with
  | none => Except.ok st
  | some type =>
    if isblank (some type) then Except.ok st
    else
      match NewNode factory type st.1 with
      | Except.error e => Except.error e
      | Except.ok (none, h1) => Except.ok (h1, st.2)
      | Except.ok (some newnode, h1) =>
        match dump_in_atts.nodeEntries io fuel newnode h1 block.attributes with
        | Except.error e => Except.error e
        | Except.ok h2 =>
          let h3 : Heap :=
            if (h2.nodes newnode).colors = none then
              { h2 with nodes := Function.update h2.nodes newnode { h2.nodes newnode with colors := st.2.colors } }
            else h2
          match Update env fuel (NodeBase.Wrap h3 newnode).2 newnode with
          | Except.error e => Except.error e
          | Except.ok r => Except.ok (r.2, { st.2 with nodes := push st.2.nodes newnode })

/-- The variables of `NodeGroup::dump_in_atts` while it runs: the store, the
group, and the locals `out`, `in` and `conatt`. -/
structure LoadState where
  h : Heap
  g : NodeGroup
  out : Option String := none
  in_ : Option String := none
  conatt : Option Attribute := none

/-- One round of the first loop of `NodeGroup::dump_in_atts`.  For `matrix`,
the numbers that `DoubleListAttribute` did not read keep the old entries. -/
def dump_in_atts.entry (io : Conversions) (factory : ObjectFactory) (env : Env) (fuel : Nat)
    (st : LoadState) (entry : Attribute) : Except Fault LoadState :=
  if entry.name = "id" then
    Except.ok (if isblank entry.value then st else { st with g := { st.g with Id := entry.value.getD "" } })
  else if entry.name = "label" then
    Except.ok (if isblank entry.value then st else { st with g := { st.g with Name := entry.value } })
  else if entry.name = "matrix" then
    Except.ok { st with g := { st.g with m := io.DoubleListAttribute entry.value 6 ++ st.g.m.drop (io.DoubleListAttribute entry.value 6).length } }
  else if entry.name = "output" then Except.ok { st with out := entry.value }
  else if entry.name = "input" then Except.ok { st with in_ := entry.value }
  else if entry.name = "node" then
    match dump_in_atts.node io factory env fuel (st.h, st.g) entry with
    | Except.error e => Except.error e
    | Except.ok r => Except.ok { st with h := r.1, g := r.2 }
  else if entry.name = "connections" then Except.ok { st with conatt := some entry }
  else Except.ok st

/-- The first loop of `NodeGroup::dump_in_atts`. -/
def dump_in_atts.entries (io : Conversions) (factory : ObjectFactory) (env : Env) (fuel : Nat) :
    LoadState → List Attribute → Except Fault LoadState
  | st, [] => Except.ok st
  | st, entry :: rest =>
    match dump_in_atts.entry io factory env fuel st entry with
    | Except.error e => Except.error e
    | Except.ok st1 => dump_in_atts.entries io factory env fuel st1 rest

/-- `NodeGroup::dump_in_atts`: the entries are read in order, then the
designated output and input are looked up, then the connections are made. -/
def dump_in_atts (io : Conversions) (factory : ObjectFactory) (env : Env) (fuel : Nat)
    (h : Heap) (g : NodeGroup) (att : Option Attribute) : Except Fault (Heap × NodeGroup) :=
  match att with
  | none => Except.ok (h, g)
  | some a =>
    match dump_in_atts.entries io factory env fuel { h := h, g := g } a.attributes with
    | Except.error e => Except.error e
    | Except.ok st =>
      let g1 : NodeGroup :=
        match st.out with
        | none => st.g
        | some _ =>
          match FindNode st.h st.g st.out with
          | some node => { st.g with output := some node }
          | none => st.g
      let g2 : NodeGroup :=
        match st.in_ with
        | none => g1
        | some _ =>
          match FindNode st.h g1 st.in_ with
          | some node => { g1 with input := some node }
          | none => g1
      match st.conatt with
      | none => Except.ok (st.h, g2)
      | some conatt => Except.ok (dump_in_atts.connections st.h g2 conatt)

/-! ## NodeGroup: writing a group -/

/-- The call `att->push(name, value)`: a new last sub-attribute. -/
def Attribute.push (att : Attribute) (name : String) (value : Option String) : Attribute :=
  Attribute.mk att.name att.value (att.attributes ++ [Attribute.mk name value []])

/-- The effect of `att->pushSubAtt(...)` once the sub-attribute `sub` it returns
has been filled. -/
def Attribute.pushSubAtt (att : Attribute) (sub : Attribute) : Attribute :=
  Attribute.mk att.name att.value (att.attributes ++ [sub])

/-- One round of the loop over the properties in `NodeGroup::dump_out_atts`: an
`in`, `out` or `block` entry named after the property, into which the value seen
through `GetData()` writes itself when the property is a block, an input without
connection or an output. -/
def dump_out_atts.property (io : Conversions) (fuel : Nat) (h : Heap) (att2 : Attribute)
    (p : Nat) : Except Fault Attribute :=
  let prop := h.props p
  let kind : Option String :=
    if prop.IsInput then some "in"
    else if prop.IsOutput then some "out"
    else if prop.IsBlock then some "block"
    else none
  match kind with
  | none => Except.ok att2
  | some k =>
    if prop.IsBlock || (prop.IsInput && prop.connections.length == 0) || prop.IsOutput then
      match GetData h fuel p with
      | Except.error e => Except.error e
      | Except.ok none => Except.ok (att2.pushSubAtt (Attribute.mk k prop.name []))
      | Except.ok (some v) =>
        Except.ok (att2.pushSubAtt (io.dump_out_atts (h.vals v) (Attribute.mk k prop.name [])))
    else Except.ok (att2.pushSubAtt (Attribute.mk k prop.name []))

/-- The loop over the properties of one node. -/
def dump_out_atts.properties (io : Conversions) (fuel : Nat) (h : Heap) :
    Attribute → List Nat → Except Fault Attribute
  | att2, [] => Except.ok att2
  | att2, p :: ps =>
    match dump_out_atts.property io fuel h att2 p with
    | Except.error e => Except.error e
    | Except.ok a => dump_out_atts.properties io fuel h a ps

/-- One round of the loop over the nodes in `NodeGroup::dump_out_atts`: the
`node` block of node `n`, valued with its type. -/
def dump_out_atts.node (io : Conversions) (fuel : Nat) (h : Heap) (n : Nat) :
    Except Fault Attribute :=
  let node := h.nodes n
  let a0 := ((Attribute.mk "node" node.type []).push "id" (some node.Id)).push "label" node.Name
  let a1 := a0.push "xywh" (some (io.sprintf_g [node.x, node.y, node.width, node.height]))
  let a2 := if node.collapsed then a1.push "collapsed" none else a1
  dump_out_atts.properties io fuel h a2 node.properties

/-- The loop over the nodes. -/
def dump_out_atts.nodes (io : Conversions) (fuel : Nat) (h : Heap) :
    Attribute → List Nat → Except Fault Attribute
  | att, [] => Except.ok att
  | att, n :: ns =>
    match dump_out_atts.node io fuel h n with
    | Except.error e => Except.error e
    | Except.ok a => dump_out_atts.nodes io fuel h (att.pushSubAtt a) ns

/-- One round of the loop over the connections in `NodeGroup::dump_out_atts`:
the `connect` entry of connection `c`, whose four endpoints and whose property
names are dereferenced. -/
def dump_out_atts.connect (h : Heap) (att2 : Attribute) (c : Nat) : Except Fault Attribute :=
  match (h.conns c).from_, (h.conns c).fromprop, (h.conns c).to_, (h.conns c).toprop with
  | some from_, some fromprop, some to_, some toprop =>
    match (h.props fromprop).name, (h.props toprop).name with
    | some fpname, some tpname =>
      Except.ok (att2.push "connect"
        (some (connectString (h.nodes from_).Id fpname (h.nodes to_).Id tpname)))
    | _, _ => Except.error Fault.nullDeref
  | _, _, _, _ => Except.error Fault.nullDeref

/-- The loop over the connections. -/
def dump_out_atts.connections (h : Heap) : Attribute → List Nat → Except Fault Attribute
  | att2, [] => Except.ok att2
  | att2, c :: cs =>
    match dump_out_atts.connect h att2 c with
    | Except.error e => Except.error e
    | Except.ok a => dump_out_atts.connections h a cs

/-- `NodeGroup::dump_out_atts`.  A null `att` is replaced by a new attribute,
whose null name is modelled as the empty string.  With `what = -1` only the
description of the format is written. -/
def dump_out_atts (io : Conversions) (fuel : Nat) (h : Heap) (g : NodeGroup)
    (att : Option Attribute) (what : Int) : Except Fault Attribute :=
  let att0 := att.getD (Attribute.mk "" none [])
  if what = -1 then
    Except.ok (((((((att0.push "id" (some "some_name")).push "label"
      (some "Displayed label")).push "matrix" (some "screen matrix to use")).push "background"
      (some "rgb(.1,.2,.3) #color of the background for this group of nodes")).push "output"
      (some "which_one #id of the node designated as non-deletable output for this group, if any")).push
      "nodes" (some "#list of individual nodes in this group")).push "connections"
      (some "#list of connections between the nodes"))
  else
    let a1 := (att0.push "id" (some g.Id)).push "matrix" (some (io.sprintf_g g.m))
    let a2 :=
      match g.output with
      | some output => a1.push "output" (some (h.nodes output).Id)
      | none => a1
    let a3 :=
      match g.input with
      | some input => a2.push "input" (some (h.nodes input).Id)
      | none => a2
    match dump_out_atts.nodes io fuel h a3 g.nodes with
    | Except.error e => Except.error e
    | Except.ok a4 =>
      match dump_out_atts.connections h (Attribute.mk "connections" none []) g.connections with
      | Except.error e => Except.error e
      | Except.ok a5 => Except.ok (a4.pushSubAtt a5)

/-- From `h` to `h'` no node was allocated and no node changed under the view
`f` of its members; for the statements. -/
def Keeps {α : Type} (f : NodeBase → α) (h h' : Heap) : Prop :=
  h'.nnodes = h.nnodes ∧ h'.nprops = h.nprops ∧ ∀ k, f (h'.nodes k) = f (h.nodes k)

/-- The type tag and the style of a node; for the statements. -/
def NodeBase.tag (node : NodeBase) : Option String × Option Nat := (node.type, node.colors)

/-- A constructor function builds nodes of type `type`: whenever it returns, it
has allocated exactly one node, at the next free address, with that type tag and
no style, and it has changed neither the tag nor the style of another node; for
the statements. -/
def Builds (c : Heap → Except Fault (Option Nat × Heap)) (type : String) : Prop :=
  ∀ h r, c h = Except.ok r →
    r.1 = some h.nnodes ∧ r.2.nnodes = h.nnodes + 1 ∧
    (r.2.nodes h.nnodes).tag = (some type, none) ∧
    ∀ k, k ≠ h.nnodes → (r.2.nodes k).tag = (h.nodes k).tag

/-- The type of a `node` block is not blank and the factory has a registration
of that name; for the statements. -/
def registered (factory : ObjectFactory) (block : Attribute) : Bool :=
  match block.value with
  | none => false
  | some type => !isblank (some type) && (factory.find? (fun fnode => fnode.1 == type)).isSome

/-- The position and the size of a node; for the statements. -/
def NodeBase.xywh (node : NodeBase) : ℚ × ℚ × ℚ × ℚ := (node.x, node.y, node.width, node.height)

/-- The lines of an attribute tree down to the third level, as the file format
lays them out: the depth, the name and the value of every sub-attribute, parents
before children; for the statements. -/
def Attribute.outline (att : Attribute) : List (Nat × String × Option String) :=
  att.attributes.flatMap (fun a =>
    (1, a.name, a.value) :: a.attributes.flatMap (fun b =>
      (2, b.name, b.value) :: b.attributes.map (fun c => (3, c.name, c.value))))

/-- No property of node `n` has a connection; for the statements. -/
def Unconnected (h : Heap) (n : Nat) : Prop :=
  ∀ p ∈ (h.nodes n).properties, (h.props p).connections = []

/-- From `h` to `h'` every property kept its connections and every node its
properties; for the statements. -/
def SameWiring (h h' : Heap) : Prop :=
  (∀ p, (h'.props p).connections = (h.props p).connections) ∧
  ∀ n, (h'.nodes n).properties = (h.nodes n).properties

/-- A computation returns or stops at a null dereference: it does not use up
its fuel; for the statements. -/
def NoFuelFault {α : Type} (x : Except Fault α) : Prop :=
  ∀ e, x = Except.error e → e = Fault.nullDeref

/-- A constructor function returns or stops at a null dereference, and the node
it returns has no connection; for the statements. -/
def BuildsUnconnected (c : Heap → Except Fault (Option Nat × Heap)) : Prop :=
  ∀ h, NoFuelFault (c h) ∧ ∀ r n, c h = Except.ok r → r.1 = some n → Unconnected r.2 n

/-! ## NodeConnection: detaching one side -/

/-- `NodeConnection::RemoveConnection(which)`, for `which ≥ 0`.  In each branch
the two pointers of the side are set to null first, and the statement after
them goes through the property pointer of the connection as it is then. -/
def NodeConnection.RemoveConnection (h : Heap) (c : Nat) (which : Nat) : Except Fault Heap :=
  let first : Except Fault Heap :=
    if which % 2 = 1 ∧ ((h.conns c).from_).isSome then
      let h0 : Heap :=
        { h with conns := Function.update h.conns c { h.conns c with from_ := none, fromprop := none } }
      match (h0.conns c).fromprop with
      | none => Except.error Fault.nullDeref
      | some p =>
        Except.ok (setConnections h0 p
          (remove (h0.props p).connections (findindex (h0.props p).connections c)))
    else Except.ok h
  match first with
  | Except.error e => Except.error e
  | Except.ok h1 =>
    if which / 2 % 2 = 1 ∧ ((h1.conns c).to_).isSome then
      let h2 : Heap :=
        { h1 with conns := Function.update h1.conns c { h1.conns c with to_ := none, toprop := none } }
      match (h2.conns c).toprop with
      | none => Except.error Fault.nullDeref
      | some p =>
        Except.ok (setConnections h2 p
          (remove (h2.props p).connections (findindex (h2.props p).connections c)))
    else Except.ok h1

/-- `NodeProperty::IsConnected`. -/
def NodeProperty.IsConnected (p : NodeProperty) : Int :=
  if p.IsInput then -(p.connections.length : Int) else (p.connections.length : Int)


/-! ## Grouping the selection -/

/-- Modelled from the spec: `PtrStack::pop(which)` of the Laxkit list templates
(`lax/lists.cc`, not among the sources), called with the default argument -1:
the top element is taken out of the stack and returned; no element on an empty
stack. -/
def pop (l : List Nat) : Option Nat × List Nat := (l.getLast?, remove l (-1))

/-- The loop `while (selected.n) { node = selected.pop(); group->nodes.push(node); }`
of `NodeGroup::Encapsulate`, on the selection and the new group. -/
def Encapsulate.loop : Nat → List Nat → NodeGroup → List Nat × NodeGroup
  | 0, selected, group => (selected, group)
  | fuel + 1, selected, group =>
    match pop selected with
    | (none, _) => (selected, group)
    | (some node, rest) => Encapsulate.loop fuel rest { group with nodes := push group.nodes node }

/-- `NodeGroup::Encapsulate(selected)`: the returned group (or `none` for
`NULL`), the store, the group `this` and the selection afterwards.  The loop over
`connections` has an empty body.  Reference counts are not modelled. -/
def NodeGroup.Encapsulate (h : Heap) (g : NodeGroup) (selected : List Nat) :
    Option NodeGroup × Heap × NodeGroup × List Nat :=
  if selected.length = 0 then (none, h, g, selected)
  else
    let group : NodeGroup := {}
    let ins := h.nnodes
    let h1 : Heap := { h with nodes := Function.update h.nodes ins {}, nnodes := h.nnodes + 1 }
    let outs := h1.nnodes
    let h2 : Heap := { h1 with nodes := Function.update h1.nodes outs {}, nnodes := h1.nnodes + 1 }
    let r := Encapsulate.loop selected.length selected group
    (some r.2, h2, { g with nodes := push (push g.nodes ins) outs }, r.1)


/-! ## Setting the value of a property, collapsing a node -/

/-- Modelled from the spec: `anObject::inc_count` of the Laxkit base class
(`lax/anobject.cc`, not among the sources), on the table of the reference
counts of the values: the count of `v` goes up by one. -/
def inc_count (counts : Nat → Int) (v : Nat) : Nat → Int :=
  Function.update counts v (counts v + 1)

/-- Modelled from the spec: `anObject::dec_count` of the Laxkit base class
(`lax/anobject.cc`, not among the sources): the count of `v` goes down by one.
The destruction of an object whose count reaches zero is not modelled. -/
def dec_count (counts : Nat → Int) (v : Nat) : Nat → Int :=
  Function.update counts v (counts v - 1)

/-- `NodeProperty::SetData(newdata, absorb)` on property `p`: the returned
integer, the store and the reference counts of the values afterwards. -/
def NodeProperty.SetData (h : Heap) (counts : Nat → Int) (p : Nat) (newdata : Option Nat)
    (absorb : Bool) : Int × Heap × (Nat → Int) :=
  if newdata = (h.props p).data then (1, h, counts)
  else
    let counts1 :=
      match (h.props p).data with
      | some d => dec_count counts d
      | none => counts
    let h1 : Heap := { h with props := Function.update h.props p { h.props p with data := newdata } }
    let counts2 :=
      match (h1.props p).data with
      | some d => if !absorb then inc_count counts1 d else counts1
      | none => counts1
    (1, h1, counts2)

/-- `NodeBase::Collapse(state)` on node `n`: the returned integer and the store.
The member `collapsed` is read as the integer 1 or 0. -/
def NodeBase.Collapse (h : Heap) (n : Nat) (state : Int) : Int × Heap :=
  let collapsed : Int := if (h.nodes n).collapsed then 1 else 0
  let state : Int := if state = -1 then (if (h.nodes n).collapsed then 0 else 1) else state
  if state = 1 ∧ state ≠ collapsed then
    let h1 : Heap := { h with nodes := Function.update h.nodes n { h.nodes n with collapsed := true } }
    let h2 : Heap :=
      { h1 with nodes := Function.update h1.nodes n { h1.nodes n with fullwidth := (h1.nodes n).width } }
    let r := NodeBase.WrapCollapsed h2 n
    (if (r.2.nodes n).collapsed then 1 else 0, r.2)
  else if state = 0 ∧ state ≠ collapsed then
    let h1 : Heap := { h with nodes := Function.update h.nodes n { h.nodes n with collapsed := false } }
    let r := NodeBase.Wrap h1 n
    (if (r.2.nodes n).collapsed then 1 else 0, r.2)
  else (collapsed, h)


/-! ## The expanded layout in closed form -/

/-- The width `w` that the first loop of `NodeBase::WrapFull` computes for a
property; for the proofs. -/
def WrapFull.asked (colors : NodeColors) (vals : Nat → Value) (prop : NodeProperty) : ℚ :=
  let th := colors.textheight
  let w0 := colors.extent prop.Label
  match prop.data with
  | some v =>
    match vals v with
    | Value.DoubleValue _ => w0 + 3 * th
    | Value.IntValue _ => w0 + 3 * th
    | Value.ColorValue _ => w0 + 3 * th
    | Value.StringValue str => w0 + (th + colors.extent (some str))
    | Value.EnumValue enumdef _ => w0 + WrapFull.enumWidth colors enumdef 0
    | Value.OtherValue => w0
  | none => w0

/-- The property as one round of the first loop of `NodeBase::WrapFull` leaves
it; for the proofs. -/
def WrapFull.measured (colors : NodeColors) (vals : Nat → Value) (prop : NodeProperty) :
    NodeProperty :=
  match prop.data with
  | some _ =>
    { prop with x := 0, width := WrapFull.asked colors vals prop, height := 3 / 2 * colors.textheight }
  | none => if prop.height = 0 then { prop with height := 3 / 2 * colors.textheight } else prop

/-- The store as the first loop of `NodeBase::WrapFull` over the properties `ps`
leaves it; for the proofs. -/
def WrapFull.measuredStore (colors : NodeColors) (ps : List Nat) (h : Heap) : Heap :=
  { h with props := fun q => if q ∈ ps then WrapFull.measured colors h.vals (h.props q) else h.props q }

/-- The running maximum of the first loop of `NodeBase::WrapFull` over the
properties `ps`, starting from `w0`; for the proofs. -/
def WrapFull.askedWidth (colors : NodeColors) (ps : List Nat) (h : Heap) (w0 : ℚ) : ℚ :=
  ps.foldl (fun acc p =>
    if WrapFull.asked colors h.vals (h.props p) > acc then WrapFull.asked colors h.vals (h.props p)
    else acc) w0

/-- The property without the four members the second loop of
`NodeBase::WrapFull` writes; for the proofs. -/
def NodeProperty.unplaced (q : NodeProperty) : NodeProperty :=
  { q with y := 0, posy := 0, posx := 0, width := 0 }

/-- The property is as wide as the node, and its connector sits at the left
edge for an input and at the right edge otherwise, at the vertical centre of the
row of the property; for the statements. -/
def Anchored (width : ℚ) (q : NodeProperty) : Prop :=
  q.width = width ∧ q.posx = (if q.IsInput then 0 else width) ∧ q.posy = q.y + q.height / 2

/-- The width `NodeBase::WrapFull` gives the node; for the proofs. -/
def WrapFull.nodeWidth (colors : NodeColors) (node : NodeBase) (h : Heap) : ℚ :=
  let width1 :=
    WrapFull.askedWidth colors node.properties h (colors.extent node.Name) + 3 * colors.textheight
  if node.fullwidth > width1 then node.fullwidth else width1

/-- The height of the label row and the preview, where the second loop of
`NodeBase::WrapFull` starts; for the proofs. -/
def WrapFull.top (colors : NodeColors) (node : NodeBase) : ℚ :=
  3 / 2 * colors.textheight + (if node.UsesPreview then node.total_preview.getD 0 else 0)

/-- The second loop of `NodeBase::WrapFull`, run on the closed form of the
first; for the proofs. -/
def WrapFull.placedFold (colors : NodeColors) (node : NodeBase) (h : Heap) : Heap × ℚ × ℚ :=
  node.properties.foldl (WrapFull.place (WrapFull.nodeWidth colors node h))
    (WrapFull.measuredStore colors node.properties h, WrapFull.top colors node,
      WrapFull.top colors node)

/-! ## Example stores -/

/-- Four properties: an output (0) holding value 10, an input (1) holding value
11 and connected to that output, an unconnected input (2) holding value 12, and
an input (3) holding value 13 whose connection has no producer yet. -/
def getDataHeap : Heap :=
  { props := fun p =>
      if p = 0 then { type := PropertyTypes.PROP_Output, data := some 10, connections := [0] }
      else if p = 1 then { type := PropertyTypes.PROP_Input, data := some 11, connections := [0] }
      else if p = 2 then { type := PropertyTypes.PROP_Input, data := some 12 }
      else if p = 3 then { type := PropertyTypes.PROP_Input, data := some 13, connections := [1] }
      else {}
    conns := fun c =>
      if c = 0 then { from_ := some 0, to_ := some 1, fromprop := some 0, toprop := some 1 }
      else if c = 1 then { to_ := some 1, toprop := some 3 }
      else {} }

/-- A node with one input stamped at time 5 and one output stamped at time 3. -/
def staleOutputHeap : Heap :=
  { nodes := fun n => if n = 0 then { properties := [0, 1] } else {}
    props := fun p =>
      if p = 0 then { type := PropertyTypes.PROP_Input, modtime := 5 }
      else if p = 1 then { type := PropertyTypes.PROP_Output, modtime := 3 }
      else {} }

/-- A math node (node 0) as its constructor builds it, properties Op, A, B and
Result at addresses 0 to 3, with members `m`, the operator index `op` in the Op
enum, the doubles `a` and `b` stored in A and B, and `r` stored in Result.
Result feeds the input (property 4) of a plain node 1. -/
def mathHeap (m : MathNode) (op : ℤ) (a b r : ℚ) : Heap :=
  { nodes := fun n =>
      if n = 0 then { type := some "Math", properties := [0, 1, 2, 3], math := some m }
      else if n = 1 then { properties := [4] }
      else {}
    props := fun p =>
      if p = 0 then
        { owner := some 0, name := some "Op", type := PropertyTypes.PROP_Input, data := some 0 }
      else if p = 1 then
        { owner := some 0, name := some "A", type := PropertyTypes.PROP_Input,
          is_linkable := true, data := some 1 }
      else if p = 2 then
        { owner := some 0, name := some "B", type := PropertyTypes.PROP_Input,
          is_linkable := true, data := some 2 }
      else if p = 3 then
        { owner := some 0, name := some "Result", type := PropertyTypes.PROP_Output,
          is_linkable := true, is_editable := false, data := some 3, connections := [0] }
      else if p = 4 then
        { owner := some 1, name := some "In", type := PropertyTypes.PROP_Input,
          is_linkable := true, connections := [0] }
      else {}
    conns := fun c =>
      if c = 0 then { from_ := some 0, to_ := some 1, fromprop := some 3, toprop := some 4 }
      else {}
    vals := fun v =>
      if v = 0 then Value.EnumValue DefineMathNodeDef op
      else if v = 1 then Value.DoubleValue a
      else if v = 2 then Value.DoubleValue b
      else if v = 3 then Value.DoubleValue r
      else Value.OtherValue
    nvals := 4
    nconns := 1 }

/-- The environment used in the examples: the clock shows the number of earlier
readings, the library functions are never reached. -/
def tickEnv : Env := { clock := fun t => t, ext := fun _ _ _ => 0 }

/-- Five nodes: A (node 0, output 0), B (node 1, input 1 and output 2), C (node
2, input 3, not deletable), D (node 3, input 4) and E (node 4, input 5).  B is
the destination of connection 0 (from A) and the source of connections 1 (to C)
and 2 (to D); connection 3 runs from A to E. -/
def deleteHeap : Heap :=
  { nodes := fun n =>
      if n = 0 then { properties := [0] }
      else if n = 1 then { properties := [1, 2] }
      else if n = 2 then { properties := [3], deletable := false }
      else if n = 3 then { properties := [4] }
      else if n = 4 then { properties := [5] }
      else {}
    props := fun p =>
      if p = 0 then { owner := some 0, type := PropertyTypes.PROP_Output, connections := [0, 3] }
      else if p = 1 then { owner := some 1, type := PropertyTypes.PROP_Input, connections := [0] }
      else if p = 2 then { owner := some 1, type := PropertyTypes.PROP_Output, connections := [1, 2] }
      else if p = 3 then { owner := some 2, type := PropertyTypes.PROP_Input, connections := [1] }
      else if p = 4 then { owner := some 3, type := PropertyTypes.PROP_Input, connections := [2] }
      else if p = 5 then { owner := some 4, type := PropertyTypes.PROP_Input, connections := [3] }
      else {}
    conns := fun c =>
      if c = 0 then { from_ := some 0, to_ := some 1, fromprop := some 0, toprop := some 1 }
      else if c = 1 then { from_ := some 1, to_ := some 2, fromprop := some 2, toprop := some 3 }
      else if c = 2 then { from_ := some 1, to_ := some 3, fromprop := some 2, toprop := some 4 }
      else if c = 3 then { from_ := some 0, to_ := some 4, fromprop := some 0, toprop := some 5 }
      else {}
    nconns := 4 }

/-- The group that owns the nodes and connections of `deleteHeap`. -/
def deleteGroup : NodeGroup := { nodes := [0, 1, 2, 3, 4], connections := [0, 1, 2, 3] }

/-- A chain of three default nodes A, B, C (nodes 0, 1, 2): the output of A
(property 0) is connected to the first input of B (property 1) by connection 0,
the output of B (property 2) to the input of C (property 3) by connection 1.
B has a second input (property 4); its two inputs carry the times 5 and 3.  The
clock has been read ten times. -/
def chainHeap : Heap :=
  { nodes := fun n =>
      if n = 0 then { properties := [0] }
      else if n = 1 then { properties := [1, 4, 2] }
      else if n = 2 then { properties := [3] }
      else {}
    props := fun p =>
      if p = 0 then { owner := some 0, type := PropertyTypes.PROP_Output, connections := [0] }
      else if p = 1 then
        { owner := some 1, type := PropertyTypes.PROP_Input, connections := [0], modtime := 5 }
      else if p = 2 then { owner := some 1, type := PropertyTypes.PROP_Output, connections := [1] }
      else if p = 3 then { owner := some 2, type := PropertyTypes.PROP_Input, connections := [1] }
      else if p = 4 then { owner := some 1, type := PropertyTypes.PROP_Input, modtime := 3 }
      else {}
    conns := fun c =>
      if c = 0 then { from_ := some 0, to_ := some 1, fromprop := some 0, toprop := some 1 }
      else if c = 1 then { from_ := some 1, to_ := some 2, fromprop := some 2, toprop := some 3 }
      else {}
    ticks := 10
    nconns := 2 }

/-- Two Value nodes `v1` and `v2` (nodes 0 and 1, output `V` at properties 0 and
1) and a Math node `m` (node 2, properties Op, A, B, Result at 2 to 5), as
`dump_in_atts` has built them before it reads the `connections` block; nothing
is connected. -/
def loadHeap : Heap :=
  { nodes := fun n =>
      if n = 0 then { Id := "v1", type := some "Value", properties := [0] }
      else if n = 1 then { Id := "v2", type := some "Value", properties := [1] }
      else if n = 2 then
        { Id := "m", type := some "Math", properties := [2, 3, 4, 5],
          math := some { operation := MathNodeOps.OP_Add } }
      else {}
    props := fun p =>
      if p = 0 then
        { owner := some 0, name := some "V", type := PropertyTypes.PROP_Output,
          is_linkable := true, data := some 0 }
      else if p = 1 then
        { owner := some 1, name := some "V", type := PropertyTypes.PROP_Output,
          is_linkable := true, data := some 1 }
      else if p = 2 then
        { owner := some 2, name := some "Op", type := PropertyTypes.PROP_Input, data := some 2 }
      else if p = 3 then
        { owner := some 2, name := some "A", type := PropertyTypes.PROP_Input,
          is_linkable := true, data := some 3 }
      else if p = 4 then
        { owner := some 2, name := some "B", type := PropertyTypes.PROP_Input,
          is_linkable := true, data := some 4 }
      else if p = 5 then
        { owner := some 2, name := some "Result", type := PropertyTypes.PROP_Output,
          is_linkable := true, is_editable := false, data := some 5 }
      else {}
    vals := fun v =>
      if v = 0 then Value.DoubleValue 5
      else if v = 1 then Value.DoubleValue 7
      else if v = 2 then Value.EnumValue DefineMathNodeDef 0
      else if v = 3 then Value.DoubleValue 0
      else if v = 4 then Value.DoubleValue 3
      else if v = 5 then Value.DoubleValue 3
      else Value.OtherValue
    nvals := 6 }

/-- The group that owns the nodes of `loadHeap`. -/
def loadGroup : NodeGroup := { nodes := [0, 1, 2] }

/-- A `connections` block with two entries that name the same input. -/
def twoProducers : Attribute :=
  Attribute.mk "connections" none
    [Attribute.mk "connect" (some "v1,V -> m,A") [],
     Attribute.mk "connect" (some "v2,V -> m,A") []]

/-- A `connections` block whose second entry names a node `zz` that does not
exist, between two entries that resolve. -/
def unresolvedMiddle : Attribute :=
  Attribute.mk "connections" none
    [Attribute.mk "connect" (some "v1,V -> m,A") [],
     Attribute.mk "connect" (some "zz,V -> m,B") [],
     Attribute.mk "connect" (some "v2,V -> m,B") []]

/-- A `connections` block whose only entry names the input `A` of `m` as the
source and the output `V` of `v1` as the destination. -/
def backwardEntry : Attribute :=
  Attribute.mk "connections" none [Attribute.mk "connect" (some "m,A -> v1,V") []]

/-- The text of a whole number, as `%.10g` prints it; an example conversion. -/
def plainText.number (q : ℚ) : String :=
  if q.den = 1 ∧ 0 ≤ q.num then Nat.repr q.num.toNat else "nan"

/-- The whole number written in decimal digits, if the text is one. -/
def plainText.parseNat (cs : List Char) : Option ℚ :=
  if cs = [] then none
  else
    (cs.foldl
      (fun acc c => acc.bind (fun n => if c.isDigit then some (10 * n + (c.toNat - 48)) else none))
      (some 0)).map (fun n : Nat => (n : ℚ))

/-- The words of a text, separated by blanks; `cur` is the word being read. -/
def plainText.words : List Char → List Char → List (List Char)
  | [], cur => if cur = [] then [] else [cur]
  | c :: cs, cur =>
    if c = ' ' then
      if cur = [] then plainText.words cs [] else cur :: plainText.words cs []
    else plainText.words cs (cur ++ [c])

/-- The numbers at the start of a list of words, up to the first word that is
not a number. -/
def plainText.numbers : List (List Char) → List ℚ
  | [] => []
  | w :: ws =>
    match plainText.parseNat w with
    | some q => q :: plainText.numbers ws
    | none => []

/-- An example of the text conversions, on whole numbers: a number is written in
decimal digits; a value writes itself as one sub-attribute named after its kind,
an enum value with the displayed name of its field; an attribute without a value
reads as the boolean true. -/
def plainText : Conversions :=
  { sprintf_g := fun l => " ".intercalate (l.map plainText.number)
    DoubleListAttribute := fun value max =>
      match value with
      | none => []
      | some s => (plainText.numbers (plainText.words s.data [])).take max
    DoubleAttribute := fun value =>
      match value with
      | none => none
      | some s => plainText.parseNat s.data
    BooleanAttribute := fun value => value = none ∨ value = some "yes" ∨ value = some "true"
    dump_out_atts := fun v att =>
      match v with
      | Value.DoubleValue d => att.push "DoubleValue" (some (plainText.number d))
      | Value.IntValue i => att.push "IntValue" (some (plainText.number i))
      | Value.StringValue str => att.push "StringValue" (some str)
      | Value.ColorValue color => att.push "ColorValue" (some color)
      | Value.EnumValue enumdef value =>
        att.push "EnumValue" ((enumdef.get? value.toNat).map EnumField.Name)
      | Value.OtherValue => att
    AttributeToValue := fun a =>
      if a.name = "DoubleValue" then
        (a.value.bind (fun s => plainText.parseNat s.data)).map Value.DoubleValue
      else if a.name = "IntValue" then
        (a.value.bind (fun s => plainText.parseNat s.data)).map (fun q => Value.IntValue q.num)
      else if a.name = "StringValue" then a.value.map Value.StringValue
      else if a.name = "ColorValue" then a.value.map Value.ColorValue
      else none }

/-- A store that holds one style, at address 0: text height 10, five units of
extent for every character, slot radius 1/4. -/
def styledHeap : Heap :=
  { styles := fun _ =>
      { textheight := 10
        extent := fun s =>
          match s with
          | none => 0
          | some str => 5 * (str.length : ℚ)
        slot_radius := 1 / 4 } }

/-- An empty group that has the style of `styledHeap`. -/
def styledGroup : NodeGroup := { colors := some 0 }

/-- A document with one Value node `v1` at 10, 20 of width 30 and height 40. -/
def oneValue : Attribute :=
  Attribute.mk "" none
    [Attribute.mk "node" (some "Value")
       [Attribute.mk "id" (some "v1") [], Attribute.mk "xywh" (some "10 20 30 40") []]]

/-- A graph of three built-in nodes as the editor leaves it after wiring and
updating: the Value node `v1` (node 0) holds 5 and is connected by connection 0
to the input `A` of the Math node `m` (node 1), which adds and stores 0 in `A`,
3 in `B` and 8 in `Result`; the Value node `v2` (node 2) holds 7 and is not
connected. -/
def tripHeap : Heap :=
  { nodes := fun n =>
      if n = 0 then
        { Id := "v1", Name := some "Value", type := some "Value", properties := [0],
          x := 10, y := 20, width := 65, height := 30 }
      else if n = 1 then
        { Id := "m", Name := some "Math", type := some "Math", properties := [1, 2, 3, 4],
          x := 100, y := 20, width := 120, height := 75,
          math := some { operation := MathNodeOps.OP_Add, a := 5, b := 3, result := 8 } }
      else if n = 2 then
        { Id := "v2", Name := some "Value", type := some "Value", properties := [5],
          x := 10, y := 90, width := 65, height := 30 }
      else {}
    props := fun p =>
      if p = 0 then
        { owner := some 0, name := some "V", type := PropertyTypes.PROP_Output,
          is_linkable := true, data := some 0, connections := [0] }
      else if p = 1 then
        { owner := some 1, name := some "Op", type := PropertyTypes.PROP_Input, data := some 1 }
      else if p = 2 then
        { owner := some 1, name := some "A", type := PropertyTypes.PROP_Input,
          is_linkable := true, data := some 2, connections := [0] }
      else if p = 3 then
        { owner := some 1, name := some "B", type := PropertyTypes.PROP_Input,
          is_linkable := true, data := some 3 }
      else if p = 4 then
        { owner := some 1, name := some "Result", type := PropertyTypes.PROP_Output,
          is_linkable := true, is_editable := false, data := some 4 }
      else if p = 5 then
        { owner := some 2, name := some "V", type := PropertyTypes.PROP_Output,
          is_linkable := true, data := some 5 }
      else {}
    conns := fun c =>
      if c = 0 then { from_ := some 0, to_ := some 1, fromprop := some 0, toprop := some 2 }
      else {}
    vals := fun v =>
      if v = 0 then Value.DoubleValue 5
      else if v = 1 then Value.EnumValue DefineMathNodeDef 0
      else if v = 2 then Value.DoubleValue 0
      else if v = 3 then Value.DoubleValue 3
      else if v = 4 then Value.DoubleValue 8
      else if v = 5 then Value.DoubleValue 7
      else Value.OtherValue
    nvals := 6
    nconns := 1
    nnodes := 3
    nprops := 6 }

/-- The group that owns the nodes and the connection of `tripHeap`. -/
def tripGroup : NodeGroup := { nodes := [0, 1, 2], connections := [0], Id := "group" }

/-- Write the group `g` of the store `h`, read the document into the fresh
group `g0` of the store `h0` with the default factory, and write the group
read. -/
def writeReadWrite (h : Heap) (g : NodeGroup) (h0 : Heap) (g0 : NodeGroup) :
    Except Fault Attribute :=
  match dump_out_atts plainText 2 h g none 0 with
  | Except.error e => Except.error e
  | Except.ok doc =>
    match dump_in_atts plainText (SetupDefaultNodeTypes tickEnv 2) tickEnv 2 h0 g0 (some doc) with
    | Except.error e => Except.error e
    | Except.ok r => dump_out_atts plainText 2 r.1 r.2 none 0

/-- A Value node (node 0) holding `upstream` whose output `V` (property 0) is
connected by connection 0 to the input `B` (property 3) of a Math node (node 1,
properties Op, A, B, Result at 1 to 4) set to Divide, with 4 stored in `A`,
`stored` stored in `B` and a value in `Result`. -/
def divideHeap (stored upstream : ℚ) : Heap :=
  { nodes := fun n =>
      if n = 0 then { Id := "v", type := some "Value", properties := [0] }
      else if n = 1 then
        { Id := "m", type := some "Math", properties := [1, 2, 3, 4],
          math := some { operation := MathNodeOps.OP_Divide } }
      else {}
    props := fun p =>
      if p = 0 then
        { owner := some 0, name := some "V", type := PropertyTypes.PROP_Output,
          is_linkable := true, data := some 0, connections := [0] }
      else if p = 1 then
        { owner := some 1, name := some "Op", type := PropertyTypes.PROP_Input, data := some 1 }
      else if p = 2 then
        { owner := some 1, name := some "A", type := PropertyTypes.PROP_Input,
          is_linkable := true, data := some 2 }
      else if p = 3 then
        { owner := some 1, name := some "B", type := PropertyTypes.PROP_Input,
          is_linkable := true, data := some 3, connections := [0] }
      else if p = 4 then
        { owner := some 1, name := some "Result", type := PropertyTypes.PROP_Output,
          is_linkable := true, is_editable := false, data := some 4 }
      else {}
    conns := fun c =>
      if c = 0 then { from_ := some 0, to_ := some 1, fromprop := some 0, toprop := some 3 }
      else {}
    vals := fun v =>
      if v = 0 then Value.DoubleValue upstream
      else if v = 1 then Value.EnumValue DefineMathNodeDef 3
      else if v = 2 then Value.DoubleValue 4
      else if v = 3 then Value.DoubleValue stored
      else if v = 4 then Value.DoubleValue 0
      else Value.OtherValue
    nvals := 5
    nconns := 1
    nnodes := 2
    nprops := 5 }


/-- The three-node graph with the style of `styledHeap` installed on every
node. -/
def layoutHeap : Heap :=
  { tripHeap with
    styles := styledHeap.styles
    nodes := fun k => { tripHeap.nodes k with colors := some 0 } }

/-- A Value node (node 0) holding 0 whose output `V` (property 0) is connected
by connection 0 to the input `B` of a Math node (node 1, properties Op, A, B,
Result at 1 to 4) with the operator of index `op`, 4 stored in `A`, 3 stored in
`B` and 7 stored in Result; Result is connected by connection 1 to the input
(property 5) of a plain node 2, last stamped at time 7.  The clock has been read
ten times. -/
def blockedHeap (op : ℤ) : Heap :=
  { nodes := fun n =>
      if n = 0 then { Id := "v", type := some "Value", properties := [0] }
      else if n = 1 then
        { Id := "m", type := some "Math", properties := [1, 2, 3, 4], math := some {} }
      else if n = 2 then { Id := "n", properties := [5], modtime := 7 }
      else {}
    props := fun p =>
      if p = 0 then
        { owner := some 0, name := some "V", type := PropertyTypes.PROP_Output,
          is_linkable := true, data := some 0, connections := [0] }
      else if p = 1 then
        { owner := some 1, name := some "Op", type := PropertyTypes.PROP_Input, data := some 1 }
      else if p = 2 then
        { owner := some 1, name := some "A", type := PropertyTypes.PROP_Input,
          is_linkable := true, data := some 2 }
      else if p = 3 then
        { owner := some 1, name := some "B", type := PropertyTypes.PROP_Input,
          is_linkable := true, data := some 3, connections := [0] }
      else if p = 4 then
        { owner := some 1, name := some "Result", type := PropertyTypes.PROP_Output,
          is_linkable := true, is_editable := false, data := some 4, connections := [1] }
      else if p = 5 then
        { owner := some 2, name := some "In", type := PropertyTypes.PROP_Input,
          is_linkable := true, connections := [1] }
      else {}
    conns := fun c =>
      if c = 0 then { from_ := some 0, to_ := some 1, fromprop := some 0, toprop := some 3 }
      else if c = 1 then { from_ := some 1, to_ := some 2, fromprop := some 4, toprop := some 5 }
      else {}
    vals := fun v =>
      if v = 0 then Value.DoubleValue 0
      else if v = 1 then Value.EnumValue DefineMathNodeDef op
      else if v = 2 then Value.DoubleValue 4
      else if v = 3 then Value.DoubleValue 3
      else if v = 4 then Value.DoubleValue 7
      else Value.OtherValue
    ticks := 10
    nvals := 5
    nconns := 2
    nnodes := 3
    nprops := 6 }

lemma GetData_congr {h h' : Heap} (hp : h'.props = h.props) (hc : h'.conns = h.conns) :
    ∀ fuel p, GetData h' fuel p = GetData h fuel p := by
  intro fuel
  induction fuel with
  | zero => intro p; rfl
  | succ k ih =>
    intro p
    simp only [GetData, hp, hc, ih]

/-! ## Claim C1 -/

/-- C1 (NodeProperty::GetData).  An Input whose connection (the first of its
stack, the one `GetData()` consults, and the only one under the single-producer
invariant) has its producer property set returns exactly what the producer's
`GetData()` returns, and that is the producer's stored value when the producer
is not itself an Input (an Output in particular); an unconnected Input, an Input
whose connection is a half connection without producer property, and every
Output return the property's own stored value. -/
theorem C1_GetData (h : Heap) (fuel p : Nat) :
    (∀ c rest q, (h.props p).IsInput = true → (h.props p).connections = c :: rest →
        (h.conns c).fromprop = some q →
        GetData h (fuel + 1) p = GetData h fuel q ∧
        ((h.props q).IsInput = false →
          GetData h (fuel + 2) p = Except.ok (h.props q).data)) ∧
    ((h.props p).IsInput = true → (h.props p).connections = [] →
        GetData h (fuel + 1) p = Except.ok (h.props p).data) ∧
    (∀ c rest, (h.props p).IsInput = true → (h.props p).connections = c :: rest →
        (h.conns c).fromprop = none →
        GetData h (fuel + 1) p = Except.ok (h.props p).data) ∧
    ((h.props p).IsOutput = true →
        GetData h (fuel + 1) p = Except.ok (h.props p).data) := by
  refine ⟨?_, ?_, ?_, ?_⟩
  · intro c rest q hin hc hq
    refine ⟨by simp [GetData, hin, hc, hq], ?_⟩
    intro hq2
    simp [GetData, hin, hc, hq, hq2]
  · intro hin hc
    simp [GetData, hin, hc]
  · intro c rest hin hc hq
    simp [GetData, hin, hc, hq]
  · intro hout
    have hin : (h.props p).IsInput = false := by
      simp only [NodeProperty.IsOutput, NodeProperty.IsInput, beq_iff_eq] at hout ⊢
      simp [hout]
    simp [GetData, hin]

/-- C1 on `getDataHeap`: the connected input reads the output's value 10, the
three other properties read their own. -/
theorem C1_GetData_witness :
    ((getDataHeap.props 1).IsInput = true ∧ (getDataHeap.props 1).connections = [0] ∧
      (getDataHeap.conns 0).fromprop = some 0 ∧ (getDataHeap.props 0).IsInput = false ∧
      GetData getDataHeap (0 + 2) 1 = Except.ok (some 10)) ∧
    ((getDataHeap.props 2).connections = [] ∧
      GetData getDataHeap (0 + 1) 2 = Except.ok (some 12)) ∧
    ((getDataHeap.conns 1).fromprop = none ∧
      GetData getDataHeap (0 + 1) 3 = Except.ok (some 13)) ∧
    ((getDataHeap.props 0).IsOutput = true ∧
      GetData getDataHeap (0 + 1) 0 = Except.ok (some 10)) :=
  ⟨⟨rfl, rfl, rfl, rfl,
      ((C1_GetData getDataHeap 0 1).1 0 [] 0 rfl rfl rfl).2 rfl⟩,
    ⟨rfl, (C1_GetData getDataHeap 0 2).2.1 rfl rfl⟩,
    ⟨rfl, (C1_GetData getDataHeap 0 3).2.2.1 1 [] rfl rfl rfl⟩,
    ⟨rfl, (C1_GetData getDataHeap 0 0).2.2.2 rfl⟩⟩

/-! ## Claim C6 -/

/-- C6 (NodeBase::GetStatus, default policy), evaluated where it departs from
its documentation: on a node whose only input carries time 5 and whose only
output carries the older time 3, the newest input time `t` is 5, the output is
older than `t`, and `GetStatus()` still returns 0 (OK) instead of 1, because the
second loop passes over the outputs and compares the inputs with `t`. -/
theorem C6_GetStatus_stale_output_reported_ok :
    GetStatus.newest staleOutputHeap (staleOutputHeap.nodes 0).properties 0 = 5 ∧
    (staleOutputHeap.props 1).IsOutput = true ∧
    (staleOutputHeap.props 1).modtime < 5 ∧
    NodeBase.GetStatus staleOutputHeap 0 = 0 := by
  decide

/-! ## Claims C9 and C10 -/

/-- Division by zero with an operand B that is 0 both as `Update()` reads it,
through `GetData()`, and as `GetStatus()` reloads it, from the property (the two
are one value for an unconnected B).  For a math node whose operator is Divide
or Mod, for every A: `Update()` returns -1 and only writes the node's own
members `a`, `b`, `operation` and `result`, so that the value stored in Result,
every other node, every property, every value and the clock count are as before
and the call record shows this one call and no other; a following `GetStatus()`
returns -1. -/
lemma divide_by_zero_stored (env : Env) (fuel : Nat) (h : Heap) (n : Nat) (m : MathNode)
    (p0 p1 p2 p3 : Nat) (rest : List Nat) (vop va vb va' vb' : Nat)
    (enumdef : EnumDef) (idx : ℤ) (a a' : ℚ)
    (hm : (h.nodes n).math = some m)
    (hprops : (h.nodes n).properties = p0 :: p1 :: p2 :: p3 :: rest)
    (hop : GetData h (fuel + 1) p0 = Except.ok (some vop))
    (hopv : h.vals vop = Value.EnumValue enumdef idx)
    (hdiv : getEnumInfo enumdef idx = MathNodeOps.OP_Divide ∨
      getEnumInfo enumdef idx = MathNodeOps.OP_Mod)
    (hA : GetData h (fuel + 1) p1 = Except.ok (some va))
    (hAv : h.vals va = Value.DoubleValue a)
    (hB : GetData h (fuel + 1) p2 = Except.ok (some vb))
    (hBv : h.vals vb = Value.DoubleValue 0)
    (hA' : (h.props p1).data = some va') (hAv' : h.vals va' = Value.DoubleValue a')
    (hB' : (h.props p2).data = some vb') (hBv' : h.vals vb' = Value.DoubleValue 0) :
    ∃ h1 h2 : Heap,
      Update env (fuel + 1) h n = Except.ok (-1, h1) ∧
      h1 = setMath (enter h n) n
        { m with a := a, b := 0, operation := getEnumInfo enumdef idx, result := 0 } ∧
      h1.calls = h.calls ++ [n] ∧
      h1.props = h.props ∧ h1.vals = h.vals ∧ h1.conns = h.conns ∧ h1.ticks = h.ticks ∧
      (∀ k, k ≠ n → h1.nodes k = h.nodes k) ∧
      (h1.nodes n).modtime = (h.nodes n).modtime ∧
      GetStatus h1 n = Except.ok (-1, h2) ∧
      h2.props = h.props ∧ h2.vals = h.vals := by
  have hc : compute env (getEnumInfo enumdef idx) a 0 m.result = none := by
    rcases hdiv with hd | hd <;> simp [hd, compute]
  obtain ⟨op, hopd⟩ : ∃ op, op = getEnumInfo enumdef idx := ⟨_, rfl⟩
  rw [← hopd] at hdiv hc ⊢
  refine ⟨setMath (enter h n) n { m with a := a, b := 0, operation := op, result := 0 },
    setMath (setMath (enter h n) n { m with a := a, b := 0, operation := op, result := 0 }) n
      { m with a := a', b := 0, operation := op, result := 0 },
    ?_, rfl, rfl, rfl, rfl, rfl, rfl, ?_, ?_, ?_, rfl, rfl⟩
  · have hg : ∀ f p, GetData (enter h n) f p = GetData h f p :=
      fun f p => @GetData_congr h (enter h n) rfl rfl f p
    have hprops' : ((enter h n).nodes n).properties = p0 :: p1 :: p2 :: p3 :: rest := hprops
    have hv : (enter h n).vals = h.vals := rfl
    simp [Update, hm, MathNode.Update, propAt, hprops', hg, hv, hop, hA, hB, readDouble, hAv,
      hBv, readOp, hopv, ← hopd, hc, bind, Except.bind, pure, Except.pure]
  · intro k hk
    simp [setMath, enter, Function.update, hk]
  · simp [setMath, enter, Function.update]
  · have hn : ∀ (h0 : Heap) (m1 : MathNode), ((setMath h0 n m1).nodes n).math = some m1 := by
      intro h0 m1
      simp [setMath, Function.update]
    have hpr : ∀ m1 : MathNode,
        ((setMath (enter h n) n m1).nodes n).properties = p0 :: p1 :: p2 :: p3 :: rest := by
      intro m1
      simp [setMath, enter, Function.update, hprops]
    rw [GetStatus, hn]
    simp only [MathNode.GetStatus, propAt, hpr]
    rcases hdiv with hd | hd <;>
      simp [setMath, enter, hA', hB', readDouble, hAv', hBv', hd, bind, Except.bind, pure,
        Except.pure]

/-- C9 (division by zero), evaluated.  On `blockedHeap`, a Divide node
(operator index 3) and likewise a Mod node (index 4) whose input `B` is
connected to a Value node holding 0 and stores 3 itself: the B operand read
through `GetData()` is 0, `Update()` returns -1 and leaves the 7 stored in Result
and the clock as they were, with no call on the node downstream; but the
`GetStatus()` that follows reloads `b` from the stored 3 and returns 0, not -1.
On the Divide and Mod nodes of `mathHeap` with A = 4 and an unconnected B = 0,
`Update()` returns -1, Result keeps its 7, no other node is entered, and the
`GetStatus()` that follows returns -1. -/
theorem C9_connected_zero_divisor_status_ok :
    getEnumInfo DefineMathNodeDef 3 = MathNodeOps.OP_Divide ∧
    getEnumInfo DefineMathNodeDef 4 = MathNodeOps.OP_Mod ∧
    GetData (blockedHeap 3) 2 3 = Except.ok (some 0) ∧
    (blockedHeap 3).vals 0 = Value.DoubleValue 0 ∧
    (Update tickEnv 2 (blockedHeap 3) 1).map (fun r => (r.1, r.2.vals 4, r.2.calls, r.2.ticks)) =
      Except.ok (-1, Value.DoubleValue 7, [1], 10) ∧
    ((Update tickEnv 2 (blockedHeap 3) 1).bind (fun r => GetStatus r.2 1)).map Prod.fst =
      Except.ok 0 ∧
    (Update tickEnv 2 (blockedHeap 4) 1).map (fun r => (r.1, r.2.vals 4, r.2.calls, r.2.ticks)) =
      Except.ok (-1, Value.DoubleValue 7, [1], 10) ∧
    ((Update tickEnv 2 (blockedHeap 4) 1).bind (fun r => GetStatus r.2 1)).map Prod.fst =
      Except.ok 0 ∧
    (Update tickEnv 2 (mathHeap {} 3 4 0 7) 0).map (fun r => (r.1, r.2.vals 3, r.2.calls)) =
      Except.ok (-1, Value.DoubleValue 7, [0]) ∧
    ((Update tickEnv 2 (mathHeap {} 3 4 0 7) 0).bind (fun r => GetStatus r.2 0)).map Prod.fst =
      Except.ok (-1) ∧
    (Update tickEnv 2 (mathHeap {} 4 4 0 7) 0).map (fun r => (r.1, r.2.vals 3, r.2.calls)) =
      Except.ok (-1, Value.DoubleValue 7, [0]) ∧
    ((Update tickEnv 2 (mathHeap {} 4 4 0 7) 0).bind (fun r => GetStatus r.2 0)).map Prod.fst =
      Except.ok (-1) := by
  refine ⟨by decide, by decide, by decide, by decide!, by decide!, by decide!, by decide!,
    by decide!, by decide!, by decide!, by decide!, by decide!⟩

/-- C10 (MathNode::GetStatus), evaluated where it departs from the operator's
domain: a math node set to Add (index 0 of the operator enum) with A = 0 and
B = 1.  `Update()` selects `OP_Add`, stores 0 + 1 in Result, and returns -1;
`GetStatus()` on the updated node returns -1 (Error) as well, because the test
`a==0 || ...` that `Update()` applies under Power only is applied by
`GetStatus()` under every operator. -/
theorem C10_GetStatus_error_for_add :
    ∃ h1 h2 : Heap,
      Update tickEnv 2 (mathHeap {} 0 0 1 0) 0 = Except.ok (-1, h1) ∧
      (h1.nodes 0).math = some { operation := MathNodeOps.OP_Add, a := 0, b := 1, result := 1 } ∧
      h1.vals 3 = Value.DoubleValue 1 ∧
      GetStatus h1 0 = Except.ok (-1, h2) := by
  refine ⟨_, _, rfl, ?_, ?_, rfl⟩
  · decide!
  · decide!

/-! ## Pointer stack lemmas -/

lemma eraseIdx_indexOf (l : List Nat) (x : Nat) : l.eraseIdx (l.indexOf x) = l.erase x := by
  induction l with
  | nil => simp
  | cons a l ih =>
    by_cases hax : a = x
    · subst hax
      simp [List.indexOf_cons]
    · have hne : (a == x) = false := by simpa using hax
      simp [List.indexOf_cons, hne, List.erase_cons, ih]

lemma remove_findindex_of_mem {l : List Nat} {x : Nat} (hx : x ∈ l) :
    remove l (findindex l x) = l.erase x := by
  have hlt : l.indexOf x < l.length := List.indexOf_lt_length.mpr hx
  have h1 : ¬ ((l.indexOf x : Int) < 0 ∨ (l.length : Int) ≤ (l.indexOf x : Int)) := by
    omega
  simp only [remove, findindex, hx, if_true, h1, if_false, Int.toNat_ofNat]
  exact eraseIdx_indexOf l x

lemma remove_at_length (l1 l2 : List Nat) (x : Nat) :
    remove (l1 ++ x :: l2) (l1.length : Int) = l1 ++ l2 := by
  have h1 : ¬ ((l1.length : Int) < 0 ∨ ((l1 ++ x :: l2).length : Int) ≤ (l1.length : Int)) := by
    simp only [List.length_append, List.length_cons]
    omega
  simp only [remove, h1, if_false, Int.toNat_ofNat]
  rw [List.eraseIdx_append_of_length_le (le_refl _)]
  simp

lemma get?_at_length (l1 l2 : List Nat) (x : Nat) : (l1 ++ x :: l2).get? l1.length = some x := by
  rw [List.get?_eq_getElem?, List.getElem?_append_right (le_refl _)]
  simp

lemma erase_eq_filter_of_count_le_one (l : List Nat) (c : Nat) (hc : l.count c ≤ 1) :
    l.erase c = l.filter (fun x => !decide (x = c)) := by
  induction l with
  | nil => simp
  | cons a l ih =>
    by_cases hac : a = c
    · subst hac
      have h0 : l.count a = 0 := by
        simp only [List.count_cons_self] at hc
        omega
      have hnot : a ∉ l := List.count_eq_zero.mp h0
      simp only [List.erase_cons_head, decide_True, Bool.not_true, List.filter_cons_of_neg,
        Bool.false_eq_true, not_false_eq_true]
      symm
      rw [List.filter_eq_self]
      intro b hb
      have : b ≠ a := fun hba => hnot (hba ▸ hb)
      simp [this]
    · have hne : (a == c) = false := by simpa using hac
      have hc2 : l.count c ≤ 1 := by
        rw [List.count_cons_of_ne (Ne.symm hac)] at hc
        exact hc
      simp [List.erase_cons, hne, hac, ih hc2]

lemma filter_erase_self (l : List Nat) (c : Nat) :
    (l.erase c).filter (fun x => !decide (x = c)) = l.filter (fun x => !decide (x = c)) := by
  induction l with
  | nil => simp
  | cons a l ih =>
    by_cases hac : a = c
    · subst hac
      simp
    · have hne : (a == c) = false := by simpa using hac
      simp [List.erase_cons, hne, hac, ih]

lemma erase_erase_eq_filter_of_count_two (l : List Nat) (c : Nat) (hc : l.count c = 2) :
    (l.erase c).erase c = l.filter (fun x => !decide (x = c)) := by
  have h1 : (l.erase c).count c ≤ 1 := by
    rw [List.count_erase_self]
    omega
  rw [erase_eq_filter_of_count_le_one _ _ h1, filter_erase_self]

/-! ## The connection destructor -/

lemma filter_ne_of_count_zero (l : List Nat) (c : Nat) (hc : l.count c = 0) :
    l.filter (fun x => !decide (x = c)) = l := by
  rw [List.filter_eq_self]
  intro b hb
  have hnot : c ∉ l := List.count_eq_zero.mp hc
  have : b ≠ c := fun hbc => hnot (hbc ▸ hb)
  simp [this]

lemma destroy_frame (h : Heap) (c : Nat) :
    NodeConnection.destroy h c = { h with props := (NodeConnection.destroy h c).props } := by
  unfold NodeConnection.destroy
  cases hf : (h.conns c).fromprop <;> simp only [] <;>
    cases ht : (h.conns c).toprop <;> simp [setConnections, ht]

lemma destroy_props (h : Heap) (c : Nat)
    (hreg : ∀ p, (h.props p).connections.count c =
      (if (h.conns c).fromprop = some p then 1 else 0) +
      (if (h.conns c).toprop = some p then 1 else 0)) (p : Nat) :
    (NodeConnection.destroy h c).props p =
      { h.props p with
        connections := (h.props p).connections.filter (fun x => !decide (x = c)) } := by
  have hp := hreg p
  unfold NodeConnection.destroy
  cases hf : (h.conns c).fromprop with
  | none =>
    cases ht : (h.conns c).toprop with
    | none =>
      simp only [hf, ht, if_false, reduceCtorEq] at hp
      simp [ht, filter_ne_of_count_zero _ _ hp]
    | some p2 =>
      simp only [ht]
      by_cases hp2 : p = p2
      · subst hp2
        simp only [hf, ht, if_true, if_false, reduceCtorEq] at hp
        have hmem : c ∈ (h.props p).connections := by
          rw [← List.count_pos_iff]
          omega
        simp [setConnections, remove_findindex_of_mem hmem,
          erase_eq_filter_of_count_le_one _ _ (le_of_eq hp)]
      · have hne : ¬ (some p2 = some p) := fun e => hp2 (Option.some.inj e).symm
        simp only [hf, ht, hne, if_false, reduceCtorEq] at hp
        simp [setConnections, Function.update, hp2, filter_ne_of_count_zero _ _ hp]
  | some p1 =>
    have h1 := hreg p1
    have hmem1 : c ∈ (h.props p1).connections := by
      rw [← List.count_pos_iff]
      simp only [hf, if_true] at h1
      omega
    cases ht : (h.conns c).toprop with
    | none =>
      simp only [setConnections, ht]
      by_cases hp1 : p = p1
      · subst hp1
        simp only [hf, ht, if_true, if_false, reduceCtorEq] at hp
        simp [remove_findindex_of_mem hmem1,
          erase_eq_filter_of_count_le_one _ _ (le_of_eq hp)]
      · have hne : ¬ (some p1 = some p) := fun e => hp1 (Option.some.inj e).symm
        simp only [hf, ht, hne, if_false, reduceCtorEq] at hp
        simp [Function.update, hp1, filter_ne_of_count_zero _ _ hp]
    | some p2 =>
      simp only [setConnections, ht]
      by_cases h12 : p2 = p1
      · subst h12
        simp only [hf, ht, if_true] at h1
        have hmem2 : c ∈ ((h.props p2).connections.erase c) := by
          rw [← List.count_pos_iff, List.count_erase_self]
          omega
        by_cases hp1 : p = p2
        · subst hp1
          simp [remove_findindex_of_mem hmem1, remove_findindex_of_mem hmem2,
            erase_erase_eq_filter_of_count_two _ _ h1]
        · have hne : ¬ (some p2 = some p) := fun e => hp1 (Option.some.inj e).symm
          simp only [hf, ht, hne, if_false] at hp
          simp [Function.update, hp1, filter_ne_of_count_zero _ _ hp]
      · have h2 := hreg p2
        have hne21 : ¬ (some p1 = some p2) := fun e => h12 (Option.some.inj e).symm
        simp only [hf, ht, hne21, if_true, if_false] at h2
        have hne12 : ¬ (some p2 = some p1) := fun e => h12 (Option.some.inj e)
        simp only [hf, ht, hne12, if_true, if_false] at h1
        have hmem2 : c ∈ (h.props p2).connections := by
          rw [← List.count_pos_iff]
          omega
        by_cases hp1 : p = p1
        · subst hp1
          have hpp : ¬ (p = p2) := fun e => h12 e.symm
          simp [Function.update, hpp, h12, remove_findindex_of_mem hmem1,
            erase_eq_filter_of_count_le_one _ _ (le_of_eq h1)]
        · by_cases hp2 : p = p2
          · subst hp2
            simp [Function.update, h12, remove_findindex_of_mem hmem2,
              erase_eq_filter_of_count_le_one _ _ (le_of_eq h2)]
          · have hn1 : ¬ (some p1 = some p) := fun e => hp1 (Option.some.inj e).symm
            have hn2 : ¬ (some p2 = some p) := fun e => hp2 (Option.some.inj e).symm
            simp only [hf, ht, hn1, hn2, if_false] at hp
            simp [Function.update, hp1, hp2, filter_ne_of_count_zero _ _ hp]

/-- For a connection listed once by each endpoint property and nowhere else, its
destructor takes it out of every connection stack and changes nothing else. -/
lemma destroy_eq (h : Heap) (c : Nat)
    (hreg : ∀ p, (h.props p).connections.count c =
      (if (h.conns c).fromprop = some p then 1 else 0) +
      (if (h.conns c).toprop = some p then 1 else 0)) :
    NodeConnection.destroy h c = withoutConnections h (fun x => decide (x = c)) := by
  rw [destroy_frame]
  unfold withoutConnections
  congr 1
  funext p
  exact destroy_props h c hreg p

lemma withoutConnections_twice (h : Heap) (r1 r2 : Nat → Bool) :
    withoutConnections (withoutConnections h r1) r2 =
      withoutConnections h (fun c => r1 c || r2 c) := by
  unfold withoutConnections
  simp only [List.filter_filter]
  congr 1
  funext p
  congr 1
  apply List.filter_congr
  intro c _
  cases r1 c <;> cases r2 c <;> rfl

lemma withoutConnections_none (h : Heap) (r : Nat → Bool) (hr : ∀ c, r c = false) :
    withoutConnections h r = h := by
  unfold withoutConnections
  simp [hr]

/-! ## DeleteNodes: what the two loops compute -/

/-- The inner loop of `DeleteNodes` started at index `pre.length`: the part
`pre` of the group's connection stack loses the connections touching `node`,
the part above it stays, and only property stacks change in the store. -/
lemma cut_spec (node : Nat) (pre : List Nat) :
    ∀ (post : List Nat) (h : Heap),
      (DeleteNodes.cut node pre.length (h, pre ++ post)).2 =
        pre.filter (fun c => !touchesNode h node c) ++ post ∧
      (DeleteNodes.cut node pre.length (h, pre ++ post)).1 =
        { h with props := (DeleteNodes.cut node pre.length (h, pre ++ post)).1.props } ∧
      ((pre ++ post).Nodup →
        (∀ c ∈ pre, ∀ p, (h.props p).connections.count c =
          (if (h.conns c).fromprop = some p then 1 else 0) +
          (if (h.conns c).toprop = some p then 1 else 0)) →
        (DeleteNodes.cut node pre.length (h, pre ++ post)).1 =
          withoutConnections h (fun c => decide (c ∈ pre) && touchesNode h node c)) := by
  induction pre using List.reverseRecOn with
  | nil =>
    intro post h
    refine ⟨by simp [DeleteNodes.cut], by simp [DeleteNodes.cut], ?_⟩
    intro _ _
    simp only [List.length_nil, DeleteNodes.cut]
    rw [withoutConnections_none]
    intro c
    simp
  | append_singleton init x ih =>
    intro post h
    have hlen : (init ++ [x]).length = init.length + 1 := by simp
    have hget : (init ++ [x] ++ post).get? init.length = some x := by
      rw [List.append_assoc]
      exact get?_at_length init post x
    rw [hlen]
    simp only [DeleteNodes.cut, hget]
    by_cases hT : touchesNode h node x = true
    · have hrem : remove (init ++ [x] ++ post) (init.length : Int) = init ++ post := by
        rw [List.append_assoc]
        exact remove_at_length init post x
      simp only [hT, if_true, hrem]
      have hconns : (NodeConnection.destroy h x).conns = h.conns := by
        rw [destroy_frame]
      have hTeq : ∀ c, touchesNode (NodeConnection.destroy h x) node c = touchesNode h node c := by
        intro c
        simp [touchesNode, hconns]
      obtain ⟨ih1, ih2, ih3⟩ := ih post (NodeConnection.destroy h x)
      refine ⟨?_, ?_, ?_⟩
      · rw [ih1]
        simp [List.filter_append, hT, hTeq]
      · rw [ih2]
        rw [destroy_frame h x]
      · intro hnd hreg
        have hregx := hreg x (by simp)
        have hdx := destroy_eq h x hregx
        have hnd' : (init ++ post).Nodup := by
          rw [List.append_assoc] at hnd
          have := List.nodup_middle.mp hnd
          exact (List.nodup_cons.mp this).2
        have hxinit : x ∉ init := by
          rw [List.append_assoc] at hnd
          have := List.nodup_middle.mp hnd
          have h2 := (List.nodup_cons.mp this).1
          intro hx
          exact h2 (List.mem_append_left _ hx)
        have hreg' : ∀ c ∈ init, ∀ p,
            ((NodeConnection.destroy h x).props p).connections.count c =
              (if ((NodeConnection.destroy h x).conns c).fromprop = some p then 1 else 0) +
              (if ((NodeConnection.destroy h x).conns c).toprop = some p then 1 else 0) := by
          intro c hc p
          rw [hconns, destroy_props h x hregx p]
          have hcx : c ≠ x := fun e => hxinit (e ▸ hc)
          simp only []
          rw [List.count_filter (by simp [hcx])]
          exact hreg c (by simp [hc]) p
        rw [ih3 hnd' hreg', hdx, withoutConnections_twice]
        congr 1
        funext c
        have hTc : touchesNode (withoutConnections h fun x_1 => decide (x_1 = x)) node c =
            touchesNode h node c := by
          simp [touchesNode, withoutConnections]
        rw [hTc]
        by_cases hcx : c = x
        · subst hcx
          simp [hT]
        · simp [hcx]
    · have hTf : touchesNode h node x = false := by simpa using hT
      simp only [hTf, Bool.false_eq_true, if_false]
      have happ : init ++ [x] ++ post = init ++ (x :: post) := by simp
      rw [happ]
      obtain ⟨ih1, ih2, ih3⟩ := ih (x :: post) h
      refine ⟨?_, ih2, ?_⟩
      · rw [ih1]
        simp [List.filter_append, hTf]
      · intro hnd hreg
        rw [ih3 hnd (fun c hc => hreg c (by simp [hc]))]
        congr 1
        funext c
        by_cases hcx : c = x
        · subst hcx
          simp [hTf]
        · simp [hcx]

lemma touches_append_singleton (h : Heap) (D : List Nat) (x c : Nat) :
    touches h (D ++ [x]) c = (touches h D c || touchesNode h x c) := by
  simp [touches, List.any_append]

lemma touches_congr (h h' : Heap) (hc : h'.conns = h.conns) (D : List Nat) (c : Nat) :
    touches h' D c = touches h D c := by
  simp [touches, touchesNode, hc]

lemma deletedNodes_congr (h h' : Heap) (hn : h'.nodes = h.nodes) (l : List Nat) :
    deletedNodes h' l = deletedNodes h l := by
  simp [deletedNodes, hn]

/-- The outer loop of `DeleteNodes` started at index `pre.length`, for a
duplicate-free part `pre` of the selection whose nodes are in the group. -/
lemma loop_spec (pre : List Nat) :
    ∀ (post : List Nat) (st : DeleteState),
      st.selected = pre ++ post → pre.Nodup → (∀ x ∈ pre, x ∈ st.group.nodes) →
      (DeleteNodes.loop pre.length st).selected =
        pre.filter (fun x => !(st.heap.nodes x).deletable) ++ post ∧
      (DeleteNodes.loop pre.length st).numdel =
        st.numdel + ((deletedNodes st.heap pre).length : Int) ∧
      (DeleteNodes.loop pre.length st).group.nodes =
        st.group.nodes.diff (deletedNodes st.heap pre) ∧
      (DeleteNodes.loop pre.length st).group.connections =
        st.group.connections.filter (fun c => !touches st.heap (deletedNodes st.heap pre) c) ∧
      (DeleteNodes.loop pre.length st).group.output = st.group.output ∧
      (DeleteNodes.loop pre.length st).group.input = st.group.input ∧
      (DeleteNodes.loop pre.length st).heap =
        { st.heap with props := (DeleteNodes.loop pre.length st).heap.props } ∧
      (Registered st.heap st.group →
        (DeleteNodes.loop pre.length st).heap =
          withoutConnections st.heap (fun c => decide (c ∈ st.group.connections) &&
            touches st.heap (deletedNodes st.heap pre) c)) := by
  induction pre using List.reverseRecOn with
  | nil =>
    intro post st hsel _ _
    simp only [List.length_nil, DeleteNodes.loop, deletedNodes, List.filter_nil, List.nil_append,
      List.diff_nil, List.length_nil, Int.ofNat_zero, add_zero, true_and, hsel]
    refine ⟨?_, ?_⟩
    · simp [touches]
    · intro _
      rw [withoutConnections_none]
      intro c
      simp [touches]
  | append_singleton init x ih =>
    intro post st hsel hnd hmem
    have hlen : (init ++ [x]).length = init.length + 1 := by simp
    have hget : st.selected.get? init.length = some x := by
      rw [hsel, List.append_assoc]
      exact get?_at_length init post x
    have hndi : init.Nodup := (List.nodup_append.mp hnd).1
    have hxinit : x ∉ init := by
      intro hx
      exact (List.nodup_append.mp hnd).2.2 hx (by simp)
    rw [hlen]
    simp only [DeleteNodes.loop, hget]
    by_cases hdel : (st.heap.nodes x).deletable = false
    · simp only [hdel, if_true]
      have hsel' : st.selected = init ++ (x :: post) := by rw [hsel]; simp
      obtain ⟨i1, i2, i3, i4, i5, i6, i7, i8⟩ :=
        ih (x :: post) st hsel' hndi (fun y hy => hmem y (by simp [hy]))
      have hD : deletedNodes st.heap (init ++ [x]) = deletedNodes st.heap init := by
        simp [deletedNodes, List.filter_append, hdel]
      rw [hD]
      refine ⟨?_, i2, i3, i4, i5, i6, i7, i8⟩
      rw [i1]
      simp [List.filter_append, hdel]
    · have hdel' : (st.heap.nodes x).deletable = true := by simpa using hdel
      simp only [hdel', Bool.true_eq_false, if_false]
      have hcut := cut_spec x st.group.connections [] st.heap
      simp only [List.append_nil] at hcut
      obtain ⟨c1, c2, c3⟩ := hcut
      have hxmem : x ∈ st.group.nodes := hmem x (by simp)
      have hrem : remove st.selected (init.length : Int) = init ++ post := by
        rw [hsel, List.append_assoc]
        exact remove_at_length init post x
      have hnodes : (DeleteNodes.cut x st.group.connections.length
          (st.heap, st.group.connections)).1.nodes = st.heap.nodes := by
        rw [c2]
      have hconns : (DeleteNodes.cut x st.group.connections.length
          (st.heap, st.group.connections)).1.conns = st.heap.conns := by
        rw [c2]
      rw [hrem, remove_findindex_of_mem hxmem]
      obtain ⟨i1, i2, i3, i4, i5, i6, i7, i8⟩ :=
        ih post
          { heap := (DeleteNodes.cut x st.group.connections.length
              (st.heap, st.group.connections)).1
            group := { st.group with
              nodes := st.group.nodes.erase x
              connections := (DeleteNodes.cut x st.group.connections.length
                (st.heap, st.group.connections)).2 }
            selected := init ++ post
            numdel := st.numdel + 1 }
          rfl hndi
          (fun y hy => (List.mem_erase_of_ne (fun (e : y = x) => hxinit (e ▸ hy))).mpr
            (hmem y (by simp [hy])))
      simp only [hnodes, deletedNodes_congr _ _ hnodes, touches_congr _ _ hconns] at i1 i2 i3 i4 i8
      have hD : deletedNodes st.heap (init ++ [x]) = deletedNodes st.heap init ++ [x] := by
        simp [deletedNodes, List.filter_append, hdel']
      rw [hD]
      refine ⟨?_, ?_, ?_, ?_, i5, i6, ?_, ?_⟩
      · rw [i1]
        simp [List.filter_append, hdel']
      · rw [i2]
        simp only [List.length_append, List.length_singleton, Nat.cast_add, Nat.cast_one]
        ring
      · have e1 : (st.group.nodes.erase x).diff (deletedNodes st.heap init) =
            (st.group.nodes.diff (deletedNodes st.heap init)).erase x := by
          rw [← List.diff_cons, List.diff_cons_right]
        have e2 : (st.group.nodes.diff (deletedNodes st.heap init)).diff [x] =
            (st.group.nodes.diff (deletedNodes st.heap init)).erase x := by
          rw [List.diff_cons, List.diff_nil]
        rw [i3, List.diff_append, e1, e2]
      · rw [i4, c1, List.filter_filter]
        apply List.filter_congr
        intro c _
        rw [touches_append_singleton]
        cases touches st.heap (deletedNodes st.heap init) c <;>
          cases touchesNode st.heap x c <;> rfl
      · rw [i7]
        simp only []
        rw [c2]
      · intro hreg
        have hc3 := c3 hreg.1 (fun c hc p => hreg.2 c hc p)
        have hreg' : Registered
            (DeleteNodes.cut x st.group.connections.length (st.heap, st.group.connections)).1
            { st.group with
              nodes := st.group.nodes.erase x
              connections := (DeleteNodes.cut x st.group.connections.length
                (st.heap, st.group.connections)).2 } := by
          refine ⟨?_, ?_⟩
          · simp only [c1]
            exact hreg.1.filter _
          · intro c hc p
            simp only [c1, List.mem_filter] at hc
            rw [hconns, hc3]
            simp only [withoutConnections]
            rw [List.count_filter (by simp [hc.2])]
            exact hreg.2 c hc.1 p
        rw [i8 hreg', hc3, withoutConnections_twice]
        congr 1
        funext c
        simp only [c1, List.mem_filter, touches_append_singleton]
        by_cases hcm : c ∈ st.group.connections <;>
          cases touches st.heap (deletedNodes st.heap init) c <;>
          cases hT : touchesNode st.heap x c <;> simp [hcm, hT]

/-! ## Claims C4 and C5 -/

/-- What `DeleteNodes` returns for a duplicate-free selection of member nodes. -/
lemma DeleteNodes_spec (h : Heap) (g : NodeGroup) (selected : List Nat)
    (hnd : selected.Nodup) (hmem : ∀ x ∈ selected, x ∈ g.nodes) :
    (NodeGroup.DeleteNodes h g selected).selected =
        selected.filter (fun x => !(h.nodes x).deletable) ∧
    (NodeGroup.DeleteNodes h g selected).numdel = ((deletedNodes h selected).length : Int) ∧
    (NodeGroup.DeleteNodes h g selected).group.nodes = g.nodes.diff (deletedNodes h selected) ∧
    (NodeGroup.DeleteNodes h g selected).group.connections =
        g.connections.filter (fun c => !touches h (deletedNodes h selected) c) ∧
    (NodeGroup.DeleteNodes h g selected).heap =
        { h with props := (NodeGroup.DeleteNodes h g selected).heap.props } ∧
    (Registered h g →
      (NodeGroup.DeleteNodes h g selected).heap =
        withoutConnections h (fun c => decide (c ∈ g.connections) &&
          touches h (deletedNodes h selected) c)) := by
  have hs := loop_spec selected []
    { heap := h, group := g, selected := selected, numdel := 0 } (by simp) hnd hmem
  simp only [List.append_nil, zero_add] at hs
  obtain ⟨i1, i2, i3, i4, _, _, i7, i8⟩ := hs
  exact ⟨i1, i2, i3, i4, i7, i8⟩

/-- C4 (NodeGroup::DeleteNodes).  For a selection of member nodes without
duplicates: the returned count is the number of deletable selected nodes; the
node list afterwards is the original list with one occurrence of each of them
taken out, a sublist of the original (the order of the others is kept), and,
when the group lists no node twice, exactly the original list without the
deletable selected nodes; every selected node that is not deletable is still in
the node list and still in the selection. -/
theorem C4_DeleteNodes (h : Heap) (g : NodeGroup) (selected : List Nat)
    (hnd : selected.Nodup) (hmem : ∀ x ∈ selected, x ∈ g.nodes) :
    (NodeGroup.DeleteNodes h g selected).numdel =
        ((selected.filter (fun x => (h.nodes x).deletable)).length : Int) ∧
    (NodeGroup.DeleteNodes h g selected).group.nodes =
        g.nodes.diff (selected.filter (fun x => (h.nodes x).deletable)) ∧
    (NodeGroup.DeleteNodes h g selected).group.nodes.Sublist g.nodes ∧
    (g.nodes.Nodup →
      (NodeGroup.DeleteNodes h g selected).group.nodes =
        g.nodes.filter (fun x => !(decide (x ∈ selected) && (h.nodes x).deletable))) ∧
    (∀ x ∈ selected, (h.nodes x).deletable = false →
      x ∈ (NodeGroup.DeleteNodes h g selected).group.nodes ∧
      x ∈ (NodeGroup.DeleteNodes h g selected).selected) := by
  obtain ⟨i1, i2, i3, _, _, _⟩ := DeleteNodes_spec h g selected hnd hmem
  simp only [deletedNodes] at i2 i3
  refine ⟨i2, i3, ?_, ?_, ?_⟩
  · rw [i3]
    exact List.diff_sublist _ _
  · intro hgn
    rw [i3, hgn.diff_eq_filter]
    apply List.filter_congr
    intro x _
    by_cases hx : x ∈ selected <;> cases hd : (h.nodes x).deletable <;>
      simp [List.mem_filter, hx, hd]
  · intro x hx hdel
    refine ⟨?_, ?_⟩
    · rw [i3]
      apply List.mem_diff_of_mem (hmem x hx)
      simp [List.mem_filter, hdel]
    · rw [i1]
      simp [List.mem_filter, hx, hdel]

/-- C4 on `deleteHeap`, with B (deletable) and C (not deletable) selected: one
node is deleted, B leaves the node list, C stays in it and in the selection. -/
theorem C4_DeleteNodes_witness :
    [1, 2].Nodup ∧ (∀ x ∈ [1, 2], x ∈ deleteGroup.nodes) ∧ deleteGroup.nodes.Nodup ∧
    (NodeGroup.DeleteNodes deleteHeap deleteGroup [1, 2]).numdel = 1 ∧
    (NodeGroup.DeleteNodes deleteHeap deleteGroup [1, 2]).group.nodes = [0, 2, 3, 4] ∧
    (2 ∈ (NodeGroup.DeleteNodes deleteHeap deleteGroup [1, 2]).group.nodes ∧
      2 ∈ (NodeGroup.DeleteNodes deleteHeap deleteGroup [1, 2]).selected) :=
  ⟨by decide, by decide, by decide,
    (C4_DeleteNodes deleteHeap deleteGroup [1, 2] (by decide) (by decide)).1.trans (by decide),
    ((C4_DeleteNodes deleteHeap deleteGroup [1, 2] (by decide) (by decide)).2.2.2.1
      (by decide)).trans (by decide),
    (C4_DeleteNodes deleteHeap deleteGroup [1, 2] (by decide) (by decide)).2.2.2.2 2
      (by decide) (by decide)⟩

lemma SameGraph.same (h : Heap) : SameGraph h h :=
  ⟨rfl, rfl, rfl, rfl, rfl, fun _ => rfl⟩

lemma SameGraph.then {h1 h2 h3 : Heap} (h12 : SameGraph h1 h2) (h23 : SameGraph h2 h3) :
    SameGraph h1 h3 := by
  obtain ⟨a1, a2, a3, a4, a5, a6⟩ := h12
  obtain ⟨b1, b2, b3, b4, b5, b6⟩ := h23
  exact ⟨b1.trans a1, b2.trans a2, b3.trans a3, b4.trans a4, b5.trans a5,
    fun n => (b6 n).trans (a6 n)⟩

lemma SameGraph.properties {h h' : Heap} (hs : SameGraph h h') (n : Nat) :
    (h'.nodes n).properties = (h.nodes n).properties := by
  have := congrArg NodeBase.properties (hs.2.2.2.2.2 n)
  exact this

lemma SameGraph.math {h h' : Heap} (hs : SameGraph h h') (n : Nat) :
    (h'.nodes n).math = (h.nodes n).math := by
  have := congrArg NodeBase.math (hs.2.2.2.2.2 n)
  exact this

lemma SameGraph.downstream {h h' : Heap} (hs : SameGraph h h') (x y : Nat) :
    Downstream h' x y ↔ Downstream h x y := by
  simp only [Downstream, hs.properties, hs.1, hs.2.1]

lemma SameGraph.status {h h' : Heap} (hs : SameGraph h h') (n : Nat) :
    NodeBase.GetStatus h' n = NodeBase.GetStatus h n := by
  have hn : ∀ l t, GetStatus.newest h' l t = GetStatus.newest h l t := by
    intro l
    induction l with
    | nil => intro t; rfl
    | cons c cs ih => intro t; simp only [GetStatus.newest, hs.1, ih]
  have ho : ∀ l t, GetStatus.older h' t l = GetStatus.older h t l := by
    intro l t
    induction l with
    | nil => rfl
    | cons c cs ih => simp only [GetStatus.older, hs.1, ih]
  simp only [NodeBase.GetStatus, hs.properties, hn, ho]

lemma Step.stay (env : Env) (h : Heap) : Step env h h :=
  ⟨SameGraph.same h, le_refl _, ⟨[], by simp⟩, fun _ => Or.inl rfl⟩

lemma Step.andThen {env : Env} {h1 h2 h3 : Heap} (h12 : Step env h1 h2) (h23 : Step env h2 h3) :
    Step env h1 h3 := by
  obtain ⟨a1, a2, ⟨l1, a3⟩, a4⟩ := h12
  obtain ⟨b1, b2, ⟨l2, b3⟩, b4⟩ := h23
  refine ⟨a1.then b1, le_trans a2 b2, ⟨l1 ++ l2, by rw [b3, a3, List.append_assoc]⟩, ?_⟩
  intro n
  rcases b4 n with hb | ⟨k, hk1, hk2, hk3⟩
  · rcases a4 n with ha | ⟨k, hk1, hk2, hk3⟩
    · exact Or.inl (hb.trans ha)
    · exact Or.inr ⟨k, hk1, lt_of_lt_of_le hk2 b2, hb.trans hk3⟩
  · exact Or.inr ⟨k, le_trans a2 hk1, hk2, hk3⟩

lemma Visited.step_right {env : Env} {h1 h2 h3 : Heap} {m : Nat}
    (h12 : Step env h1 h2) (hv : Visited env h1 h2 m) (h23 : Step env h2 h3) :
    Visited env h1 h3 m := by
  obtain ⟨_, a2, ⟨l1, a3⟩, _⟩ := h12
  obtain ⟨_, b2, ⟨l2, b3⟩, b4⟩ := h23
  obtain ⟨hc, k, hk1, hk2, hk3⟩ := hv
  refine ⟨?_, ?_⟩
  · rw [b3, List.drop_append_of_le_length (by rw [a3]; simp)]
    exact List.mem_append_left _ hc
  · rcases b4 m with hb | ⟨k', hk1', hk2', hk3'⟩
    · exact ⟨k, hk1, lt_of_lt_of_le hk2 b2, hb.trans hk3⟩
    · exact ⟨k', le_trans a2 hk1', hk2', hk3'⟩

lemma Visited.step_left {env : Env} {h1 h2 h3 : Heap} {m : Nat}
    (h12 : Step env h1 h2) (hv : Visited env h2 h3 m) : Visited env h1 h3 m := by
  obtain ⟨_, a2, ⟨l1, a3⟩, _⟩ := h12
  obtain ⟨hc, k, hk1, hk2, hk3⟩ := hv
  refine ⟨?_, ⟨k, le_trans a2 hk1, hk2, hk3⟩⟩
  have hlen : h2.calls.length = h1.calls.length + l1.length := by rw [a3]; simp
  rw [hlen, ← List.drop_drop] at hc
  exact List.mem_of_mem_drop hc

/-- The connection loop of `NodeBase::Update`, for a callee `upd` that returns
on every node satisfying `S` and visits all that is reachable from it. -/
lemma updateConns_ok (env : Env) (h0 : Heap) (upd : Heap → Nat → Except Fault (Int × Heap))
    (S : Nat → Prop)
    (hupd : ∀ h t, SameGraph h0 h → S t → ∃ r, upd h t = Except.ok r ∧ Step env h r.2 ∧
      ∀ m, Relation.ReflTransGen (Downstream h0) t m → Visited env h r.2 m) :
    ∀ (cs : List Nat) (h : Heap), SameGraph h0 h →
      (∀ c ∈ cs, ∀ t, (h0.conns c).to_ = some t → S t) →
      ∃ h', updateConns upd h cs = Except.ok h' ∧ Step env h h' ∧
        ∀ c ∈ cs, ∀ t, (h0.conns c).to_ = some t →
          ∀ m, Relation.ReflTransGen (Downstream h0) t m → Visited env h h' m := by
  intro cs
  induction cs with
  | nil =>
    intro h _ _
    exact ⟨h, rfl, Step.stay env h, fun c hc => absurd hc (List.not_mem_nil c)⟩
  | cons c cs ih =>
    intro h hs hS
    have hconn : h.conns c = h0.conns c := by rw [hs.2.1]
    cases hto : (h0.conns c).to_ with
    | none =>
      obtain ⟨h', e1, e2, e3⟩ := ih h hs (fun c' hc' => hS c' (List.mem_cons_of_mem _ hc'))
      refine ⟨h', ?_, e2, ?_⟩
      · simp only [updateConns, hconn, hto]
        exact e1
      · intro c' hc' t ht
        rcases List.mem_cons.mp hc' with rfl | hc''
        · rw [hto] at ht
          cases ht
        · exact e3 c' hc'' t ht
    | some t =>
      obtain ⟨r, r1, r2, r3⟩ := hupd h t hs (hS c (List.mem_cons_self _ _) t hto)
      obtain ⟨h', e1, e2, e3⟩ := ih r.2 (hs.then r2.1)
        (fun c' hc' => hS c' (List.mem_cons_of_mem _ hc'))
      refine ⟨h', ?_, r2.andThen e2, ?_⟩
      · simp only [updateConns, hconn, hto, r1]
        exact e1
      · intro c' hc' t' ht' m hm
        rcases List.mem_cons.mp hc' with rfl | hc''
        · rw [hto] at ht'
          cases ht'
          exact (r3 m hm).step_right r2 e2
        · exact (e3 c' hc'' t' ht' m hm).step_left r2

/-- The property loop of `NodeBase::Update`, under the same assumption on the
callee. -/
lemma updateProps_ok (env : Env) (h0 : Heap) (upd : Heap → Nat → Except Fault (Int × Heap))
    (S : Nat → Prop)
    (hupd : ∀ h t, SameGraph h0 h → S t → ∃ r, upd h t = Except.ok r ∧ Step env h r.2 ∧
      ∀ m, Relation.ReflTransGen (Downstream h0) t m → Visited env h r.2 m) :
    ∀ (ps : List Nat) (h : Heap), SameGraph h0 h →
      (∀ p ∈ ps, (h0.props p).IsInput = false → ∀ c ∈ (h0.props p).connections,
        ∀ t, (h0.conns c).to_ = some t → S t) →
      ∃ h', updateProps upd h ps = Except.ok h' ∧ Step env h h' ∧
        ∀ p ∈ ps, (h0.props p).IsInput = false → ∀ c ∈ (h0.props p).connections,
          ∀ t, (h0.conns c).to_ = some t →
            ∀ m, Relation.ReflTransGen (Downstream h0) t m → Visited env h h' m := by
  intro ps
  induction ps with
  | nil =>
    intro h _ _
    exact ⟨h, rfl, Step.stay env h, fun p hp => absurd hp (List.not_mem_nil p)⟩
  | cons p ps ih =>
    intro h hs hS
    have hprop : h.props p = h0.props p := by rw [hs.1]
    cases hin : (h0.props p).IsInput with
    | true =>
      obtain ⟨h', e1, e2, e3⟩ := ih h hs (fun p' hp' => hS p' (List.mem_cons_of_mem _ hp'))
      refine ⟨h', ?_, e2, ?_⟩
      · simp only [updateProps, hprop, hin, if_true]
        exact e1
      · intro p' hp' hin'
        rcases List.mem_cons.mp hp' with rfl | hp''
        · rw [hin] at hin'
          cases hin'
        · exact e3 p' hp'' hin'
    | false =>
      by_cases hlen : (h0.props p).connections.length = 0
      · obtain ⟨h', e1, e2, e3⟩ := ih h hs (fun p' hp' => hS p' (List.mem_cons_of_mem _ hp'))
        refine ⟨h', ?_, e2, ?_⟩
        · simp only [updateProps, hprop, hin, hlen, if_true, Bool.false_eq_true, if_false]
          exact e1
        · intro p' hp' hin' c hc
          rcases List.mem_cons.mp hp' with rfl | hp''
          · rw [List.length_eq_zero.mp hlen] at hc
            exact absurd hc (List.not_mem_nil c)
          · exact e3 p' hp'' hin' c hc
      · obtain ⟨h1, c1, c2, c3⟩ := updateConns_ok env h0 upd S hupd (h0.props p).connections h hs
          (fun c hc => hS p (List.mem_cons_self _ _) hin c hc)
        obtain ⟨h', e1, e2, e3⟩ := ih h1 (hs.then c2.1)
          (fun p' hp' => hS p' (List.mem_cons_of_mem _ hp'))
        refine ⟨h', ?_, c2.andThen e2, ?_⟩
        · simp only [updateProps, hprop, hin, hlen, Bool.false_eq_true, if_false, c1]
          exact e1
        · intro p' hp' hin' c hc t ht m hm
          rcases List.mem_cons.mp hp' with rfl | hp''
          · exact (c3 c hc t ht m hm).step_right c2 e2
          · exact (e3 p' hp'' hin' c hc t ht m hm).step_left c2

lemma Step.of_enter (env : Env) (h : Heap) (a : Nat) : Step env h (enter h a) :=
  ⟨⟨rfl, rfl, rfl, rfl, rfl, fun _ => rfl⟩, le_refl _, ⟨[a], rfl⟩, fun _ => Or.inl rfl⟩

lemma Step.of_stampNode (env : Env) (h : Heap) (a : Nat) : Step env h (stampNode env h a) := by
  refine ⟨⟨rfl, rfl, rfl, rfl, rfl, ?_⟩, Nat.le_succ _, ⟨[], by simp [stampNode]⟩, ?_⟩
  · intro n
    by_cases hn : n = a
    · subst hn
      simp [stampNode]
    · simp [stampNode, Function.update, hn]
  · intro n
    by_cases hn : n = a
    · subst hn
      exact Or.inr ⟨h.ticks, le_refl _, Nat.lt_succ_self _, by simp [stampNode]⟩
    · exact Or.inl (by simp [stampNode, Function.update, hn])

/-- In a graph of default nodes ranked so that every downstream edge lowers the
rank, `Update()` returns as soon as the fuel exceeds the rank of the node. -/
lemma update_core (env : Env) (rank : Nat → Nat) (h0 : Heap)
    (hdef : ∀ n, (h0.nodes n).math = none)
    (hrank : ∀ x y, Downstream h0 x y → rank y < rank x) :
    ∀ (fuel : Nat) (h : Heap) (a : Nat), SameGraph h0 h → rank a < fuel →
      ∃ h', Update env fuel h a = Except.ok (NodeBase.GetStatus h' a, h') ∧
        Step env h h' ∧ h.ticks < h'.ticks ∧
        (h'.nodes a).modtime = env.clock (h'.ticks - 1) ∧
        ∀ m, Relation.ReflTransGen (Downstream h0) a m → Visited env h h' m := by
  intro fuel
  induction fuel with
  | zero =>
    intro h a _ hlt
    exact absurd hlt (Nat.not_lt_zero _)
  | succ fuel ih =>
    intro h a hs hlt
    have hmath : (h.nodes a).math = none := by rw [hs.math, hdef]
    have hse : Step env h (enter h a) := Step.of_enter env h a
    have hs1 : SameGraph h0 (enter h a) := hs.then hse.1
    have hupd : ∀ h1 t, SameGraph h0 h1 → rank t < fuel →
        ∃ r, Update env fuel h1 t = Except.ok r ∧ Step env h1 r.2 ∧
          ∀ m, Relation.ReflTransGen (Downstream h0) t m → Visited env h1 r.2 m := by
      intro h1 t hs1 ht
      obtain ⟨h', e1, e2, _, _, e5⟩ := ih h1 t hs1 ht
      exact ⟨_, e1, e2, e5⟩
    have hS : ∀ p ∈ (h0.nodes a).properties, (h0.props p).IsInput = false →
        ∀ c ∈ (h0.props p).connections, ∀ t, (h0.conns c).to_ = some t → rank t < fuel := by
      intro p hp hin c hc t ht
      have := hrank a t ⟨p, hp, hin, c, hc, ht⟩
      omega
    obtain ⟨h1, p1, p2, p3⟩ := updateProps_ok env h0 (Update env fuel) (fun t => rank t < fuel)
      hupd (h0.nodes a).properties (enter h a) hs1 hS
    have hst : Step env h1 (stampNode env h1 a) := Step.of_stampNode env h1 a
    have hs2 : SameGraph h0 (stampNode env h1 a) := (hs1.then p2.1).then hst.1
    have hmath2 : ((stampNode env h1 a).nodes a).math = none := by rw [hs2.math, hdef]
    have hprops : ((enter h a).nodes a).properties = (h0.nodes a).properties := hs1.properties a
    refine ⟨stampNode env h1 a, ?_, hse.andThen (p2.andThen hst), ?_, ?_, ?_⟩
    · simp only [Update, hmath, NodeBase.Update, hprops, p1, GetStatus, hmath2]
    · have h1le : (enter h a).ticks ≤ h1.ticks := p2.2.1
      have : (stampNode env h1 a).ticks = h1.ticks + 1 := rfl
      have heq : (enter h a).ticks = h.ticks := rfl
      omega
    · simp [stampNode]
    · intro m hm
      rcases Relation.ReflTransGen.cases_head hm with rfl | ⟨y, hy, hym⟩
      · refine ⟨?_, ?_⟩
        · obtain ⟨l, hl⟩ := p2.2.2.1
          have hc : (stampNode env h1 a).calls = h.calls ++ ([a] ++ l) := by
            show h1.calls = _
            rw [hl]
            simp [enter]
          rw [hc, List.drop_left]
          simp
        · have h1le : (enter h a).ticks ≤ h1.ticks := p2.2.1
          exact ⟨h1.ticks, h1le, Nat.lt_succ_self _, by simp [stampNode]⟩
      · obtain ⟨p, hp, hin, c, hc, ht⟩ := hy
        exact ((p3 p hp hin c hc y ht m hym).step_right p2 hst).step_left hse

/-! ## Claims C7 and C8 -/

/-- A finite graph without cycles has a rank that every downstream edge
lowers: the number of listed nodes reachable from a node. -/
lemma exists_rank (h : Heap) (L : List Nat) (hfin : ∀ x y, Downstream h x y → y ∈ L)
    (hacyc : ∀ x, ¬ Relation.TransGen (Downstream h) x x) :
    ∃ rank : Nat → Nat, ∀ x y, Downstream h x y → rank y < rank x := by
  classical
  refine ⟨fun x => (L.toFinset.filter (fun m => Relation.TransGen (Downstream h) x m)).card, ?_⟩
  intro x y hxy
  apply Finset.card_lt_card
  rw [Finset.ssubset_iff_of_subset]
  · exact ⟨y, by simp [hfin x y hxy, Relation.TransGen.single hxy], by simp [hacyc y]⟩
  · intro m hm
    simp only [Finset.mem_filter, List.mem_toFinset] at hm ⊢
    exact ⟨hm.1, Relation.TransGen.head hxy hm.2⟩

/-- A graph with a rank that every downstream edge lowers has no cycle. -/
lemma acyclic_of_rank (h : Heap) (rank : Nat → Nat)
    (hrank : ∀ x y, Downstream h x y → rank y < rank x) :
    ∀ x, ¬ Relation.TransGen (Downstream h) x x := by
  have hlt : ∀ x y, Relation.TransGen (Downstream h) x y → rank y < rank x := by
    intro x y hxy
    induction hxy with
    | single hab => exact hrank _ _ hab
    | tail _ hbc ih => exact lt_trans (hrank _ _ hbc) ih
  intro x hx
  exact lt_irrefl _ (hlt x x hx)

/-- The two downstream edges of `chainHeap`. -/
lemma chain_downstream (x y : Nat) (hd : Downstream chainHeap x y) :
    (x = 0 ∧ y = 1) ∨ (x = 1 ∧ y = 2) := by
  obtain ⟨p, hp, hin, c, hc, ht⟩ := hd
  rcases x with _ | _ | _ | x
  · have hp0 : p = 0 := by simpa [chainHeap] using hp
    subst hp0
    have hc0 : c = 0 := by simpa [chainHeap] using hc
    subst hc0
    have : y = 1 := by simpa [chainHeap, eq_comm] using ht
    exact Or.inl ⟨rfl, this⟩
  · have hp0 : p = 1 ∨ p = 4 ∨ p = 2 := by simpa [chainHeap] using hp
    rcases hp0 with rfl | rfl | rfl
    · exact absurd hin (by decide)
    · exact absurd hin (by decide)
    · have hc0 : c = 1 := by simpa [chainHeap] using hc
      subst hc0
      have : y = 2 := by simpa [chainHeap, eq_comm] using ht
      exact Or.inr ⟨rfl, this⟩
  · have hp0 : p = 3 := by simpa [chainHeap] using hp
    subst hp0
    exact absurd hin (by decide)
  · simp [chainHeap] at hp

lemma chain_default : ∀ n, (chainHeap.nodes n).math = none := by
  intro n
  simp only [chainHeap]
  split_ifs <;> rfl

lemma chain_finite : ∀ x y, Downstream chainHeap x y → y ∈ [1, 2] := by
  intro x y hd
  rcases chain_downstream x y hd with ⟨_, rfl⟩ | ⟨_, rfl⟩ <;> simp

lemma chain_acyclic : ∀ x, ¬ Relation.TransGen (Downstream chainHeap) x x := by
  apply acyclic_of_rank chainHeap (fun n => 2 - n)
  intro x y hd
  rcases chain_downstream x y hd with ⟨rfl, rfl⟩ | ⟨rfl, rfl⟩ <;> decide

lemma chain_edge_AB : Downstream chainHeap 0 1 :=
  ⟨0, by decide, by decide, 0, by decide, by decide⟩

lemma chain_edge_BC : Downstream chainHeap 1 2 :=
  ⟨2, by decide, by decide, 1, by decide, by decide⟩

/-- C8 (NodeBase::Update terminates on a finite acyclic graph).  In a graph of
default nodes whose downstream edges end in finitely many nodes and in which no
node is reachable from itself, `Update()` on a node returns for every
sufficiently large recursion budget.  It returns the node's `GetStatus()` in the
final store; the node's modification time is the last clock reading taken; on
every node reachable downstream from it `Update()` was entered during the call
and the node's modification time is a clock reading taken during the call; and
the graph itself (properties, connections, values, nodes up to their
modification times) is unchanged. -/
theorem C8_Update_terminates (env : Env) (h : Heap) (L : List Nat) (a : Nat)
    (hdef : ∀ n, (h.nodes n).math = none)
    (hfin : ∀ x y, Downstream h x y → y ∈ L)
    (hacyc : ∀ x, ¬ Relation.TransGen (Downstream h) x x) :
    ∃ N, ∀ fuel, N ≤ fuel → ∃ h' : Heap,
      Update env fuel h a = Except.ok (NodeBase.GetStatus h' a, h') ∧
      GetStatus h' a = Except.ok (NodeBase.GetStatus h' a, h') ∧
      SameGraph h h' ∧
      h.ticks < h'.ticks ∧ (h'.nodes a).modtime = env.clock (h'.ticks - 1) ∧
      ∀ m, Relation.ReflTransGen (Downstream h) a m →
        m ∈ h'.calls.drop h.calls.length ∧
        ∃ k, h.ticks ≤ k ∧ k < h'.ticks ∧ (h'.nodes m).modtime = env.clock k := by
  obtain ⟨rank, hrank⟩ := exists_rank h L hfin hacyc
  refine ⟨rank a + 1, ?_⟩
  intro fuel hfuel
  obtain ⟨h', e1, e2, e3, e4, e5⟩ :=
    update_core env rank h hdef hrank fuel h a (SameGraph.same h) (by omega)
  refine ⟨h', e1, ?_, e2.1, e3, e4, fun m hm => e5 m hm⟩
  have hm : (h'.nodes a).math = none := by rw [e2.1.math, hdef]
  simp only [GetStatus, hm]

/-- C8 on the chain A, B, C of `chainHeap`, started at A. -/
theorem C8_Update_terminates_witness :
    (∀ n, (chainHeap.nodes n).math = none) ∧
    (∀ x y, Downstream chainHeap x y → y ∈ [1, 2]) ∧
    (∀ x, ¬ Relation.TransGen (Downstream chainHeap) x x) ∧
    ∃ N, ∀ fuel, N ≤ fuel → ∃ h' : Heap,
      Update tickEnv fuel chainHeap 0 = Except.ok (NodeBase.GetStatus h' 0, h') ∧
      GetStatus h' 0 = Except.ok (NodeBase.GetStatus h' 0, h') ∧
      SameGraph chainHeap h' ∧
      chainHeap.ticks < h'.ticks ∧ (h'.nodes 0).modtime = tickEnv.clock (h'.ticks - 1) ∧
      ∀ m, Relation.ReflTransGen (Downstream chainHeap) 0 m →
        m ∈ h'.calls.drop chainHeap.calls.length ∧
        ∃ k, chainHeap.ticks ≤ k ∧ k < h'.ticks ∧ (h'.nodes m).modtime = tickEnv.clock k :=
  ⟨chain_default, chain_finite, chain_acyclic,
    C8_Update_terminates tickEnv chainHeap [1, 2] 0 chain_default chain_finite chain_acyclic⟩

/-- The two downstream edges of `blockedHeap 3`. -/
lemma blocked_downstream (x y : Nat) (hd : Downstream (blockedHeap 3) x y) :
    (x = 0 ∧ y = 1) ∨ (x = 1 ∧ y = 2) := by
  obtain ⟨p, hp, hin, c, hc, ht⟩ := hd
  rcases x with _ | _ | _ | x
  · have hp0 : p = 0 := by simpa [blockedHeap] using hp
    subst hp0
    have hc0 : c = 0 := by simpa [blockedHeap] using hc
    subst hc0
    have : y = 1 := by simpa [blockedHeap, eq_comm] using ht
    exact Or.inl ⟨rfl, this⟩
  · have hp0 : p = 1 ∨ p = 2 ∨ p = 3 ∨ p = 4 := by simpa [blockedHeap] using hp
    rcases hp0 with rfl | rfl | rfl | rfl
    · exact absurd hin (by decide)
    · exact absurd hin (by decide)
    · exact absurd hin (by decide)
    · have hc0 : c = 1 := by simpa [blockedHeap] using hc
      subst hc0
      have : y = 2 := by simpa [blockedHeap, eq_comm] using ht
      exact Or.inr ⟨rfl, this⟩
  · have hp0 : p = 5 := by simpa [blockedHeap] using hp
    subst hp0
    exact absurd hin (by decide)
  · simp [blockedHeap] at hp

/-- C8, the claim as stated, on `blockedHeap 3`: a plain node 0 feeds the input
`B` of a Divide node 1, whose Result feeds a plain node 2.  The graph is finite
and has no cycle, the start node 0 runs `NodeBase::Update`, and node 2 is
reachable downstream from node 0.  `Update()` on node 0 returns, for a budget of
3 as for a budget of 10, but it was entered on nodes 0 and 1 only: the Divide
node reads 0 for `B`, returns -1 before its propagation, and node 2 keeps the
modification time 7 it had. -/
theorem C8_math_error_stops_propagation :
    (∀ x y, Downstream (blockedHeap 3) x y → y ∈ [1, 2]) ∧
    (∀ x, ¬ Relation.TransGen (Downstream (blockedHeap 3)) x x) ∧
    ((blockedHeap 3).nodes 0).math = none ∧
    Relation.ReflTransGen (Downstream (blockedHeap 3)) 0 2 ∧
    ((blockedHeap 3).nodes 2).modtime = 7 ∧
    (Update tickEnv 3 (blockedHeap 3) 0).map
        (fun r => (r.1, r.2.calls, (r.2.nodes 2).modtime, (r.2.nodes 0).modtime, r.2.ticks)) =
      Except.ok (0, [0, 1], 7, 10, 11) ∧
    (Update tickEnv 10 (blockedHeap 3) 0).map
        (fun r => (r.1, r.2.calls, (r.2.nodes 2).modtime, (r.2.nodes 0).modtime, r.2.ticks)) =
      Except.ok (0, [0, 1], 7, 10, 11) := by
  refine ⟨?_, ?_, by decide, ?_, by decide, by decide!, by decide!⟩
  · intro x y hd
    rcases blocked_downstream x y hd with ⟨_, rfl⟩ | ⟨_, rfl⟩ <;> simp
  · apply acyclic_of_rank (blockedHeap 3) (fun n => 2 - n)
    intro x y hd
    rcases blocked_downstream x y hd with ⟨rfl, rfl⟩ | ⟨rfl, rfl⟩ <;> decide
  · have e01 : Downstream (blockedHeap 3) 0 1 :=
      ⟨0, by decide, by decide, 0, by decide, by decide⟩
    have e12 : Downstream (blockedHeap 3) 1 2 :=
      ⟨4, by decide, by decide, 1, by decide, by decide⟩
    exact (Relation.ReflTransGen.single e01).tail e12

/-- C7, the claim as stated, on the chain of `chainHeap` with a clock that
advances by one at every reading: `Update()` on A returns; B and C were stamped
before A (C at 10, B at 11, A at 12), so their modification times are not ≥ A's;
and `GetStatus()` of B is 1, not OK, because its two inputs carry different
times, which `Update()` does not touch. -/
theorem C7_downstream_stamped_before :
    ∃ (st : Int) (h' : Heap), Update tickEnv 3 chainHeap 0 = Except.ok (st, h') ∧
      (h'.nodes 0).modtime = 12 ∧ (h'.nodes 1).modtime = 11 ∧ (h'.nodes 2).modtime = 10 ∧
      ¬ ((h'.nodes 1).modtime ≥ (h'.nodes 0).modtime ∧
         (h'.nodes 2).modtime ≥ (h'.nodes 0).modtime) ∧
      GetStatus h' 1 = Except.ok (1, h') := by
  refine ⟨_, _, rfl, by decide, by decide, by decide, by decide, rfl⟩

/-- C7 as amended (update propagation on a chain).  In a finite acyclic graph of
default nodes with edges A→B and B→C and a non-decreasing clock, `Update()` on A
returns for every sufficiently large recursion budget, and afterwards the
modification times of B and of C are clock readings taken during the call: they
are at least the clock at the start of the call and at most A's post-update
modification time, A being stamped last.  `GetStatus()` of B and of C is what it
was before the call. -/
theorem C7_update_order (env : Env) (h : Heap) (L : List Nat) (A B C : Nat)
    (hmono : Monotone env.clock)
    (hdef : ∀ n, (h.nodes n).math = none)
    (hfin : ∀ x y, Downstream h x y → y ∈ L)
    (hacyc : ∀ x, ¬ Relation.TransGen (Downstream h) x x)
    (hAB : Downstream h A B) (hBC : Downstream h B C) :
    ∃ N, ∀ fuel, N ≤ fuel → ∃ h' : Heap,
      Update env fuel h A = Except.ok (NodeBase.GetStatus h' A, h') ∧
      (h'.nodes B).modtime ≤ (h'.nodes A).modtime ∧
      (h'.nodes C).modtime ≤ (h'.nodes A).modtime ∧
      env.clock h.ticks ≤ (h'.nodes B).modtime ∧
      env.clock h.ticks ≤ (h'.nodes C).modtime ∧
      GetStatus h' B = Except.ok (NodeBase.GetStatus h B, h') ∧
      GetStatus h' C = Except.ok (NodeBase.GetStatus h C, h') := by
  obtain ⟨rank, hrank⟩ := exists_rank h L hfin hacyc
  refine ⟨rank A + 1, ?_⟩
  intro fuel hfuel
  obtain ⟨h', e1, e2, e3, e4, e5⟩ :=
    update_core env rank h hdef hrank fuel h A (SameGraph.same h) (by omega)
  have hB : Relation.ReflTransGen (Downstream h) A B := Relation.ReflTransGen.single hAB
  have hC : Relation.ReflTransGen (Downstream h) A C := hB.tail hBC
  obtain ⟨_, kB, b1, b2, b3⟩ := e5 B hB
  obtain ⟨_, kC, c1, c2, c3⟩ := e5 C hC
  have hst : ∀ n, GetStatus h' n = Except.ok (NodeBase.GetStatus h n, h') := by
    intro n
    have hm : (h'.nodes n).math = none := by rw [e2.1.math, hdef]
    simp only [GetStatus, hm, e2.1.status]
  refine ⟨h', e1, ?_, ?_, ?_, ?_, hst B, hst C⟩
  · rw [b3, e4]
    exact hmono (by omega)
  · rw [c3, e4]
    exact hmono (by omega)
  · rw [b3]
    exact hmono b1
  · rw [c3]
    exact hmono c1

/-- C7 as amended, on the chain of `chainHeap`. -/
theorem C7_update_order_witness :
    Monotone tickEnv.clock ∧ Downstream chainHeap 0 1 ∧ Downstream chainHeap 1 2 ∧
    ∃ N, ∀ fuel, N ≤ fuel → ∃ h' : Heap,
      Update tickEnv fuel chainHeap 0 = Except.ok (NodeBase.GetStatus h' 0, h') ∧
      (h'.nodes 1).modtime ≤ (h'.nodes 0).modtime ∧
      (h'.nodes 2).modtime ≤ (h'.nodes 0).modtime ∧
      tickEnv.clock chainHeap.ticks ≤ (h'.nodes 1).modtime ∧
      tickEnv.clock chainHeap.ticks ≤ (h'.nodes 2).modtime ∧
      GetStatus h' 1 = Except.ok (NodeBase.GetStatus chainHeap 1, h') ∧
      GetStatus h' 2 = Except.ok (NodeBase.GetStatus chainHeap 2, h') :=
  ⟨fun _ _ hab => hab, chain_edge_AB, chain_edge_BC,
    C7_update_order tickEnv chainHeap [1, 2] 0 1 2 (fun _ _ hab => hab)
      chain_default chain_finite chain_acyclic chain_edge_AB chain_edge_BC⟩

/-! ## Claims C2 and C3 -/

lemma loadHeap_inputs_free : ∀ p, (loadHeap.props p).connections.length ≤ 1 := by
  intro p
  simp only [loadHeap]
  split_ifs <;> simp

/-- C2 (single-producer invariant), evaluated on the path that breaks it.  In
`loadHeap` every property has at most one connection.  Reading a `connections` block whose
two `connect` entries both name the input `A` of the math node `m` makes two
connections (0 from `v1`, 1 from `v2`), and both end up in the connection stack
of the input `A`, which then has two producers: the loop in `dump_in_atts`
pushes the new connection without removing the one already there. -/
theorem C2_dump_in_atts_two_producers :
    (∀ p, (loadHeap.props p).connections.length ≤ 1) ∧
    ((dump_in_atts.connections loadHeap loadGroup twoProducers).1.props 3).IsInput = true ∧
    ((dump_in_atts.connections loadHeap loadGroup twoProducers).1.props 3).connections
      = [0, 1] ∧
    (dump_in_atts.connections loadHeap loadGroup twoProducers).2.connections = [0, 1] ∧
    (dump_in_atts.connections loadHeap loadGroup twoProducers).1.conns 0 =
      { from_ := some 0, to_ := some 2, fromprop := some 0, toprop := some 3 } ∧
    (dump_in_atts.connections loadHeap loadGroup twoProducers).1.conns 1 =
      { from_ := some 1, to_ := some 2, fromprop := some 1, toprop := some 3 } :=
  ⟨loadHeap_inputs_free, by decide, by decide, by decide, by decide, by decide⟩

/-- C3 (NodeGroup::Connect), evaluated: for every store, group and pair of
properties, with or without a connection object to reuse, `Connect` returns 0
and leaves the store and the group as they were.  In particular, asked to
connect the output `V` of `v1` to the input `A` of `m` in `loadHeap`, it reports
failure and `A` still has no connection. -/
theorem C3_Connect_returns_failure (h : Heap) (g : NodeGroup) (from_ to_ : Nat)
    (usethis : Option Nat) :
    NodeGroup.Connect h g from_ to_ usethis = (0, h, g) ∧
    (NodeGroup.Connect loadHeap loadGroup 0 3 none).1 = 0 ∧
    (((NodeGroup.Connect loadHeap loadGroup 0 3 none).2.1).props 3).connections = [] :=
  ⟨rfl, rfl, rfl⟩

/-! ## Claim C11 -/

/-- C11 (MathNode::Update, Power with a negative base), evaluated.  With
operator Power (index 5 of the operator enum), A = -2 and the integer exponent
B = 2, `Update()` returns -1, the value 7 stored in Result stays and the clock
is not read: the test `fabs(b)-fabs(int(b))<1e-10` holds exactly when the exponent is an
integer.  With the exponent B = 1/2 the same test fails, so no domain error is
reported: what the library `pow` gives for (-2, 1/2) is stored in Result, the
clock is read for the three stamps (Result, the downstream node, the node
itself) and `Update()` returns 0. -/
theorem C11_power_test_inverted :
    powerDomainError (-2) 2 = true ∧ powerDomainError (-2) (1 / 2) = false ∧
    (Update tickEnv 2 (mathHeap {} 5 (-2) 2 7) 0).map
        (fun r => (r.1, r.2.vals 3, r.2.ticks)) =
      Except.ok (-1, Value.DoubleValue 7, 0) ∧
    (Update tickEnv 2 (mathHeap {} 5 (-2) (1 / 2) 7) 0).map
        (fun r => (r.1, r.2.vals 3, r.2.ticks)) =
      Except.ok (0, Value.DoubleValue (tickEnv.ext MathNodeOps.OP_Power (-2) (1 / 2)), 3) := by
  refine ⟨by decide!, by decide!, by decide!, by decide!⟩

/-! ## Claim C12 -/

/-- The connection loop of the searches, for a callee that answers 0 or 1 on
every listed connection, 1 exactly on those satisfying `R`. -/
lemma checkConns_spec (chk : Nat → Except Fault Int) (R : Nat → Prop) :
    ∀ cs : List Nat,
      (∀ c ∈ cs, ∃ r, chk c = Except.ok r ∧ (r = 0 ∨ r = 1) ∧ (r = 1 ↔ R c)) →
      ∃ r, checkConns chk cs = Except.ok r ∧ (r = 0 ∨ r = 1) ∧ (r = 1 ↔ ∃ c ∈ cs, R c) := by
  intro cs
  induction cs with
  | nil =>
    intro _
    exact ⟨0, rfl, Or.inl rfl, by simp⟩
  | cons c cs ih =>
    intro hall
    obtain ⟨r, hr, h01, hR⟩ := hall c (List.mem_cons_self _ _)
    obtain ⟨r', hr', h01', hR'⟩ := ih (fun c' hc' => hall c' (List.mem_cons_of_mem _ hc'))
    rcases h01 with rfl | rfl
    · refine ⟨r', ?_, h01', ?_⟩
      · simp [checkConns, hr, hr']
      · have hnR : ¬ R c := fun hRc => by
          have := hR.mpr hRc
          omega
        simp [hR', hnR]
    · refine ⟨1, ?_, Or.inr rfl, ?_⟩
      · simp [checkConns, hr]
      · simp [hR.mp rfl]

/-- The property loop of the searches, under the same assumption on the callee
for the connections of the properties that are not inputs. -/
lemma checkProps_spec (h : Heap) (chk : Nat → Except Fault Int) (R : Nat → Prop) :
    ∀ ps : List Nat,
      (∀ p ∈ ps, (h.props p).IsInput = false → ∀ c ∈ (h.props p).connections,
        ∃ r, chk c = Except.ok r ∧ (r = 0 ∨ r = 1) ∧ (r = 1 ↔ R c)) →
      ∃ r, checkProps h chk ps = Except.ok r ∧ (r = 0 ∨ r = 1) ∧
        (r = 1 ↔ ∃ p ∈ ps, (h.props p).IsInput = false ∧ ∃ c ∈ (h.props p).connections, R c) := by
  intro ps
  induction ps with
  | nil =>
    intro _
    exact ⟨0, rfl, Or.inl rfl, by simp⟩
  | cons p ps ih =>
    intro hall
    obtain ⟨r', hr', h01', hR'⟩ := ih (fun p' hp' => hall p' (List.mem_cons_of_mem _ hp'))
    cases hin : (h.props p).IsInput with
    | true =>
      refine ⟨r', ?_, h01', ?_⟩
      · simp [checkProps, hin, hr']
      · simp [hR', hin]
    | false =>
      obtain ⟨r, hr, h01, hR⟩ := checkConns_spec chk R (h.props p).connections
        (hall p (List.mem_cons_self _ _) hin)
      rcases h01 with rfl | rfl
      · refine ⟨r', ?_, h01', ?_⟩
        · simp [checkProps, hin, hr, hr']
        · have hnR : ¬ ∃ c ∈ (h.props p).connections, R c := fun hRc => by
            have := hR.mpr hRc
            omega
          simp [hR', hin, hnR]
      · refine ⟨1, ?_, Or.inr rfl, ?_⟩
        · simp [checkProps, hin, hr]
        · simp [hin, hR.mp rfl]

/-- In a graph ranked so that every downstream edge lowers the rank,
`CheckForward` returns as soon as the fuel exceeds the rank of the `to` node by
more than one, and its answer is 1 exactly when `node` is reachable from that
node. -/
lemma checkForward_core (h : Heap) (rank : Nat → Nat) (node : Nat)
    (hrank : ∀ x y, Downstream h x y → rank y < rank x) :
    ∀ (fuel connection : Nat), 0 < fuel →
      (∀ t, (h.conns connection).to_ = some t → rank t + 1 < fuel) →
      ∃ r, CheckForward h fuel node connection = Except.ok r ∧ (r = 0 ∨ r = 1) ∧
        (r = 1 ↔ ∃ t, (h.conns connection).to_ = some t ∧
          Relation.ReflTransGen (Downstream h) t node) := by
  intro fuel
  induction fuel with
  | zero =>
    intro _ hpos
    exact absurd hpos (lt_irrefl _)
  | succ fuel ih =>
    intro connection _ hlt
    cases hto : (h.conns connection).to_ with
    | none =>
      exact ⟨0, by simp [CheckForward, hto], Or.inl rfl, by simp⟩
    | some check =>
      by_cases hcn : check = node
      · refine ⟨1, by simp [CheckForward, hto, hcn], Or.inr rfl, ?_⟩
        simp only [true_iff]
        exact ⟨check, rfl, hcn ▸ Relation.ReflTransGen.refl⟩
      · have hck : rank check + 1 < fuel + 1 := hlt check hto
        have hall : ∀ p ∈ (h.nodes check).properties, (h.props p).IsInput = false →
            ∀ c ∈ (h.props p).connections,
              ∃ r, CheckForward h fuel node c = Except.ok r ∧ (r = 0 ∨ r = 1) ∧
                (r = 1 ↔ ∃ t, (h.conns c).to_ = some t ∧
                  Relation.ReflTransGen (Downstream h) t node) := by
          intro p hp hin c hc
          apply ih c (by omega)
          intro t ht
          have := hrank check t ⟨p, hp, hin, c, hc, ht⟩
          omega
        obtain ⟨r, hr, h01, hR⟩ := checkProps_spec h (CheckForward h fuel node)
          (fun c => ∃ t, (h.conns c).to_ = some t ∧ Relation.ReflTransGen (Downstream h) t node)
          (h.nodes check).properties hall
        refine ⟨r, ?_, h01, ?_⟩
        · simp [CheckForward, hto, hcn, hr]
        · rw [hR]
          constructor
          · rintro ⟨p, hp, hin, c, hc, t, ht, hreach⟩
            exact ⟨check, rfl, Relation.ReflTransGen.head ⟨p, hp, hin, c, hc, ht⟩ hreach⟩
          · rintro ⟨t, ht, hreach⟩
            have htc : t = check := (Option.some.inj ht).symm
            subst htc
            rcases Relation.ReflTransGen.cases_head hreach with heq | ⟨y, hy, hyn⟩
            · exact absurd heq hcn
            · obtain ⟨p, hp, hin, c, hc, hty⟩ := hy
              exact ⟨p, hp, hin, c, hc, y, hty, hyn⟩

/-- C19 (NodeGroup::CheckForward).  In a finite graph in which no node is
reachable from itself, `CheckForward(node, connection)` returns for every
sufficiently large recursion budget; the value is 0 or 1, and it is 1 if and
only if the connection has a `to` node from which `node` is reached by following
zero or more times the connections of properties that are not inputs to their
`to` nodes.  When the connection's `to` is null it returns 0. -/
theorem C19_CheckForward (h : Heap) (L : List Nat) (node connection : Nat)
    (hfin : ∀ x y, Downstream h x y → y ∈ L)
    (hacyc : ∀ x, ¬ Relation.TransGen (Downstream h) x x) :
    ∃ N, ∀ fuel, N ≤ fuel →
      ∃ r, CheckForward h fuel node connection = Except.ok r ∧ (r = 0 ∨ r = 1) ∧
        (r = 1 ↔ ∃ t, (h.conns connection).to_ = some t ∧
          (t = node ∨ Relation.TransGen (Downstream h) t node)) ∧
        ((h.conns connection).to_ = none → r = 0) := by
  obtain ⟨rank, hrank⟩ := exists_rank h L hfin hacyc
  cases hto : (h.conns connection).to_ with
  | none =>
    refine ⟨1, ?_⟩
    intro fuel hfuel
    obtain ⟨r, e1, e2, e3⟩ := checkForward_core h rank node hrank fuel connection (by omega)
      (by simp [hto])
    refine ⟨r, e1, e2, ?_, ?_⟩
    · rw [e3]
      simp [hto]
    · intro _
      rcases e2 with h0 | h1
      · exact h0
      · have := e3.mp h1
        simp [hto] at this
  | some t0 =>
    refine ⟨rank t0 + 2, ?_⟩
    intro fuel hfuel
    obtain ⟨r, e1, e2, e3⟩ := checkForward_core h rank node hrank fuel connection (by omega)
      (by
        intro t ht
        rw [hto] at ht
        cases ht
        omega)
    refine ⟨r, e1, e2, ?_, by simp⟩
    rw [e3, hto]
    constructor
    · rintro ⟨t, ht, hreach⟩
      refine ⟨t, ht, ?_⟩
      rcases Relation.reflTransGen_iff_eq_or_transGen.mp hreach with heq | htrans
      · exact Or.inl heq.symm
      · exact Or.inr htrans
    · rintro ⟨t, ht, hreach⟩
      refine ⟨t, ht, ?_⟩
      rcases hreach with heq | htrans
      · exact heq ▸ Relation.ReflTransGen.refl
      · exact htrans.to_reflTransGen

/-- C19 on the chain of `chainHeap`: C (node 2) is found forward of connection 0
(A to B), A (node 0) is not found forward of connection 1 (B to C). -/
theorem C19_CheckForward_witness :
    (∀ x y, Downstream chainHeap x y → y ∈ [1, 2]) ∧
    (∀ x, ¬ Relation.TransGen (Downstream chainHeap) x x) ∧
    CheckForward chainHeap 3 2 0 = Except.ok 1 ∧
    CheckForward chainHeap 3 0 1 = Except.ok 0 ∧
    ∃ N, ∀ fuel, N ≤ fuel →
      ∃ r, CheckForward chainHeap fuel 2 0 = Except.ok r ∧ (r = 0 ∨ r = 1) ∧
        (r = 1 ↔ ∃ t, (chainHeap.conns 0).to_ = some t ∧
          (t = 2 ∨ Relation.TransGen (Downstream chainHeap) t 2)) ∧
        ((chainHeap.conns 0).to_ = none → r = 0) :=
  ⟨chain_finite, chain_acyclic, by decide, by decide,
    C19_CheckForward chainHeap [1, 2] 2 0 chain_finite chain_acyclic⟩

/-- C20 (NodeGroup::CheckBackward), evaluated on the chain of `chainHeap`, asked
whether A (node 0) lies backward of connection 1 (B to C): the search reaches B,
which is not A, and scans B's output, whose connection 1 has B itself as `from`,
so it calls itself with the same arguments.  No recursion budget is enough,
although A is upstream of B. -/
theorem C20_CheckBackward_never_returns (fuel : Nat) :
    CheckBackward chainHeap fuel 0 1 = Except.error Fault.outOfFuel ∧
    Relation.ReflTransGen (Downstream chainHeap) 0 1 ∧
    (chainHeap.conns 1).from_ = some 1 := by
  refine ⟨?_, Relation.ReflTransGen.single chain_edge_AB, by decide⟩
  induction fuel with
  | zero => rfl
  | succ k ih =>
    have hfrom : (chainHeap.conns 1).from_ = some 1 := by decide
    have hprops : (chainHeap.nodes 1).properties = [1, 4, 2] := by decide
    have h1 : (chainHeap.props 1).IsInput = true := by decide
    have h4 : (chainHeap.props 4).IsInput = true := by decide
    have h2 : (chainHeap.props 2).IsInput = false := by decide
    have hc : (chainHeap.props 2).connections = [1] := by decide
    simp [CheckBackward, hfrom, hprops, checkProps, h1, h4, h2, hc, checkConns, ih]

/-! ## Claims C17 and C18 -/

/-- What one round of the loop does with an entry that resolves. -/
lemma connect_of_resolves (st : Heap × NodeGroup) (att : Attribute)
    (from_ to_ fromprop toprop : Nat) (hres : Resolves st att from_ to_ fromprop toprop) :
    dump_in_atts.connect st att =
      (setConnections
        (setConnections
          { st.1 with
            conns := Function.update st.1.conns st.1.nconns
              { from_ := some from_, to_ := some to_,
                fromprop := some fromprop, toprop := some toprop }
            nconns := st.1.nconns + 1 }
          fromprop (push (st.1.props fromprop).connections st.1.nconns))
        toprop
        (push ((setConnections
          { st.1 with
            conns := Function.update st.1.conns st.1.nconns
              { from_ := some from_, to_ := some to_,
                fromprop := some fromprop, toprop := some toprop }
            nconns := st.1.nconns + 1 }
          fromprop (push (st.1.props fromprop).connections st.1.nconns)).props toprop).connections
          st.1.nconns),
       { st.2 with connections := push st.2.connections st.1.nconns }) := by
  obtain ⟨hname, value, fromstr, fpstr, tostr, tpstr, hv, hs, hf, ht, hfp, htp⟩ := hres
  simp only [dump_in_atts.connect, hname, hv, hs, hf, ht, hfp, htp, if_true]

/-- What one round of the loop does with an entry that does not resolve. -/
lemma connect_of_not_resolves (st : Heap × NodeGroup) (att : Attribute)
    (hres : ¬ ∃ from_ to_ fromprop toprop, Resolves st att from_ to_ fromprop toprop) :
    dump_in_atts.connect st att = st := by
  unfold dump_in_atts.connect
  split_ifs with hname
  · cases hv : att.value with
    | none => rfl
    | some value =>
      simp only []
      cases hs : splitConnect value.data with
      | none => rfl
      | some q =>
        obtain ⟨fromstr, fpstr, tostr, tpstr⟩ := q
        simp only []
        cases hf : FindNode st.1 st.2 fromstr with
        | none => rfl
        | some from_ =>
          cases ht : FindNode st.1 st.2 tostr with
          | none => rfl
          | some to_ =>
            simp only []
            cases hfp : FindProperty st.1 from_ fpstr with
            | none => rfl
            | some fromprop =>
              cases htp : FindProperty st.1 to_ tpstr with
              | none => rfl
              | some toprop =>
                exact absurd ⟨from_, to_, fromprop, toprop, hname, value, fromstr, fpstr, tostr,
                  tpstr, hv, hs, hf, ht, hfp, htp⟩ hres
  · rfl

/-- C17 (NodeGroup::dump_in_atts, the `connections` block).  Let `att` be an
entry of the block and `st` the store and group reached after the entries before
it.  The loop allocates a connection for `att` if and only if `att` is a
`connect` entry that splits into four strings, both node ids resolve through
`FindNode` and both property names through `FindProperty`; that connection joins
the resolved endpoints and is pushed onto the group.  An entry that does not
resolve leaves the store and the group as they were, in particular the group's
connection list and every property's connection list, and the result of the
whole block is the one obtained from the entries after it. -/
theorem C17_unresolved_connections_skipped (h : Heap) (g : NodeGroup) (conatt : Attribute)
    (pre post : List Attribute) (att : Attribute)
    (hatts : conatt.attributes = pre ++ att :: post) :
    ((dump_in_atts.connect (pre.foldl dump_in_atts.connect (h, g)) att).1.nconns =
        (pre.foldl dump_in_atts.connect (h, g)).1.nconns + 1 ↔
      ∃ from_ to_ fromprop toprop,
        Resolves (pre.foldl dump_in_atts.connect (h, g)) att from_ to_ fromprop toprop) ∧
    (∀ from_ to_ fromprop toprop,
      Resolves (pre.foldl dump_in_atts.connect (h, g)) att from_ to_ fromprop toprop →
      (dump_in_atts.connect (pre.foldl dump_in_atts.connect (h, g)) att).2.connections =
        (pre.foldl dump_in_atts.connect (h, g)).2.connections ++
          [(pre.foldl dump_in_atts.connect (h, g)).1.nconns] ∧
      (dump_in_atts.connect (pre.foldl dump_in_atts.connect (h, g)) att).1.conns
          (pre.foldl dump_in_atts.connect (h, g)).1.nconns =
        { from_ := some from_, to_ := some to_,
          fromprop := some fromprop, toprop := some toprop }) ∧
    ((¬ ∃ from_ to_ fromprop toprop,
        Resolves (pre.foldl dump_in_atts.connect (h, g)) att from_ to_ fromprop toprop) →
      dump_in_atts.connect (pre.foldl dump_in_atts.connect (h, g)) att =
        pre.foldl dump_in_atts.connect (h, g) ∧
      (dump_in_atts.connect (pre.foldl dump_in_atts.connect (h, g)) att).2.connections =
        (pre.foldl dump_in_atts.connect (h, g)).2.connections ∧
      (∀ p, ((dump_in_atts.connect (pre.foldl dump_in_atts.connect (h, g)) att).1.props
            p).connections =
          ((pre.foldl dump_in_atts.connect (h, g)).1.props p).connections) ∧
      dump_in_atts.connections h g conatt =
        post.foldl dump_in_atts.connect (pre.foldl dump_in_atts.connect (h, g))) ∧
    dump_in_atts.connections h g conatt =
      post.foldl dump_in_atts.connect
        (dump_in_atts.connect (pre.foldl dump_in_atts.connect (h, g)) att) := by
  have hall : dump_in_atts.connections h g conatt =
      post.foldl dump_in_atts.connect
        (dump_in_atts.connect (pre.foldl dump_in_atts.connect (h, g)) att) := by
    simp [dump_in_atts.connections, hatts, List.foldl_append]
  generalize pre.foldl dump_in_atts.connect (h, g) = st at hall ⊢
  refine ⟨⟨?_, ?_⟩, ?_, ?_, hall⟩
  · intro hn
    by_contra hres
    rw [connect_of_not_resolves st att hres] at hn
    omega
  · rintro ⟨from_, to_, fromprop, toprop, hres⟩
    rw [connect_of_resolves st att from_ to_ fromprop toprop hres]
    simp [setConnections]
  · intro from_ to_ fromprop toprop hres
    rw [connect_of_resolves st att from_ to_ fromprop toprop hres]
    simp [setConnections, push]
  · intro hres
    have hsame := connect_of_not_resolves st att hres
    refine ⟨hsame, by rw [hsame], fun p => by rw [hsame], ?_⟩
    rw [hall, hsame]

/-- C17 on `unresolvedMiddle`, read into `loadHeap`: the first and the third
entry make connections 0 and 1, the second, whose node `zz` does not exist,
makes none and changes nothing. -/
theorem C17_unresolved_connections_skipped_witness :
    unresolvedMiddle.attributes =
      [Attribute.mk "connect" (some "v1,V -> m,A") []] ++
        Attribute.mk "connect" (some "zz,V -> m,B") [] ::
          [Attribute.mk "connect" (some "v2,V -> m,B") []] ∧
    (dump_in_atts.connections loadHeap loadGroup unresolvedMiddle).2.connections = [0, 1] ∧
    (dump_in_atts.connections loadHeap loadGroup unresolvedMiddle).1.conns 1 =
      { from_ := some 1, to_ := some 2, fromprop := some 1, toprop := some 4 } ∧
    (dump_in_atts.connections loadHeap loadGroup unresolvedMiddle).1.nconns = 2 ∧
    dump_in_atts.connections loadHeap loadGroup unresolvedMiddle =
      [Attribute.mk "connect" (some "v2,V -> m,B") []].foldl dump_in_atts.connect
        (dump_in_atts.connect
          ([Attribute.mk "connect" (some "v1,V -> m,A") []].foldl dump_in_atts.connect
            (loadHeap, loadGroup))
          (Attribute.mk "connect" (some "zz,V -> m,B") [])) :=
  ⟨rfl, by decide, by decide, by decide,
    (C17_unresolved_connections_skipped loadHeap loadGroup unresolvedMiddle
      [Attribute.mk "connect" (some "v1,V -> m,A") []]
      [Attribute.mk "connect" (some "v2,V -> m,B") []]
      (Attribute.mk "connect" (some "zz,V -> m,B") []) rfl).2.2.2⟩

/-- C18 (direction of loaded connections), evaluated.  Reading the block
`backwardEntry` into `loadHeap` adds connection 0 to the group with all four
endpoint fields set; its `from` property is the input `A` of `m` (property 3),
neither an Output nor a Block property, and its `to` property is the output `V`
of `v1` (property 0), not an Input property.  The loop in `dump_in_atts` does
not look at the property types. -/
theorem C18_loaded_connection_from_input_to_output :
    (dump_in_atts.connections loadHeap loadGroup backwardEntry).2.connections = [0] ∧
    (dump_in_atts.connections loadHeap loadGroup backwardEntry).1.conns 0 =
      { from_ := some 2, to_ := some 0, fromprop := some 3, toprop := some 0 } ∧
    ((dump_in_atts.connections loadHeap loadGroup backwardEntry).1.props 3).IsInput = true ∧
    ((dump_in_atts.connections loadHeap loadGroup backwardEntry).1.props 3).IsOutput = false ∧
    ((dump_in_atts.connections loadHeap loadGroup backwardEntry).1.props 3).IsBlock = false ∧
    ((dump_in_atts.connections loadHeap loadGroup backwardEntry).1.props 0).IsInput = false ∧
    ((dump_in_atts.connections loadHeap loadGroup backwardEntry).1.props 0).IsOutput = true := by
  refine ⟨by decide, by decide, by decide, by decide, by decide, by decide, by decide⟩

/-! ## Claim C14 -/

lemma connectString_data (fromId fromProp toId toProp : String) :
    (connectString fromId fromProp toId toProp).data =
      fromId.data ++ (',' :: (fromProp.data ++ ([' ', '-', '>', ' '] ++
        (toId.data ++ (',' :: toProp.data))))) := by
  have h1 : ",".data = [','] := rfl
  have h2 : " -> ".data = [' ', '-', '>', ' '] := rfl
  have h3 : "".data = [] := rfl
  simp [connectString, String.data_append, h1, h2, h3]

lemma strchr_append (a rest : List Char) (ch : Char) (ha : ch ∉ a) :
    strchr (a ++ ch :: rest) ch = some a.length := by
  induction a with
  | nil => simp [strchr]
  | cons c a ih =>
    have hc : c ≠ ch := fun e => ha (e ▸ List.mem_cons_self _ _)
    have ha' : ch ∉ a := fun e => ha (List.mem_cons_of_mem _ e)
    simp [strchr, hc, ih ha']

/-- The separator is found right after a text that neither contains it nor ends
in its first three characters. -/
lemma strstr_arrow (a rest : List Char) (hin : ¬ [' ', '-', '>', ' '] <:+: a)
    (hsuf : ¬ [' ', '-', '>'] <:+ a) :
    strstr (a ++ ([' ', '-', '>', ' '] ++ rest)) [' ', '-', '>', ' '] = some a.length := by
  induction a with
  | nil => simp [strstr, List.isPrefixOf]
  | cons c a ih =>
    have hin' : ¬ [' ', '-', '>', ' '] <:+: a := fun e => hin (e.trans (List.infix_cons List.infix_rfl))
    have hsuf' : ¬ [' ', '-', '>'] <:+ a := fun e => hsuf (e.trans (List.suffix_cons _ _))
    have hnp : List.isPrefixOf [' ', '-', '>', ' '] (c :: (a ++ ([' ', '-', '>', ' '] ++ rest)))
        = false := by
      rcases a with _ | ⟨c1, _ | ⟨c2, _ | ⟨c3, t⟩⟩⟩
      · simp [List.isPrefixOf]
      · simp [List.isPrefixOf]
      · by_contra hp
        simp [List.isPrefixOf] at hp
        obtain ⟨e0, e1, e2⟩ := hp
        subst e0 e1 e2
        exact hsuf List.suffix_rfl
      · by_contra hp
        simp [List.isPrefixOf] at hp
        obtain ⟨e0, e1, e2, e3⟩ := hp
        subst e0 e1 e2 e3
        exact hin (List.prefix_append [' ', '-', '>', ' '] t).isInfix
    show strstr (c :: (a ++ ([' ', '-', '>', ' '] ++ rest))) [' ', '-', '>', ' '] = _
    rw [strstr, hnp, ih hin' hsuf']
    simp

/-- The separator is found after the id, the comma and the property name. -/
lemma strstr_arrow_after_comma (fid a rest : List Char)
    (hfid : ¬ [' ', '-', '>', ' '] <:+: fid) (hin : ¬ [' ', '-', '>', ' '] <:+: a)
    (hsuf : ¬ [' ', '-', '>'] <:+ a) :
    strstr (fid ++ (',' :: (a ++ ([' ', '-', '>', ' '] ++ rest)))) [' ', '-', '>', ' '] =
      some (fid.length + 1 + a.length) := by
  induction fid with
  | nil =>
    show strstr (',' :: (a ++ ([' ', '-', '>', ' '] ++ rest))) [' ', '-', '>', ' '] = _
    have hnp : List.isPrefixOf [' ', '-', '>', ' '] (',' :: (a ++ ([' ', '-', '>', ' '] ++ rest)))
        = false := by simp [List.isPrefixOf]
    rw [strstr, hnp, strstr_arrow a rest hin hsuf]
    simp
    omega
  | cons c f ih =>
    have hfid' : ¬ [' ', '-', '>', ' '] <:+: f :=
      fun e => hfid (e.trans (List.infix_cons List.infix_rfl))
    have hnp : List.isPrefixOf [' ', '-', '>', ' ']
        (c :: (f ++ (',' :: (a ++ ([' ', '-', '>', ' '] ++ rest))))) = false := by
      rcases f with _ | ⟨c1, _ | ⟨c2, _ | ⟨c3, t⟩⟩⟩
      · simp [List.isPrefixOf]
      · simp [List.isPrefixOf]
      · simp [List.isPrefixOf]
      · by_contra hp
        simp [List.isPrefixOf] at hp
        obtain ⟨e0, e1, e2, e3⟩ := hp
        subst e0 e1 e2 e3
        exact hfid (List.prefix_append [' ', '-', '>', ' '] t).isInfix
    show strstr (c :: (f ++ (',' :: (a ++ ([' ', '-', '>', ' '] ++ rest))))) [' ', '-', '>', ' ']
      = _
    rw [strstr, hnp, ih hfid']
    simp
    omega

lemma newnstr_take (s t : List Char) (n : Int) (hn : n = s.length) (hs : s ≠ []) :
    newnstr (s ++ t) n = some (String.mk s) := by
  have hpos : 0 < s.length := List.length_pos.mpr hs
  have hn0 : ¬ n ≤ 0 := by omega
  have htn : n.toNat = s.length := by omega
  simp [newnstr, hn0, htn]

lemma newnstr_all (s : List Char) (n : Int) (hn : n = s.length + 1) :
    newnstr s n = some (String.mk s) := by
  have hn0 : ¬ n ≤ 0 := by omega
  have htn : n.toNat = s.length + 1 := by omega
  have htake : List.take (s.length + 1) s = s := List.take_of_length_le (Nat.le_succ _)
  simp [newnstr, hn0, htn, htake]

/-- The split of a built `connect` value, on character lists. -/
lemma splitConnect_built (fid fp tid tp : List Char)
    (h1 : fid ≠ []) (h2 : ',' ∉ fid) (h3 : ¬ [' ', '-', '>', ' '] <:+: fid)
    (h4 : fp ≠ []) (h5 : ¬ [' ', '-', '>', ' '] <:+: fp) (h6 : ¬ [' ', '-', '>'] <:+ fp)
    (h7 : tid ≠ []) (h8 : ',' ∉ tid) :
    splitConnect (fid ++ (',' :: (fp ++ ([' ', '-', '>', ' '] ++ (tid ++ (',' :: tp)))))) =
      some (some (String.mk fid), some (String.mk fp), some (String.mk tid),
        some (String.mk tp)) := by
  have harrow : " -> ".data = [' ', '-', '>', ' '] := rfl
  have hdiv := strstr_arrow_after_comma fid fp (tid ++ (',' :: tp)) h3 h5 h6
  have hcomma := strchr_append fid (fp ++ ([' ', '-', '>', ' '] ++ (tid ++ (',' :: tp)))) ',' h2
  have hd1 : (fid ++ (',' :: (fp ++ ([' ', '-', '>', ' '] ++ (tid ++ (',' :: tp)))))).drop
      (fid.length + 1 + fp.length + 4) = tid ++ (',' :: tp) := by
    rw [Nat.add_assoc, Nat.add_assoc, List.drop_append, Nat.add_comm 1, List.drop_succ_cons,
      List.drop_append]
    rfl
  have hd2 : (fid ++ (',' :: (fp ++ ([' ', '-', '>', ' '] ++ (tid ++ (',' :: tp)))))).drop
      (fid.length + 1) = fp ++ ([' ', '-', '>', ' '] ++ (tid ++ (',' :: tp))) := by
    rw [List.drop_append]
    rfl
  have hd3 : (fid ++ (',' :: (fp ++ ([' ', '-', '>', ' '] ++ (tid ++ (',' :: tp)))))).drop
      (fid.length + 1 + fp.length + 4 + tid.length + 1) = tp := by
    rw [Nat.add_assoc (fid.length + 1 + fp.length + 4), ← List.drop_drop, hd1, List.drop_append]
    rfl
  have hcomma2 := strchr_append tid tp ',' h8
  have hle : ¬ fid.length > fid.length + 1 + fp.length := by omega
  simp only [splitConnect, harrow, hdiv, hcomma, hd1, hcomma2, hle, if_false, hd2, hd3]
  rw [newnstr_take fid _ _ rfl h1, newnstr_take fp _ _ (by push_cast; ring) h4,
    newnstr_take tid _ _ (by push_cast; ring) h7,
    newnstr_all tp _ (by simp; ring)]

/-- C14, the case the claim does not cover, evaluated.  No component of the
entry from node `n`, property `a ->`, to node `m`, property `B` contains a comma
or the separator `" -> "`, but the built value `n,a -> -> m,B` holds the
separator three characters before the place where it was written, and `strstr`
finds that first one: the entry is read back as property `a` of `n` to property
`B` of a node `-> m`. -/
theorem C14_arrow_suffix_splits_early :
    (∀ s ∈ ["n", "a ->", "m", "B"], ',' ∉ String.data s ∧ ¬ " -> ".data <:+: String.data s) ∧
    connectString "n" "a ->" "m" "B" = "n,a -> -> m,B" ∧
    splitConnect (connectString "n" "a ->" "m" "B").data =
      some (some "n", some "a", some "-> m", some "B") := by
  refine ⟨by decide, by decide, by decide⟩

/-- C14 (connect-entry round trip).  For non-empty node ids without a comma, a
`from` id without the separator `" -> "`, a non-empty `from` property name that
neither contains the separator nor ends in `" ->"`, and any `to` property name,
the value built by `dump_out_atts` is split by the loop of `dump_in_atts` into
exactly the four components it was built from. -/
theorem C14_connect_entry_round_trip (fromId fromProp toId toProp : String)
    (hfromId : fromId ≠ "") (hfromComma : ',' ∉ fromId.data)
    (hfromArrow : ¬ " -> ".data <:+: fromId.data)
    (hfromProp : fromProp ≠ "") (hpropArrow : ¬ " -> ".data <:+: fromProp.data)
    (hpropEnd : ¬ " ->".data <:+ fromProp.data)
    (htoId : toId ≠ "") (htoComma : ',' ∉ toId.data) :
    splitConnect (connectString fromId fromProp toId toProp).data =
      some (some fromId, some fromProp, some toId, some toProp) := by
  have hne : ∀ s : String, s ≠ "" → s.data ≠ [] := by
    intro s hs e
    apply hs
    cases s
    simp only at e
    subst e
    rfl
  have harrow : " -> ".data = [' ', '-', '>', ' '] := rfl
  have hend : " ->".data = [' ', '-', '>'] := rfl
  rw [harrow] at hfromArrow hpropArrow
  rw [hend] at hpropEnd
  rw [connectString_data,
    splitConnect_built fromId.data fromProp.data toId.data toProp.data (hne _ hfromId) hfromComma
      hfromArrow (hne _ hfromProp) hpropArrow hpropEnd (hne _ htoId) htoComma]

/-- C14 on an entry whose `to` property name contains a space: the output
`Color` of the node `color1` to the input `Initial Color` of the node `img`. -/
theorem C14_connect_entry_round_trip_witness :
    connectString "color1" "Color" "img" "Initial Color" = "color1,Color -> img,Initial Color" ∧
    splitConnect (connectString "color1" "Color" "img" "Initial Color").data =
      some (some "color1", some "Color", some "img", some "Initial Color") :=
  ⟨by decide,
    C14_connect_entry_round_trip "color1" "Color" "img" "Initial Color"
      (by decide) (by decide) (by decide) (by decide) (by decide) (by decide) (by decide)
      (by decide)⟩

/-! ## What an update keeps -/

/-- The connection loop of `NodeBase::Update` stays inside every reflexive and
transitive relation that the callee stays inside. -/
lemma updateConns_rel (R : Heap → Heap → Prop) (hrefl : ∀ h, R h h)
    (htrans : ∀ h1 h2 h3, R h1 h2 → R h2 h3 → R h1 h3)
    (upd : Heap → Nat → Except Fault (Int × Heap))
    (hupd : ∀ h t r, upd h t = Except.ok r → R h r.2) :
    ∀ (cs : List Nat) (h h' : Heap), updateConns upd h cs = Except.ok h' → R h h' := by
  intro cs
  induction cs with
  | nil =>
    intro h h' e
    simp only [updateConns] at e
    cases e
    exact hrefl h
  | cons c cs ih =>
    intro h h' e
    simp only [updateConns] at e
    cases hto : (h.conns c).to_ with
    | none =>
      simp only [hto] at e
      exact ih h h' e
    | some t =>
      cases hu : upd h t with
      | error err => simp [hto, hu] at e
      | ok r =>
        simp only [hto, hu] at e
        exact htrans _ _ _ (hupd h t r hu) (ih r.2 h' e)

/-- The property loop of `NodeBase::Update`, likewise. -/
lemma updateProps_rel (R : Heap → Heap → Prop) (hrefl : ∀ h, R h h)
    (htrans : ∀ h1 h2 h3, R h1 h2 → R h2 h3 → R h1 h3)
    (upd : Heap → Nat → Except Fault (Int × Heap))
    (hupd : ∀ h t r, upd h t = Except.ok r → R h r.2) :
    ∀ (ps : List Nat) (h h' : Heap), updateProps upd h ps = Except.ok h' → R h h' := by
  intro ps
  induction ps with
  | nil =>
    intro h h' e
    simp only [updateProps] at e
    cases e
    exact hrefl h
  | cons p ps ih =>
    intro h h' e
    simp only [updateProps] at e
    split_ifs at e with h1 h2
    · exact ih h h' e
    · exact ih h h' e
    · cases hu : updateConns upd h (h.props p).connections with
      | error err => simp [hu] at e
      | ok hm =>
        simp only [hu] at e
        exact htrans _ _ _ (updateConns_rel R hrefl htrans upd hupd _ h hm hu) (ih hm h' e)

lemma keeps_refl {α : Type} (f : NodeBase → α) (h : Heap) : Keeps f h h :=
  ⟨rfl, rfl, fun _ => rfl⟩

lemma keeps_trans {α : Type} (f : NodeBase → α) (h1 h2 h3 : Heap) (h12 : Keeps f h1 h2)
    (h23 : Keeps f h2 h3) : Keeps f h1 h3 :=
  ⟨h23.1.trans h12.1, h23.2.1.trans h12.2.1, fun k => (h23.2.2 k).trans (h12.2.2 k)⟩

/-- A write of one node that `f` does not see keeps `f`. -/
lemma keeps_node_write {α : Type} (f : NodeBase → α) (h h' : Heap) (n : Nat) (node : NodeBase)
    (hn : h'.nnodes = h.nnodes) (hp : h'.nprops = h.nprops)
    (hnodes : h'.nodes = Function.update h.nodes n node) (hf : f node = f (h.nodes n)) :
    Keeps f h h' := by
  refine ⟨hn, hp, fun k => ?_⟩
  rw [hnodes]
  by_cases hk : k = n
  · subst hk
    simp [hf]
  · simp [Function.update, hk]

/-- A step that leaves the node store alone keeps every view. -/
lemma keeps_of_nodes_eq {α : Type} (f : NodeBase → α) (h h' : Heap)
    (hn : h'.nnodes = h.nnodes) (hp : h'.nprops = h.nprops) (hnodes : h'.nodes = h.nodes) :
    Keeps f h h' :=
  ⟨hn, hp, fun k => by rw [hnodes]⟩

lemma keeps_setMath {α : Type} (f : NodeBase → α)
    (hmath : ∀ node m, f { node with math := m } = f node) (h : Heap) (n : Nat) (m : MathNode) :
    Keeps f h (setMath h n m) :=
  keeps_node_write f h _ n _ rfl rfl rfl (hmath _ _)

lemma keeps_stampNode {α : Type} (f : NodeBase → α)
    (hmod : ∀ node t, f { node with modtime := t } = f node) (env : Env) (h : Heap) (n : Nat) :
    Keeps f h (stampNode env h n) :=
  keeps_node_write f h _ n _ rfl rfl rfl (hmod _ _)

lemma keeps_storeResult {α : Type} (f : NodeBase → α) (env : Env) (h h' : Heap) (p3 : Nat)
    (r : ℚ) (e : storeResult env h p3 r = Except.ok h') : Keeps f h h' := by
  unfold storeResult at e
  cases hd : (h.props p3).data with
  | none =>
    simp only [hd] at e
    cases e
    exact keeps_of_nodes_eq f _ _ rfl rfl rfl
  | some v =>
    simp only [hd] at e
    cases hv : h.vals v with
    | DoubleValue d =>
      simp only [hv] at e
      cases e
      exact keeps_of_nodes_eq f _ _ rfl rfl rfl
    | IntValue i => simp [hv] at e
    | StringValue str => simp [hv] at e
    | ColorValue c => simp [hv] at e
    | EnumValue d i => simp [hv] at e
    | OtherValue => simp [hv] at e

/-- A successful bind of `Except` gives a value of the first computation. -/
lemma bind_eq_ok {α β : Type} (x : Except Fault α) (g : α → Except Fault β) (r : β)
    (e : (x >>= g) = Except.ok r) : ∃ a, x = Except.ok a ∧ g a = Except.ok r := by
  cases x with
  | error err => cases e
  | ok a => exact ⟨a, rfl, e⟩

lemma GetStatus_keeps {α : Type} (f : NodeBase → α)
    (hmath : ∀ node m, f { node with math := m } = f node) (h : Heap) (n : Nat)
    (r : Int × Heap) (e : GetStatus h n = Except.ok r) : Keeps f h r.2 := by
  unfold GetStatus at e
  cases hm : (h.nodes n).math with
  | none =>
    simp only [hm] at e
    cases e
    exact keeps_refl f h
  | some m =>
    simp only [hm] at e
    unfold MathNode.GetStatus at e
    obtain ⟨p1, _, e⟩ := bind_eq_ok _ _ _ e
    obtain ⟨a, _, e⟩ := bind_eq_ok _ _ _ e
    obtain ⟨p2, _, e⟩ := bind_eq_ok _ _ _ e
    obtain ⟨b, _, e⟩ := bind_eq_ok _ _ _ e
    simp only [] at e
    split_ifs at e
    · cases e
      exact keeps_setMath f hmath h n _
    · cases e
      exact keeps_setMath f hmath h n _
    · obtain ⟨p3, _, e⟩ := bind_eq_ok _ _ _ e
      split_ifs at e
      · cases e
        exact keeps_setMath f hmath h n _
      · cases e
        exact keeps_setMath f hmath h n _

lemma NodeBase_Update_keeps {α : Type} (f : NodeBase → α)
    (hmod : ∀ node t, f { node with modtime := t } = f node)
    (hmath : ∀ node m, f { node with math := m } = f node) (env : Env)
    (upd : Heap → Nat → Except Fault (Int × Heap))
    (hupd : ∀ h t r, upd h t = Except.ok r → Keeps f h r.2) (h : Heap) (n : Nat)
    (r : Int × Heap) (e : NodeBase.Update upd env h n = Except.ok r) : Keeps f h r.2 := by
  unfold NodeBase.Update at e
  cases hu : updateProps upd h (h.nodes n).properties with
  | error err => simp [hu] at e
  | ok h1 =>
    simp only [hu] at e
    exact keeps_trans f _ _ _
      (updateProps_rel (Keeps f) (keeps_refl f) (keeps_trans f) upd hupd _ h h1 hu)
      (keeps_trans f _ _ _ (keeps_stampNode f hmod env h1 n) (GetStatus_keeps f hmath _ n r e))

lemma MathNode_Update_keeps {α : Type} (f : NodeBase → α)
    (hmod : ∀ node t, f { node with modtime := t } = f node)
    (hmath : ∀ node m, f { node with math := m } = f node) (env : Env) (fuel : Nat)
    (upd : Heap → Nat → Except Fault (Int × Heap))
    (hupd : ∀ h t r, upd h t = Except.ok r → Keeps f h r.2) (h : Heap) (n : Nat) (m : MathNode)
    (r : Int × Heap) (e : MathNode.Update upd env fuel h n m = Except.ok r) : Keeps f h r.2 := by
  unfold MathNode.Update at e
  obtain ⟨p1, _, e⟩ := bind_eq_ok _ _ _ e
  obtain ⟨va, _, e⟩ := bind_eq_ok _ _ _ e
  obtain ⟨a, _, e⟩ := bind_eq_ok _ _ _ e
  obtain ⟨p2, _, e⟩ := bind_eq_ok _ _ _ e
  obtain ⟨vb, _, e⟩ := bind_eq_ok _ _ _ e
  obtain ⟨b, _, e⟩ := bind_eq_ok _ _ _ e
  obtain ⟨p0, _, e⟩ := bind_eq_ok _ _ _ e
  obtain ⟨vop, _, e⟩ := bind_eq_ok _ _ _ e
  obtain ⟨op, _, e⟩ := bind_eq_ok _ _ _ e
  cases hc : compute env op a b m.result with
  | none =>
    simp only [hc] at e
    cases e
    exact keeps_setMath f hmath h n _
  | some res =>
    simp only [hc] at e
    obtain ⟨p3, _, e⟩ := bind_eq_ok _ _ _ e
    obtain ⟨h2, hs, e⟩ := bind_eq_ok _ _ _ e
    exact keeps_trans f _ _ _ (keeps_setMath f hmath h n _)
      (keeps_trans f _ _ _ (keeps_storeResult f env _ h2 p3 res hs)
        (NodeBase_Update_keeps f hmod hmath env upd hupd h2 n r e))

/-- `Update()` allocates no node and changes, in the nodes, the modification
times and the `MathNode` members only. -/
lemma Update_keeps {α : Type} (f : NodeBase → α)
    (hmod : ∀ node t, f { node with modtime := t } = f node)
    (hmath : ∀ node m, f { node with math := m } = f node) (env : Env) :
    ∀ (fuel : Nat) (h : Heap) (n : Nat) (r : Int × Heap),
      Update env fuel h n = Except.ok r → Keeps f h r.2 := by
  intro fuel
  induction fuel with
  | zero =>
    intro h n r e
    simp [Update] at e
  | succ fuel ih =>
    intro h n r e
    unfold Update at e
    have he : Keeps f h (enter h n) := keeps_of_nodes_eq f _ _ rfl rfl rfl
    cases hm : (h.nodes n).math with
    | none =>
      simp only [hm] at e
      exact keeps_trans f _ _ _ he (NodeBase_Update_keeps f hmod hmath env _ ih _ n r e)
    | some m =>
      simp only [hm] at e
      exact keeps_trans f _ _ _ he (MathNode_Update_keeps f hmod hmath env _ _ ih _ n m r e)

/-! ## Reading a group needs one unit of fuel -/

lemma sameWiring_refl (h : Heap) : SameWiring h h := ⟨fun _ => rfl, fun _ => rfl⟩

lemma sameWiring_trans (h1 h2 h3 : Heap) (h12 : SameWiring h1 h2) (h23 : SameWiring h2 h3) :
    SameWiring h1 h3 :=
  ⟨fun p => (h23.1 p).trans (h12.1 p), fun n => (h23.2 n).trans (h12.2 n)⟩

lemma Unconnected.of_sameWiring {h h' : Heap} {n : Nat} (hu : Unconnected h n)
    (hs : SameWiring h h') : Unconnected h' n := by
  intro p hp
  rw [hs.2 n] at hp
  rw [hs.1 p]
  exact hu p hp

/-- A write of one node that keeps its properties, with the properties'
connections kept, keeps the wiring. -/
lemma sameWiring_node_write (h h' : Heap) (n : Nat) (node : NodeBase)
    (hp : h'.props = h.props) (hnodes : h'.nodes = Function.update h.nodes n node)
    (hprops : node.properties = (h.nodes n).properties) : SameWiring h h' := by
  refine ⟨fun p => by rw [hp], fun k => ?_⟩
  rw [hnodes]
  by_cases hk : k = n
  · subst hk
    simp [hprops]
  · simp [Function.update, hk]

/-- A write of one property that keeps its connections keeps the wiring. -/
lemma sameWiring_prop_write (h h' : Heap) (p : Nat) (prop : NodeProperty)
    (hn : h'.nodes = h.nodes) (hprops : h'.props = Function.update h.props p prop)
    (hc : prop.connections = (h.props p).connections) : SameWiring h h' := by
  refine ⟨fun q => ?_, fun k => by rw [hn]⟩
  rw [hprops]
  by_cases hq : q = p
  · subst hq
    simp [hc]
  · simp [Function.update, hq]

lemma sameWiring_setMath (h : Heap) (n : Nat) (m : MathNode) : SameWiring h (setMath h n m) :=
  sameWiring_node_write h _ n _ rfl rfl rfl

lemma sameWiring_stampNode (env : Env) (h : Heap) (n : Nat) :
    SameWiring h (stampNode env h n) :=
  sameWiring_node_write h _ n _ rfl rfl rfl

lemma sameWiring_storeResult (env : Env) (h h' : Heap) (p3 : Nat) (r : ℚ)
    (e : storeResult env h p3 r = Except.ok h') : SameWiring h h' := by
  unfold storeResult at e
  cases hd : (h.props p3).data with
  | none =>
    simp only [hd] at e
    cases e
    refine ⟨fun q => ?_, fun k => rfl⟩
    by_cases hq : q = p3
    · subst hq
      simp [Function.update]
    · simp [Function.update, hq]
  | some v =>
    simp only [hd] at e
    cases hv : h.vals v with
    | DoubleValue d =>
      simp only [hv] at e
      cases e
      refine ⟨fun q => ?_, fun k => rfl⟩
      by_cases hq : q = p3
      · subst hq
        simp [Function.update]
      · simp [Function.update, hq]
    | IntValue i => simp [hv] at e
    | StringValue str => simp [hv] at e
    | ColorValue c => simp [hv] at e
    | EnumValue d i => simp [hv] at e
    | OtherValue => simp [hv] at e

/-- `Update()` stays inside every reflexive and transitive relation that the
writes it is made of stay inside. -/
lemma Update_rel (R : Heap → Heap → Prop) (hrefl : ∀ h, R h h)
    (htrans : ∀ h1 h2 h3, R h1 h2 → R h2 h3 → R h1 h3) (env : Env)
    (henter : ∀ h n, R h (enter h n)) (hstamp : ∀ h n, R h (stampNode env h n))
    (hset : ∀ h n m, R h (setMath h n m))
    (hstore : ∀ h h' p3 r, storeResult env h p3 r = Except.ok h' → R h h') :
    ∀ (fuel : Nat) (h : Heap) (n : Nat) (r : Int × Heap),
      Update env fuel h n = Except.ok r → R h r.2 := by
  have hstatus : ∀ (h : Heap) (n : Nat) (r : Int × Heap),
      GetStatus h n = Except.ok r → R h r.2 := by
    intro h n r e
    unfold GetStatus at e
    cases hm : (h.nodes n).math with
    | none =>
      simp only [hm] at e
      cases e
      exact hrefl h
    | some m =>
      simp only [hm] at e
      unfold MathNode.GetStatus at e
      obtain ⟨p1, _, e⟩ := bind_eq_ok _ _ _ e
      obtain ⟨a, _, e⟩ := bind_eq_ok _ _ _ e
      obtain ⟨p2, _, e⟩ := bind_eq_ok _ _ _ e
      obtain ⟨b, _, e⟩ := bind_eq_ok _ _ _ e
      simp only [] at e
      split_ifs at e
      · cases e
        exact hset h n _
      · cases e
        exact hset h n _
      · obtain ⟨p3, _, e⟩ := bind_eq_ok _ _ _ e
        split_ifs at e
        · cases e
          exact hset h n _
        · cases e
          exact hset h n _
  have hbase : ∀ (upd : Heap → Nat → Except Fault (Int × Heap)),
      (∀ h t r, upd h t = Except.ok r → R h r.2) → ∀ (h : Heap) (n : Nat) (r : Int × Heap),
      NodeBase.Update upd env h n = Except.ok r → R h r.2 := by
    intro upd hupd h n r e
    unfold NodeBase.Update at e
    cases hu : updateProps upd h (h.nodes n).properties with
    | error err => simp [hu] at e
    | ok h1 =>
      simp only [hu] at e
      exact htrans _ _ _ (updateProps_rel R hrefl htrans upd hupd _ h h1 hu)
        (htrans _ _ _ (hstamp h1 n) (hstatus _ n r e))
  intro fuel
  induction fuel with
  | zero =>
    intro h n r e
    simp [Update] at e
  | succ fuel ih =>
    intro h n r e
    unfold Update at e
    cases hm : (h.nodes n).math with
    | none =>
      simp only [hm] at e
      exact htrans _ _ _ (henter h n) (hbase _ ih _ n r e)
    | some m =>
      simp only [hm] at e
      unfold MathNode.Update at e
      obtain ⟨p1, _, e⟩ := bind_eq_ok _ _ _ e
      obtain ⟨va, _, e⟩ := bind_eq_ok _ _ _ e
      obtain ⟨a, _, e⟩ := bind_eq_ok _ _ _ e
      obtain ⟨p2, _, e⟩ := bind_eq_ok _ _ _ e
      obtain ⟨vb, _, e⟩ := bind_eq_ok _ _ _ e
      obtain ⟨b, _, e⟩ := bind_eq_ok _ _ _ e
      obtain ⟨p0, _, e⟩ := bind_eq_ok _ _ _ e
      obtain ⟨vop, _, e⟩ := bind_eq_ok _ _ _ e
      obtain ⟨op, _, e⟩ := bind_eq_ok _ _ _ e
      cases hc : compute env op a b m.result with
      | none =>
        simp only [hc] at e
        cases e
        exact htrans _ _ _ (henter h n) (hset _ n _)
      | some res =>
        simp only [hc] at e
        obtain ⟨p3, _, e⟩ := bind_eq_ok _ _ _ e
        obtain ⟨h2, hs, e⟩ := bind_eq_ok _ _ _ e
        exact htrans _ _ _ (henter h n) (htrans _ _ _ (hset _ n _)
          (htrans _ _ _ (hstore _ h2 p3 res hs) (hbase _ ih h2 n r e)))

/-- `Update()` keeps the wiring. -/
lemma Update_sameWiring (env : Env) (fuel : Nat) (h : Heap) (n : Nat) (r : Int × Heap)
    (e : Update env fuel h n = Except.ok r) : SameWiring h r.2 :=
  Update_rel SameWiring sameWiring_refl sameWiring_trans env
    (fun _ _ => ⟨fun _ => rfl, fun _ => rfl⟩) (sameWiring_stampNode env) sameWiring_setMath
    (sameWiring_storeResult env) fuel h n r e

lemma nff_ok {α : Type} (a : α) : NoFuelFault (Except.ok a : Except Fault α) := by
  intro e he
  cases he

lemma nff_pure {α : Type} (a : α) : NoFuelFault (pure a : Except Fault α) := by
  intro e he
  cases he

lemma nff_null {α : Type} : NoFuelFault (Except.error Fault.nullDeref : Except Fault α) := by
  intro e he
  cases he
  rfl

lemma nff_bind {α β : Type} (x : Except Fault α) (g : α → Except Fault β)
    (hx : NoFuelFault x) (hg : ∀ a, x = Except.ok a → NoFuelFault (g a)) :
    NoFuelFault (x >>= g) := by
  cases x with
  | error err =>
    intro e he
    cases he
    exact hx err rfl
  | ok a => exact hg a rfl

lemma propAt_nff (h : Heap) (n i : Nat) : NoFuelFault (propAt h n i) := by
  unfold propAt
  split
  · exact nff_ok _
  · exact nff_null

lemma propAt_mem (h : Heap) (n i p : Nat) (e : propAt h n i = Except.ok p) :
    p ∈ (h.nodes n).properties := by
  unfold propAt at e
  split at e
  · rename_i q hq
    cases e
    exact List.get?_mem hq
  · cases e

lemma readDouble_nff (h : Heap) (v : Option Nat) : NoFuelFault (readDouble h v) := by
  unfold readDouble
  split
  · exact nff_null
  · split
    · exact nff_ok _
    · exact nff_null

lemma readOp_nff (h : Heap) (v : Option Nat) : NoFuelFault (readOp h v) := by
  unfold readOp
  split
  · exact nff_null
  · split
    · exact nff_ok _
    · exact nff_null

lemma storeResult_nff (env : Env) (h : Heap) (p3 : Nat) (r : ℚ) :
    NoFuelFault (storeResult env h p3 r) := by
  unfold storeResult
  simp only []
  split
  · exact nff_ok _
  · split
    · exact nff_ok _
    · exact nff_null

/-- A property without connection is read without recursion. -/
lemma GetData_unconnected (h : Heap) (fuel p : Nat) (hc : (h.props p).connections = []) :
    GetData h (fuel + 1) p = Except.ok (h.props p).data := by
  simp only [GetData, hc]
  split
  · rename_i heq
    cases heq
  · rfl

/-- The property loop of `NodeBase::Update` over properties without connection
calls nothing. -/
lemma updateProps_unconnected (upd : Heap → Nat → Except Fault (Int × Heap)) (h : Heap) :
    ∀ ps : List Nat, (∀ p ∈ ps, (h.props p).connections = []) →
      updateProps upd h ps = Except.ok h := by
  intro ps
  induction ps with
  | nil => intro _; rfl
  | cons p ps ih =>
    intro hall
    have hp := hall p (List.mem_cons_self _ _)
    have hrest := ih (fun q hq => hall q (List.mem_cons_of_mem _ hq))
    simp only [updateProps, hp, List.length_nil, if_true, hrest]
    split_ifs <;> rfl

lemma GetStatus_nff (h : Heap) (n : Nat) : NoFuelFault (GetStatus h n) := by
  unfold GetStatus
  split
  · exact nff_ok _
  · unfold MathNode.GetStatus
    refine nff_bind _ _ (propAt_nff _ _ _) (fun p1 _ => ?_)
    refine nff_bind _ _ (readDouble_nff _ _) (fun a _ => ?_)
    refine nff_bind _ _ (propAt_nff _ _ _) (fun p2 _ => ?_)
    refine nff_bind _ _ (readDouble_nff _ _) (fun b _ => ?_)
    simp only []
    split_ifs
    · exact nff_pure _
    · exact nff_pure _
    · refine nff_bind _ _ (propAt_nff _ _ _) (fun p3 _ => ?_)
      split_ifs
      · exact nff_pure _
      · exact nff_pure _

lemma NodeBase_Update_nff (upd : Heap → Nat → Except Fault (Int × Heap)) (env : Env) (h : Heap)
    (n : Nat) (hu : Unconnected h n) : NoFuelFault (NodeBase.Update upd env h n) := by
  unfold NodeBase.Update
  rw [updateProps_unconnected upd h _ hu]
  exact GetStatus_nff _ n

lemma MathNode_Update_nff (upd : Heap → Nat → Except Fault (Int × Heap)) (env : Env)
    (fuel : Nat) (h : Heap) (n : Nat) (m : MathNode) (hu : Unconnected h n) :
    NoFuelFault (MathNode.Update upd env (fuel + 1) h n m) := by
  unfold MathNode.Update
  refine nff_bind _ _ (propAt_nff _ _ _) (fun p1 hp1 => ?_)
  rw [GetData_unconnected h fuel p1 (hu p1 (propAt_mem h n 1 p1 hp1))]
  refine nff_bind _ _ (nff_ok _) (fun va _ => ?_)
  refine nff_bind _ _ (readDouble_nff _ _) (fun a _ => ?_)
  refine nff_bind _ _ (propAt_nff _ _ _) (fun p2 hp2 => ?_)
  rw [GetData_unconnected h fuel p2 (hu p2 (propAt_mem h n 2 p2 hp2))]
  refine nff_bind _ _ (nff_ok _) (fun vb _ => ?_)
  refine nff_bind _ _ (readDouble_nff _ _) (fun b _ => ?_)
  refine nff_bind _ _ (propAt_nff _ _ _) (fun p0 hp0 => ?_)
  rw [GetData_unconnected h fuel p0 (hu p0 (propAt_mem h n 0 p0 hp0))]
  refine nff_bind _ _ (nff_ok _) (fun vop _ => ?_)
  refine nff_bind _ _ (readOp_nff _ _) (fun op _ => ?_)
  split
  · exact nff_pure _
  · refine nff_bind _ _ (propAt_nff _ _ _) (fun p3 _ => ?_)
    refine nff_bind _ _ (storeResult_nff _ _ _ _) (fun h2 hh2 => ?_)
    exact NodeBase_Update_nff upd env h2 n
      ((hu.of_sameWiring (sameWiring_setMath h n _)).of_sameWiring
        (sameWiring_storeResult env _ h2 p3 _ hh2))

/-- `Update()` on a node without connections returns or stops at a null
dereference as soon as it has one unit of fuel. -/
lemma Update_nff (env : Env) (fuel : Nat) (h : Heap) (n : Nat) (hu : Unconnected h n) :
    NoFuelFault (Update env (fuel + 1) h n) := by
  have hu' : Unconnected (enter h n) n := hu.of_sameWiring ⟨fun _ => rfl, fun _ => rfl⟩
  unfold Update
  split
  · exact NodeBase_Update_nff _ env _ n hu'
  · exact MathNode_Update_nff _ env fuel _ n _ hu'

lemma newDoubleNode_unconnected : BuildsUnconnected newDoubleNode := by
  intro h
  refine ⟨nff_ok _, ?_⟩
  intro r n e hn
  simp only [newDoubleNode] at e
  cases e
  cases hn
  intro p hp
  simp [NodeBase.AddProperty, newValue, newNodeBase, push] at hp
  subst hp
  simp [NodeBase.AddProperty, newValue, newNodeBase]

lemma newColorNode_unconnected : BuildsUnconnected newColorNode := by
  intro h
  refine ⟨nff_ok _, ?_⟩
  intro r n e hn
  simp only [newColorNode] at e
  cases e
  cases hn
  intro p hp
  simp [NodeBase.AddProperty, newValue, newNodeBase, push] at hp
  subst hp
  simp [NodeBase.AddProperty, newValue, newNodeBase]

lemma newImageNode_unconnected : BuildsUnconnected newImageNode := by
  intro h
  refine ⟨nff_ok _, ?_⟩
  intro r n e hn
  simp only [newImageNode] at e
  cases e
  cases hn
  intro p hp
  simp [NodeBase.AddProperty, newValue, newNodeBase, push] at hp
  rcases hp with rfl | rfl | rfl | rfl | rfl | rfl <;>
    (simp [NodeBase.AddProperty, newValue, newNodeBase, Function.update] <;>
      (split_ifs <;> rfl))

/-- The constructor of the Math node with one unit of fuel: the four properties
it adds have no connection, so its `Update()` uses up no fuel and the node it
returns has no connection. -/
lemma newMathNode_unconnected (env : Env) (fuel : Nat) :
    BuildsUnconnected (newMathNode env (fuel + 1)) := by
  intro h
  have hu : ∀ h4 : Heap, h4 =
      NodeBase.AddProperty
        (NodeBase.AddProperty
          (newValue
            (NodeBase.AddProperty
              (newValue
                (NodeBase.AddProperty
                  (newValue
                    (newNodeBase h "Math" "Math"
                      (some { a := 0, b := 0, operation := MathNodeOps.OP_None, numargs := 2 })).2
                    (Value.EnumValue DefineMathNodeDef 0)).2
                  h.nnodes PropertyTypes.PROP_Input false "Op" (some h.nvals) true)
                (Value.DoubleValue 0)).2
              h.nnodes PropertyTypes.PROP_Input true "A" (some (h.nvals + 1)) true)
            (Value.DoubleValue 0)).2
          h.nnodes PropertyTypes.PROP_Input true "B" (some (h.nvals + 1 + 1)) true)
        h.nnodes PropertyTypes.PROP_Output true "Result" none false →
      Unconnected h4 h.nnodes := by
    intro h4 e4
    subst e4
    intro p hp
    simp [NodeBase.AddProperty, newValue, newNodeBase, push] at hp
    rcases hp with rfl | rfl | rfl | rfl <;>
      (simp [NodeBase.AddProperty, newValue, newNodeBase, Function.update] <;>
        (split_ifs <;> rfl))
  constructor
  · simp only [newMathNode]
    have := Update_nff env fuel _ h.nnodes (hu _ rfl)
    intro e he
    split at he
    · rename_i err herr
      cases he
      exact this _ herr
    · cases he
  · intro r n e hn
    simp only [newMathNode] at e
    split at e
    · cases e
    · rename_i r1 hr1
      cases e
      cases hn
      exact (hu _ rfl).of_sameWiring (Update_sameWiring env _ _ _ r1 hr1)

lemma sameWiring_of_eq (h h' : Heap) (hp : h'.props = h.props) (hn : h'.nodes = h.nodes) :
    SameWiring h h' :=
  ⟨fun p => by rw [hp], fun n => by rw [hn]⟩

lemma find_nff (h : Heap) (propname : Option String) :
    ∀ ps : List Nat, NoFuelFault (SetPropertyFromAtt.find h propname ps) := by
  intro ps
  induction ps with
  | nil => exact nff_ok _
  | cons p ps ih =>
    unfold SetPropertyFromAtt.find
    split
    · split_ifs
      · exact nff_ok _
      · exact ih
    · exact nff_null

lemma NodeBase_SetPropertyFromAtt_nff (io : Conversions) (h : Heap) (n : Nat)
    (propname : Option String) (att : Attribute) :
    NoFuelFault (NodeBase.SetPropertyFromAtt io h n propname att) := by
  unfold NodeBase.SetPropertyFromAtt
  split
  · exact nff_ok _
  · split
    · rename_i err herr
      intro e he
      cases he
      exact find_nff h propname _ _ herr
    · exact nff_ok _
    · split
      · exact nff_ok _
      · exact nff_ok _

/-- Setting a property from an attribute returns or stops at a null
dereference, on a node without connections and with one unit of fuel. -/
lemma SetPropertyFromAtt_nff (io : Conversions) (fuel : Nat) (h : Heap) (n : Nat)
    (propname : Option String) (att : Attribute) (hu : Unconnected h n) :
    NoFuelFault (SetPropertyFromAtt io (fuel + 1) h n propname att) := by
  unfold SetPropertyFromAtt
  split
  · exact NodeBase_SetPropertyFromAtt_nff io h n propname att
  · unfold MathNode.SetPropertyFromAtt
    split
    · exact nff_null
    · split_ifs
      · exact NodeBase_SetPropertyFromAtt_nff io h n _ att
      · exact nff_ok _
      · refine nff_bind _ _ (propAt_nff _ _ _) (fun p0 hp0 => ?_)
        rw [GetData_unconnected h fuel p0 (hu p0 (propAt_mem h n 0 p0 hp0))]
        refine nff_bind _ _ (nff_ok _) (fun v _ => ?_)
        split
        · exact nff_null
        · split
          · split
            · exact nff_pure _
            · split
              · exact nff_pure _
              · split_ifs
                · exact nff_pure _
                · exact nff_pure _
                · exact nff_pure _
          · exact nff_null

/-- Setting a property from an attribute keeps the wiring. -/
lemma SetPropertyFromAtt_sameWiring (io : Conversions) (fuel : Nat) (h : Heap) (n : Nat)
    (propname : Option String) (att : Attribute) (r : Int × Heap)
    (e : SetPropertyFromAtt io fuel h n propname att = Except.ok r) : SameWiring h r.2 := by
  have hbase : ∀ r, NodeBase.SetPropertyFromAtt io h n propname att = Except.ok r →
      SameWiring h r.2 := by
    intro r e
    unfold NodeBase.SetPropertyFromAtt at e
    split at e
    · cases e
      exact sameWiring_refl h
    · split at e
      · cases e
      · cases e
        exact sameWiring_refl h
      · split at e
        · cases e
          exact sameWiring_refl h
        · rename_i p _ _ v _
          cases e
          refine ⟨fun q => ?_, fun k => rfl⟩
          by_cases hq : q = p
          · subst hq
            simp [newValue, Function.update]
          · simp [newValue, Function.update, hq]
  unfold SetPropertyFromAtt at e
  split at e
  · exact hbase r e
  · unfold MathNode.SetPropertyFromAtt at e
    split at e
    · cases e
    · split_ifs at e
      · exact hbase r e
      · cases e
        exact sameWiring_refl h
      · obtain ⟨p0, _, e⟩ := bind_eq_ok _ _ _ e
        obtain ⟨v, _, e⟩ := bind_eq_ok _ _ _ e
        split at e
        · cases e
        · split at e
          · split at e
            · cases e
              exact sameWiring_refl h
            · split at e
              · cases e
                exact sameWiring_refl h
              · split_ifs at e
                · cases e
                  exact sameWiring_refl h
                · cases e
                  exact sameWiring_of_eq _ _ rfl rfl
                · cases e
                  exact sameWiring_refl h
          · cases e

/-- Reading one entry of a `node` block keeps the wiring. -/
lemma nodeEntry_sameWiring (io : Conversions) (fuel : Nat) (newnode : Nat) (h h' : Heap)
    (entry : Attribute) (e : dump_in_atts.nodeEntry io fuel newnode h entry = Except.ok h') :
    SameWiring h h' := by
  unfold dump_in_atts.nodeEntry at e
  simp only [] at e
  split_ifs at e
  · cases e
    exact sameWiring_node_write h _ newnode _ rfl rfl rfl
  · split at e
    · cases e
      exact sameWiring_node_write h _ newnode _ rfl rfl rfl
    · cases e
      exact sameWiring_refl h
  · split at e
    · cases e
      exact sameWiring_node_write h _ newnode _ rfl rfl rfl
    · cases e
      exact sameWiring_refl h
  · split at e
    · cases e
      exact sameWiring_node_write h _ newnode _ rfl rfl rfl
    · cases e
      exact sameWiring_refl h
  · split at e
    · cases e
      exact sameWiring_node_write h _ newnode _ rfl rfl rfl
    · cases e
      exact sameWiring_refl h
  · split at e
    · cases e
      exact sameWiring_node_write h _ newnode _ rfl rfl rfl
    · cases e
      exact sameWiring_refl h
  · cases e
    exact sameWiring_node_write h _ newnode _ rfl rfl rfl
  · split at e
    · cases e
    · rename_i r hr
      cases e
      exact SetPropertyFromAtt_sameWiring io fuel h newnode _ _ r hr
  · cases e
    exact sameWiring_refl h

lemma nodeEntry_nff (io : Conversions) (fuel : Nat) (newnode : Nat) (h : Heap)
    (entry : Attribute) (hu : Unconnected h newnode) :
    NoFuelFault (dump_in_atts.nodeEntry io (fuel + 1) newnode h entry) := by
  unfold dump_in_atts.nodeEntry
  simp only []
  split_ifs
  · exact nff_ok _
  · split <;> exact nff_ok _
  · split <;> exact nff_ok _
  · split <;> exact nff_ok _
  · split <;> exact nff_ok _
  · split <;> exact nff_ok _
  · exact nff_ok _
  · split
    · rename_i err herr
      intro e he
      cases he
      exact SetPropertyFromAtt_nff io fuel h newnode _ _ hu _ herr
    · exact nff_ok _
  · exact nff_ok _

/-- Reading the entries of a `node` block, on a node without connections and
with one unit of fuel: no fuel fault, and the wiring is kept. -/
lemma nodeEntries_nff (io : Conversions) (fuel : Nat) (newnode : Nat) :
    ∀ (entries : List Attribute) (h : Heap), Unconnected h newnode →
      NoFuelFault (dump_in_atts.nodeEntries io (fuel + 1) newnode h entries) ∧
      ∀ h', dump_in_atts.nodeEntries io (fuel + 1) newnode h entries = Except.ok h' →
        SameWiring h h' := by
  intro entries
  induction entries with
  | nil =>
    intro h _
    refine ⟨nff_ok _, fun h' e => ?_⟩
    simp only [dump_in_atts.nodeEntries] at e
    cases e
    exact sameWiring_refl h
  | cons entry rest ih =>
    intro h hu
    simp only [dump_in_atts.nodeEntries]
    cases h1 : dump_in_atts.nodeEntry io (fuel + 1) newnode h entry with
    | error err =>
      refine ⟨fun e he => ?_, fun h' e => by cases e⟩
      cases he
      exact nodeEntry_nff io fuel newnode h entry hu _ h1
    | ok hx =>
      have hw := nodeEntry_sameWiring io (fuel + 1) newnode h hx entry h1
      obtain ⟨i1, i2⟩ := ih hx (hu.of_sameWiring hw)
      exact ⟨i1, fun h' e => sameWiring_trans _ _ _ hw (i2 h' e)⟩

/-- A loop whose rounds keep the wiring keeps the wiring. -/
lemma foldl_sameWiring {β : Type} (g : Heap × β → Nat → Heap × β)
    (hg : ∀ st p, SameWiring st.1 (g st p).1) :
    ∀ (ps : List Nat) (st : Heap × β), SameWiring st.1 (ps.foldl g st).1 := by
  intro ps
  induction ps with
  | nil => intro st; exact sameWiring_refl _
  | cons p ps ih =>
    intro st
    exact sameWiring_trans _ _ _ (hg st p) (ih (g st p))

lemma measure_sameWiring (colors : NodeColors) (st : Heap × ℚ) (p : Nat) :
    SameWiring st.1 (WrapFull.measure colors st p).1 := by
  unfold WrapFull.measure
  cases hd : (st.1.props p).data with
  | none =>
    simp only [hd]
    split_ifs
    · exact sameWiring_prop_write _ _ p _ rfl rfl rfl
    · exact sameWiring_refl _
  | some v =>
    simp only [hd]
    exact sameWiring_prop_write _ _ p _ rfl rfl rfl

lemma place_sameWiring (width : ℚ) (st : Heap × ℚ × ℚ) (p : Nat) :
    SameWiring st.1 (WrapFull.place width st p).1 :=
  sameWiring_prop_write _ _ p _ rfl rfl rfl

lemma collapsed_place_sameWiring (colors : NodeColors) (width : ℚ) (st : Heap × ℚ × ℚ)
    (p : Nat) : SameWiring st.1 (WrapCollapsed.place colors width st p).1 := by
  unfold WrapCollapsed.place
  simp only []
  split_ifs
  · exact sameWiring_prop_write _ _ p _ rfl rfl rfl
  · exact sameWiring_prop_write _ _ p _ rfl rfl rfl
  · exact sameWiring_refl _

/-- The layout keeps the wiring. -/
lemma Wrap_sameWiring (h : Heap) (n : Nat) : SameWiring h (NodeBase.Wrap h n).2 := by
  unfold NodeBase.Wrap
  split_ifs
  · unfold NodeBase.WrapCollapsed
    cases hc : (h.nodes n).colors with
    | none => exact sameWiring_refl h
    | some c =>
      simp only []
      exact sameWiring_trans _ _ _
        (foldl_sameWiring _ (collapsed_place_sameWiring (h.styles c) _) (h.nodes n).properties
          (h, _, _))
        (sameWiring_node_write _ _ n _ rfl rfl rfl)
  · unfold NodeBase.WrapFull
    cases hc : (h.nodes n).colors with
    | none => exact sameWiring_refl h
    | some c =>
      simp only []
      exact sameWiring_trans _ _ _
        (foldl_sameWiring _ (measure_sameWiring (h.styles c)) (h.nodes n).properties (h, _))
        (sameWiring_trans _ _ _
          (foldl_sameWiring _ (place_sameWiring _) (h.nodes n).properties (_, _, _))
          (sameWiring_node_write _ _ n _ rfl rfl rfl))

/-- A `node` block read with one unit of fuel and a factory whose constructors
return unconnected nodes returns or stops at a null dereference. -/
lemma node_nff (io : Conversions) (env : Env) (fuel : Nat) (factory : ObjectFactory)
    (hB : ∀ fnode ∈ factory, BuildsUnconnected fnode.2)
    (st : Heap × NodeGroup) (block : Attribute) :
    NoFuelFault (dump_in_atts.node io factory env (fuel + 1) st block) := by
  unfold dump_in_atts.node
  split
  · exact nff_ok _
  · rename_i type _
    split_ifs
    · exact nff_ok _
    · unfold NewNode
      cases hfind : factory.find? (fun fnode => fnode.1 == type) with
      | none => exact nff_ok _
      | some fnode =>
        simp only []
        obtain ⟨c1, c2⟩ := hB fnode (List.mem_of_find?_eq_some hfind) st.1
        cases hc : fnode.2 st.1 with
        | error err =>
          simp only []
          intro e he
          cases he
          exact c1 _ hc
        | ok c =>
          obtain ⟨o, h1⟩ := c
          cases o with
          | none => exact nff_ok _
          | some newnode =>
            simp only []
            have hu1 : Unconnected h1 newnode := c2 _ newnode hc rfl
            obtain ⟨e1, e2⟩ := nodeEntries_nff io fuel newnode block.attributes h1 hu1
            cases he : dump_in_atts.nodeEntries io (fuel + 1) newnode h1 block.attributes with
            | error err =>
              simp only []
              intro e hee
              cases hee
              exact e1 _ he
            | ok h2 =>
              simp only []
              have hu2 : Unconnected h2 newnode := hu1.of_sameWiring (e2 h2 he)
              have hu3 : Unconnected
                  (if (h2.nodes newnode).colors = none then
                    { h2 with nodes := Function.update h2.nodes newnode { h2.nodes newnode with colors := st.2.colors } }
                  else h2) newnode := by
                split_ifs
                · exact hu2.of_sameWiring (sameWiring_node_write _ _ newnode _ rfl rfl rfl)
                · exact hu2
              have hu4 := hu3.of_sameWiring (Wrap_sameWiring _ newnode)
              have hfin := Update_nff env fuel _ newnode hu4
              split
              · rename_i err herr
                intro e hee
                cases hee
                exact hfin _ herr
              · exact nff_ok _

lemma default_factory_unconnected (env : Env) (fuel : Nat) :
    ∀ fnode ∈ SetupDefaultNodeTypes env (fuel + 1), BuildsUnconnected fnode.2 := by
  intro fnode hmem
  simp only [SetupDefaultNodeTypes, List.mem_cons, List.mem_singleton, List.not_mem_nil,
    or_false] at hmem
  rcases hmem with rfl | rfl | rfl | rfl
  · exact newColorNode_unconnected
  · exact newImageNode_unconnected
  · exact newMathNode_unconnected env fuel
  · exact newDoubleNode_unconnected

lemma newDoubleNode_builds : Builds newDoubleNode "Value" := by
  intro h r e
  simp only [newDoubleNode] at e
  cases e
  refine ⟨rfl, rfl, ?_, ?_⟩
  · simp [NodeBase.AddProperty, newValue, newNodeBase, NodeBase.tag]
  · intro k hk
    simp [NodeBase.AddProperty, newValue, newNodeBase, NodeBase.tag, Function.update, hk]

lemma newColorNode_builds : Builds newColorNode "Color" := by
  intro h r e
  simp only [newColorNode] at e
  cases e
  refine ⟨rfl, rfl, ?_, ?_⟩
  · simp [NodeBase.AddProperty, newValue, newNodeBase, NodeBase.tag]
  · intro k hk
    simp [NodeBase.AddProperty, newValue, newNodeBase, NodeBase.tag, Function.update, hk]

lemma newImageNode_builds : Builds newImageNode "NewImage" := by
  intro h r e
  simp only [newImageNode] at e
  cases e
  refine ⟨rfl, rfl, ?_, ?_⟩
  · simp [NodeBase.AddProperty, newValue, newNodeBase, NodeBase.tag]
  · intro k hk
    simp [NodeBase.AddProperty, newValue, newNodeBase, NodeBase.tag, Function.update, hk]

lemma newMathNode_builds (env : Env) (fuel : Nat) : Builds (newMathNode env fuel) "Math" := by
  intro h r e
  simp only [newMathNode] at e
  split at e
  · cases e
  · rename_i r1 hu
    cases e
    have hk := Update_keeps NodeBase.tag (fun _ _ => rfl) (fun _ _ => rfl) env fuel _ _ r1 hu
    refine ⟨rfl, ?_, ?_, ?_⟩
    · rw [hk.1]
      rfl
    · rw [hk.2.2]
      simp [NodeBase.AddProperty, newValue, newNodeBase, NodeBase.tag]
    · intro k hkn
      rw [hk.2.2]
      simp [NodeBase.AddProperty, newValue, newNodeBase, NodeBase.tag, Function.update, hkn]

/-- A loop whose rounds leave the node store and the allocation counters alone
leaves them alone. -/
lemma foldl_nodes_eq {β : Type} (g : Heap × β → Nat → Heap × β)
    (hg : ∀ st p, (g st p).1.nodes = st.1.nodes ∧ (g st p).1.nnodes = st.1.nnodes ∧
      (g st p).1.nprops = st.1.nprops) :
    ∀ (ps : List Nat) (st : Heap × β),
      (ps.foldl g st).1.nodes = st.1.nodes ∧ (ps.foldl g st).1.nnodes = st.1.nnodes ∧
      (ps.foldl g st).1.nprops = st.1.nprops := by
  intro ps
  induction ps with
  | nil => intro st; exact ⟨rfl, rfl, rfl⟩
  | cons p ps ih =>
    intro st
    obtain ⟨a1, a2, a3⟩ := ih (g st p)
    obtain ⟨b1, b2, b3⟩ := hg st p
    exact ⟨a1.trans b1, a2.trans b2, a3.trans b3⟩

lemma measure_nodes (colors : NodeColors) (st : Heap × ℚ) (p : Nat) :
    (WrapFull.measure colors st p).1.nodes = st.1.nodes ∧
    (WrapFull.measure colors st p).1.nnodes = st.1.nnodes ∧
    (WrapFull.measure colors st p).1.nprops = st.1.nprops := by
  unfold WrapFull.measure
  cases hd : (st.1.props p).data with
  | none =>
    simp only [hd]
    split_ifs <;> simp
  | some v => simp [hd]

lemma place_nodes (width : ℚ) (st : Heap × ℚ × ℚ) (p : Nat) :
    (WrapFull.place width st p).1.nodes = st.1.nodes ∧
    (WrapFull.place width st p).1.nnodes = st.1.nnodes ∧
    (WrapFull.place width st p).1.nprops = st.1.nprops :=
  ⟨rfl, rfl, rfl⟩

lemma collapsed_place_nodes (colors : NodeColors) (width : ℚ) (st : Heap × ℚ × ℚ) (p : Nat) :
    (WrapCollapsed.place colors width st p).1.nodes = st.1.nodes ∧
    (WrapCollapsed.place colors width st p).1.nnodes = st.1.nnodes ∧
    (WrapCollapsed.place colors width st p).1.nprops = st.1.nprops := by
  unfold WrapCollapsed.place
  simp only []
  split_ifs <;> simp

lemma foldl_measure (colors : NodeColors) (ps : List Nat) (st : Heap × ℚ) :
    (ps.foldl (WrapFull.measure colors) st).1.nodes = st.1.nodes ∧
    (ps.foldl (WrapFull.measure colors) st).1.nnodes = st.1.nnodes ∧
    (ps.foldl (WrapFull.measure colors) st).1.nprops = st.1.nprops :=
  foldl_nodes_eq _ (measure_nodes colors) ps st

lemma foldl_place (width : ℚ) (ps : List Nat) (st : Heap × ℚ × ℚ) :
    (ps.foldl (WrapFull.place width) st).1.nodes = st.1.nodes ∧
    (ps.foldl (WrapFull.place width) st).1.nnodes = st.1.nnodes ∧
    (ps.foldl (WrapFull.place width) st).1.nprops = st.1.nprops :=
  foldl_nodes_eq _ (place_nodes width) ps st

lemma foldl_collapsed_place (colors : NodeColors) (width : ℚ) (ps : List Nat)
    (st : Heap × ℚ × ℚ) :
    (ps.foldl (WrapCollapsed.place colors width) st).1.nodes = st.1.nodes ∧
    (ps.foldl (WrapCollapsed.place colors width) st).1.nnodes = st.1.nnodes ∧
    (ps.foldl (WrapCollapsed.place colors width) st).1.nprops = st.1.nprops :=
  foldl_nodes_eq _ (collapsed_place_nodes colors width) ps st

/-- The layout changes, in the nodes, the width and the height of the node it is
run on and nothing else. -/
lemma Wrap_keeps {α : Type} (f : NodeBase → α)
    (hwh : ∀ node w ht, f { node with width := w, height := ht } = f node) (h : Heap) (n : Nat) :
    Keeps f h (NodeBase.Wrap h n).2 := by
  unfold NodeBase.Wrap
  split_ifs
  · unfold NodeBase.WrapCollapsed
    cases hc : (h.nodes n).colors with
    | none => exact keeps_refl f h
    | some c =>
      refine ⟨?_, ?_, fun k => ?_⟩
      · simp only [(foldl_collapsed_place _ _ _ _).2.1]
      · simp only [(foldl_collapsed_place _ _ _ _).2.2]
      · by_cases hk : k = n
        · subst hk
          simp only [Function.update_same, hwh, (foldl_collapsed_place _ _ _ _).1]
        · simp only [Function.update_noteq hk, (foldl_collapsed_place _ _ _ _).1]
  · unfold NodeBase.WrapFull
    cases hc : (h.nodes n).colors with
    | none => exact keeps_refl f h
    | some c =>
      refine ⟨?_, ?_, fun k => ?_⟩
      · simp only [(foldl_place _ _ _).2.1, (foldl_measure _ _ _).2.1]
      · simp only [(foldl_place _ _ _).2.2, (foldl_measure _ _ _).2.2]
      · by_cases hk : k = n
        · subst hk
          simp only [Function.update_same, hwh, (foldl_place _ _ _).1, (foldl_measure _ _ _).1]
        · simp only [Function.update_noteq hk, (foldl_place _ _ _).1, (foldl_measure _ _ _).1]

/-- Without a style the layout changes nothing. -/
lemma Wrap_without_style (h : Heap) (n : Nat) (hc : (h.nodes n).colors = none) :
    (NodeBase.Wrap h n).2 = h := by
  unfold NodeBase.Wrap NodeBase.WrapCollapsed NodeBase.WrapFull
  simp [hc]

/-- Setting a property from an attribute leaves the node store alone. -/
lemma SetPropertyFromAtt_nodes (io : Conversions) (fuel : Nat) (h : Heap) (n : Nat)
    (propname : Option String) (att : Attribute) (r : Int × Heap)
    (e : SetPropertyFromAtt io fuel h n propname att = Except.ok r) :
    r.2.nodes = h.nodes ∧ r.2.nnodes = h.nnodes ∧ r.2.nprops = h.nprops := by
  have hbase : ∀ r, NodeBase.SetPropertyFromAtt io h n propname att = Except.ok r →
      r.2.nodes = h.nodes ∧ r.2.nnodes = h.nnodes ∧ r.2.nprops = h.nprops := by
    intro r e
    unfold NodeBase.SetPropertyFromAtt at e
    split at e
    · cases e
      exact ⟨rfl, rfl, rfl⟩
    · split at e
      · cases e
      · cases e
        exact ⟨rfl, rfl, rfl⟩
      · split at e
        · cases e
          exact ⟨rfl, rfl, rfl⟩
        · cases e
          exact ⟨rfl, rfl, rfl⟩
  unfold SetPropertyFromAtt at e
  split at e
  · exact hbase r e
  · unfold MathNode.SetPropertyFromAtt at e
    split at e
    · cases e
    · split_ifs at e
      · exact hbase r e
      · cases e
        exact ⟨rfl, rfl, rfl⟩
      · obtain ⟨p0, _, e⟩ := bind_eq_ok _ _ _ e
        obtain ⟨v, _, e⟩ := bind_eq_ok _ _ _ e
        split at e
        · cases e
        · split at e
          · split at e
            · cases e
              exact ⟨rfl, rfl, rfl⟩
            · split at e
              · cases e
                exact ⟨rfl, rfl, rfl⟩
              · split_ifs at e
                · cases e
                  exact ⟨rfl, rfl, rfl⟩
                · cases e
                  exact ⟨rfl, rfl, rfl⟩
                · cases e
                  exact ⟨rfl, rfl, rfl⟩
          · cases e

/-- Reading one entry of a `node` block keeps every view of the nodes that does
not see the id and the collapsed flag, nor the geometry when the entry is a
geometry entry. -/
lemma nodeEntry_keeps {α : Type} (f : NodeBase → α)
    (hId : ∀ node s, f { node with Id := s } = f node)
    (hcol : ∀ node b, f { node with collapsed := b } = f node)
    (io : Conversions) (fuel : Nat) (newnode : Nat) (h h' : Heap) (entry : Attribute)
    (hgeo : entry.name ∈ ["xywh", "x", "y", "width", "height"] →
      ∀ node x y w ht, f { node with x := x, y := y, width := w, height := ht } = f node)
    (e : dump_in_atts.nodeEntry io fuel newnode h entry = Except.ok h') : Keeps f h h' := by
  unfold dump_in_atts.nodeEntry at e
  simp only [] at e
  split_ifs at e with h1 h2 h3 h4 h5 h6 h7 h8
  · cases e
    exact keeps_node_write f h _ newnode _ rfl rfl rfl (hId _ _)
  · split at e
    · cases e
      exact keeps_node_write f h _ newnode _ rfl rfl rfl (hgeo (by simp [h2]) _ _ _ _ _)
    · cases e
      exact keeps_refl f h
  · split at e
    · cases e
      exact keeps_node_write f h _ newnode _ rfl rfl rfl
        (hgeo (by simp [h3]) (h.nodes newnode) _ (h.nodes newnode).y (h.nodes newnode).width
          (h.nodes newnode).height)
    · cases e
      exact keeps_refl f h
  · split at e
    · cases e
      exact keeps_node_write f h _ newnode _ rfl rfl rfl
        (hgeo (by simp [h4]) (h.nodes newnode) (h.nodes newnode).x _ (h.nodes newnode).width
          (h.nodes newnode).height)
    · cases e
      exact keeps_refl f h
  · split at e
    · cases e
      exact keeps_node_write f h _ newnode _ rfl rfl rfl
        (hgeo (by simp [h5]) (h.nodes newnode) (h.nodes newnode).x (h.nodes newnode).y _
          (h.nodes newnode).height)
    · cases e
      exact keeps_refl f h
  · split at e
    · cases e
      exact keeps_node_write f h _ newnode _ rfl rfl rfl
        (hgeo (by simp [h6]) (h.nodes newnode) (h.nodes newnode).x (h.nodes newnode).y
          (h.nodes newnode).width _)
    · cases e
      exact keeps_refl f h
  · cases e
    exact keeps_node_write f h _ newnode _ rfl rfl rfl (hcol _ _)
  · split at e
    · cases e
    · rename_i r hr
      cases e
      obtain ⟨a1, a2, a3⟩ := SetPropertyFromAtt_nodes io fuel h newnode _ _ r hr
      exact keeps_of_nodes_eq f _ _ a2 a3 a1
  · cases e
    exact keeps_refl f h

/-- Reading entries of a `node` block, likewise. -/
lemma nodeEntries_keeps {α : Type} (f : NodeBase → α)
    (hId : ∀ node s, f { node with Id := s } = f node)
    (hcol : ∀ node b, f { node with collapsed := b } = f node)
    (io : Conversions) (fuel : Nat) (newnode : Nat) :
    ∀ (entries : List Attribute) (h h' : Heap),
      (∀ entry ∈ entries, entry.name ∈ ["xywh", "x", "y", "width", "height"] →
        ∀ node x y w ht, f { node with x := x, y := y, width := w, height := ht } = f node) →
      dump_in_atts.nodeEntries io fuel newnode h entries = Except.ok h' → Keeps f h h' := by
  intro entries
  induction entries with
  | nil =>
    intro h h' _ e
    simp only [dump_in_atts.nodeEntries] at e
    cases e
    exact keeps_refl f h
  | cons entry rest ih =>
    intro h h' hgeo e
    simp only [dump_in_atts.nodeEntries] at e
    split at e
    · cases e
    · rename_i h1 hh1
      exact keeps_trans f _ _ _
        (nodeEntry_keeps f hId hcol io fuel newnode h h1 entry
          (hgeo entry (List.mem_cons_self _ _)) hh1)
        (ih h1 h' (fun en hen => hgeo en (List.mem_cons_of_mem _ hen)) e)

/-- A `node` block with a registered type, read with a factory whose
constructors build nodes of the registered names: when the block is read to the
end, exactly one node has been allocated and pushed onto the group, it carries
the type of the block, and no other node has changed its type. -/
lemma node_step (io : Conversions) (factory : ObjectFactory) (env : Env) (fuel : Nat)
    (hB : ∀ fnode ∈ factory, Builds fnode.2 fnode.1)
    (st r : Heap × NodeGroup) (block : Attribute) (hreg : registered factory block = true)
    (e : dump_in_atts.node io factory env fuel st block = Except.ok r) :
    r.2.nodes = st.2.nodes ++ [st.1.nnodes] ∧ r.1.nnodes = st.1.nnodes + 1 ∧
    (r.1.nodes st.1.nnodes).type = block.value ∧
    ∀ k, k ≠ st.1.nnodes → (r.1.nodes k).type = (st.1.nodes k).type := by
  unfold registered at hreg
  unfold dump_in_atts.node at e
  cases hv : block.value with
  | none => simp [hv] at hreg
  | some type =>
    simp only [hv, Bool.and_eq_true, Bool.not_eq_true', Option.isSome_iff_exists] at hreg
    obtain ⟨hb, fnode, hfind⟩ := hreg
    have hmem : fnode ∈ factory := List.mem_of_find?_eq_some hfind
    have hname : fnode.1 = type := by
      have := List.find?_some hfind
      simpa using this
    simp only [hv, hb, NewNode, hfind, Bool.false_eq_true, if_false] at e
    cases hc : fnode.2 st.1 with
    | error err => simp [hc] at e
    | ok c =>
      obtain ⟨b1, b2, b3, b4⟩ := hB fnode hmem st.1 c hc
      obtain ⟨o, h1⟩ := c
      simp only at b1 b2 b3 b4
      subst b1
      simp only [hc] at e
      cases he : dump_in_atts.nodeEntries io fuel st.1.nnodes h1 block.attributes with
      | error err => simp [he] at e
      | ok h2 =>
        simp only [he] at e
        have k12 := nodeEntries_keeps NodeBase.type (fun _ _ => rfl) (fun _ _ => rfl) io fuel
          st.1.nnodes block.attributes h1 h2 (fun _ _ _ _ _ _ _ _ => rfl) he
        split at e
        · simp at e
        · rename_i r1 hu
          have k3 : Keeps NodeBase.type h2
              (if (h2.nodes st.1.nnodes).colors = none then
                { h2 with nodes := Function.update h2.nodes st.1.nnodes { h2.nodes st.1.nnodes with colors := st.2.colors } }
              else h2) := by
            split_ifs
            · exact keeps_node_write NodeBase.type h2 _ st.1.nnodes _ rfl rfl rfl rfl
            · exact keeps_refl _ h2
          have k4 := Wrap_keeps NodeBase.type (fun _ _ _ => rfl)
            (if (h2.nodes st.1.nnodes).colors = none then
                { h2 with nodes := Function.update h2.nodes st.1.nnodes { h2.nodes st.1.nnodes with colors := st.2.colors } }
              else h2) st.1.nnodes
          have k5 := Update_keeps NodeBase.type (fun _ _ => rfl) (fun _ _ => rfl) env fuel _ _ r1 hu
          have k := keeps_trans _ _ _ _ k12 (keeps_trans _ _ _ _ k3 (keeps_trans _ _ _ _ k4 k5))
          simp only [Except.ok.injEq] at e
          subst e
          refine ⟨rfl, ?_, ?_, ?_⟩
          · rw [k.1, b2]
          · rw [k.2.2, ← hname]
            exact congrArg Prod.fst b3
          · intro j hj
            rw [k.2.2]
            exact congrArg Prod.fst (b4 j hj)

lemma default_factory_builds (env : Env) (fuel : Nat) :
    ∀ fnode ∈ SetupDefaultNodeTypes env fuel, Builds fnode.2 fnode.1 := by
  intro fnode hmem
  simp only [SetupDefaultNodeTypes, List.mem_cons, List.mem_singleton, List.not_mem_nil,
    or_false] at hmem
  rcases hmem with rfl | rfl | rfl | rfl
  · exact newColorNode_builds
  · exact newImageNode_builds
  · exact newMathNode_builds env fuel
  · exact newDoubleNode_builds

/-- The loop over the entries of a `node` block, cut in two. -/
lemma nodeEntries_append (io : Conversions) (fuel : Nat) (newnode : Nat) :
    ∀ (a b : List Attribute) (h h' : Heap),
      dump_in_atts.nodeEntries io fuel newnode h (a ++ b) = Except.ok h' →
      ∃ hm, dump_in_atts.nodeEntries io fuel newnode h a = Except.ok hm ∧
        dump_in_atts.nodeEntries io fuel newnode hm b = Except.ok h' := by
  intro a
  induction a with
  | nil =>
    intro b h h' e
    exact ⟨h, rfl, e⟩
  | cons entry rest ih =>
    intro b h h' e
    simp only [List.cons_append, dump_in_atts.nodeEntries] at e ⊢
    cases h1 : dump_in_atts.nodeEntry io fuel newnode h entry with
    | error err => simp [h1] at e
    | ok hx =>
      simp only [h1] at e ⊢
      exact ih b hx h' e

/-- The round of the loop for an `xywh` entry with four numbers. -/
lemma nodeEntry_xywh (io : Conversions) (fuel : Nat) (newnode : Nat) (h : Heap)
    (entry : Attribute) (x y w ht : ℚ) (hentry : entry.name = "xywh")
    (hnum : io.DoubleListAttribute entry.value 4 = [x, y, w, ht]) :
    dump_in_atts.nodeEntry io fuel newnode h entry =
      Except.ok { h with nodes := Function.update h.nodes newnode { h.nodes newnode with x := x, y := y, width := w, height := ht } } := by
  unfold dump_in_atts.nodeEntry
  simp [hentry, hnum]

/-- A `node` block with a registered type that holds an `xywh` entry with four
numbers and no geometry entry after it, read to the end with a factory whose
constructors build nodes of the registered names: the new node has the position
read, and also the size read when the group has no style. -/
lemma node_geometry (io : Conversions) (factory : ObjectFactory) (env : Env) (fuel : Nat)
    (hB : ∀ fnode ∈ factory, Builds fnode.2 fnode.1)
    (st r : Heap × NodeGroup) (block : Attribute) (pre post : List Attribute)
    (entry : Attribute) (x y w ht : ℚ)
    (hatts : block.attributes = pre ++ entry :: post) (hentry : entry.name = "xywh")
    (hnum : io.DoubleListAttribute entry.value 4 = [x, y, w, ht])
    (hpost : ∀ en ∈ post, en.name ∉ ["xywh", "x", "y", "width", "height"])
    (hreg : registered factory block = true)
    (e : dump_in_atts.node io factory env fuel st block = Except.ok r) :
    ((r.1.nodes st.1.nnodes).x, (r.1.nodes st.1.nnodes).y) = (x, y) ∧
    (st.2.colors = none → (r.1.nodes st.1.nnodes).xywh = (x, y, w, ht)) := by
  unfold registered at hreg
  unfold dump_in_atts.node at e
  cases hv : block.value with
  | none => simp [hv] at hreg
  | some type =>
    simp only [hv, Bool.and_eq_true, Bool.not_eq_true', Option.isSome_iff_exists] at hreg
    obtain ⟨hb, fnode, hfind⟩ := hreg
    have hmem : fnode ∈ factory := List.mem_of_find?_eq_some hfind
    simp only [hv, hb, NewNode, hfind, Bool.false_eq_true, if_false] at e
    cases hc : fnode.2 st.1 with
    | error err => simp [hc] at e
    | ok c =>
      obtain ⟨b1, b2, b3, b4⟩ := hB fnode hmem st.1 c hc
      obtain ⟨o, h1⟩ := c
      simp only at b1 b2 b3 b4
      subst b1
      simp only [hc] at e
      cases he : dump_in_atts.nodeEntries io fuel st.1.nnodes h1 block.attributes with
      | error err => simp [he] at e
      | ok h2 =>
        simp only [he] at e
        have kc := nodeEntries_keeps (fun node : NodeBase => node.colors) (fun _ _ => rfl)
          (fun _ _ => rfl) io fuel st.1.nnodes block.attributes h1 h2
          (fun _ _ _ _ _ _ _ _ => rfl) he
        have hcol2 : (h2.nodes st.1.nnodes).colors = none := by
          have := kc.2.2 st.1.nnodes
          simp only at this
          rw [this]
          exact congrArg Prod.snd b3
        rw [hatts] at he
        obtain ⟨hm, _, he2⟩ := nodeEntries_append io fuel st.1.nnodes pre (entry :: post) h1 h2 he
        simp only [dump_in_atts.nodeEntries,
          nodeEntry_xywh io fuel st.1.nnodes hm entry x y w ht hentry hnum] at he2
        have kx := nodeEntries_keeps NodeBase.xywh (fun _ _ => rfl) (fun _ _ => rfl) io fuel
          st.1.nnodes post _ h2 (fun en hen hgeo => absurd hgeo (hpost en hen)) he2
        have hx2 : (h2.nodes st.1.nnodes).xywh = (x, y, w, ht) := by
          rw [kx.2.2]
          simp [NodeBase.xywh]
        split at e
        · simp at e
        · rename_i r1 hu
          simp only [hcol2, if_true] at hu
          have k5 := Update_keeps NodeBase.xywh (fun _ _ => rfl) (fun _ _ => rfl) env fuel _ _ r1
            hu
          have k4 := Wrap_keeps (fun node : NodeBase => (node.x, node.y)) (fun _ _ _ => rfl)
            { h2 with nodes := Function.update h2.nodes st.1.nnodes { h2.nodes st.1.nnodes with colors := st.2.colors } }
            st.1.nnodes
          simp only [Except.ok.injEq] at e
          subst e
          simp only [NodeBase.xywh, Prod.mk.injEq] at hx2
          constructor
          · have h5 := k5.2.2 st.1.nnodes
            have h4 := k4.2.2 st.1.nnodes
            simp only [NodeBase.xywh, Prod.mk.injEq, Function.update_same] at h5 h4
            simp only [Prod.mk.injEq]
            exact ⟨by rw [h5.1, h4.1, hx2.1], by rw [h5.2.1, h4.2, hx2.2.1]⟩
          · intro hnone
            have hw : (NodeBase.Wrap
                { h2 with nodes := Function.update h2.nodes st.1.nnodes { h2.nodes st.1.nnodes with colors := st.2.colors } }
                st.1.nnodes).2 =
                { h2 with nodes := Function.update h2.nodes st.1.nnodes { h2.nodes st.1.nnodes with colors := st.2.colors } } :=
              Wrap_without_style _ _ (by simp [hnone])
            rw [hw] at k5
            have h5 := k5.2.2 st.1.nnodes
            simp only [NodeBase.xywh, Prod.mk.injEq, Function.update_same] at h5
            simp only [NodeBase.xywh, Prod.mk.injEq]
            exact ⟨by rw [h5.1, hx2.1], by rw [h5.2.1, hx2.2.1], by rw [h5.2.2.1, hx2.2.2.1],
              by rw [h5.2.2.2, hx2.2.2.2]⟩

/-- C15, the case the claim does not cover, evaluated.  The document `oneValue`
gives its Value node the four numbers 10, 20, 30 and 40.  Read into a group that
has a style, the node keeps the position 10, 20, but `Wrap()`, which
`dump_in_atts` calls after the entries are read, replaces the width and the
height by those of the layout, 65 and 30 for this style. -/
theorem C15_layout_replaces_size :
    plainText.DoubleListAttribute (some "10 20 30 40") 4 = [10, 20, 30, 40] ∧
    (dump_in_atts plainText (SetupDefaultNodeTypes tickEnv 2) tickEnv 2 styledHeap styledGroup
        (some oneValue)).map (fun r => r.2.nodes.map (fun n => (r.1.nodes n).xywh)) =
      Except.ok [(10, 20, 65, 30)] := by
  refine ⟨by decide!, by decide!⟩

/-- C15 (load restores the position, and the size in a group without style).
Take a `node` block of a registered type that carries an `xywh` entry with four
numbers and no geometry entry after it, read with the default factory.  Whenever
the block is read to the end, the node it adds is the one allocated for it, and
the x and y of that node are the first two numbers; when the group has no style,
its width and height are the last two numbers as well.  With one unit of fuel or
more the block is read to the end unless a null pointer is dereferenced. -/
theorem C15_load_restores_position (io : Conversions) (env : Env) (fuel : Nat)
    (st : Heap × NodeGroup) (block : Attribute) (pre post : List Attribute)
    (entry : Attribute) (x y w ht : ℚ)
    (hatts : block.attributes = pre ++ entry :: post) (hentry : entry.name = "xywh")
    (hnum : io.DoubleListAttribute entry.value 4 = [x, y, w, ht])
    (hpost : ∀ en ∈ post, en.name ∉ ["xywh", "x", "y", "width", "height"])
    (hreg : registered (SetupDefaultNodeTypes env fuel) block = true) :
    (dump_in_atts.node io (SetupDefaultNodeTypes env fuel) env fuel st block).map
        (fun r => (r.2.nodes, (r.1.nodes st.1.nnodes).x, (r.1.nodes st.1.nnodes).y)) =
      (dump_in_atts.node io (SetupDefaultNodeTypes env fuel) env fuel st block).map
        (fun _ => (st.2.nodes ++ [st.1.nnodes], x, y)) ∧
    (st.2.colors = none →
      (dump_in_atts.node io (SetupDefaultNodeTypes env fuel) env fuel st block).map
          (fun r => (r.1.nodes st.1.nnodes).xywh) =
        (dump_in_atts.node io (SetupDefaultNodeTypes env fuel) env fuel st block).map
          (fun _ => (x, y, w, ht))) ∧
    NoFuelFault
      (dump_in_atts.node io (SetupDefaultNodeTypes env (fuel + 1)) env (fuel + 1) st block) := by
  refine ⟨?_, ?_, node_nff io env fuel _ (default_factory_unconnected env fuel) st block⟩
  all_goals cases e : dump_in_atts.node io (SetupDefaultNodeTypes env fuel) env fuel st block with
  | error err => first | rfl | exact fun _ => rfl
  | ok r => ?_
  all_goals
    obtain ⟨g1, g2⟩ := node_geometry io (SetupDefaultNodeTypes env fuel) env fuel
      (default_factory_builds env fuel) st r block pre post entry x y w ht hatts hentry hnum hpost
      hreg e
    obtain ⟨n1, _, _, _⟩ := node_step io (SetupDefaultNodeTypes env fuel) env fuel
      (default_factory_builds env fuel) st r block hreg e
    simp only [Prod.mk.injEq] at g1
  · simp only [Except.map, n1, g1.1, g1.2]
  · intro hnone
    simp only [Except.map, g2 hnone]

/-- C15 on the Value block of `oneValue`, read into an empty store and a group
without style: the node has the four numbers of the `xywh` entry. -/
theorem C15_load_restores_position_witness :
    (dump_in_atts.node plainText (SetupDefaultNodeTypes tickEnv 2) tickEnv 2 ({}, {})
        (Attribute.mk "node" (some "Value")
          [Attribute.mk "id" (some "v1") [], Attribute.mk "xywh" (some "10 20 30 40") []])).map
        (fun r => (r.2.nodes, (r.1.nodes 0).xywh)) = Except.ok ([0], (10, 20, 30, 40)) ∧
    (dump_in_atts.node plainText (SetupDefaultNodeTypes tickEnv 2) tickEnv 2 ({}, {})
        (Attribute.mk "node" (some "Value")
          [Attribute.mk "id" (some "v1") [], Attribute.mk "xywh" (some "10 20 30 40") []])).map
        (fun r => (r.2.nodes, (r.1.nodes 0).x, (r.1.nodes 0).y)) =
      (dump_in_atts.node plainText (SetupDefaultNodeTypes tickEnv 2) tickEnv 2 ({}, {})
        (Attribute.mk "node" (some "Value")
          [Attribute.mk "id" (some "v1") [], Attribute.mk "xywh" (some "10 20 30 40") []])).map
        (fun _ => ([] ++ [0], 10, 20)) :=
  ⟨by decide!,
    (C15_load_restores_position plainText tickEnv 2 ({}, {})
      (Attribute.mk "node" (some "Value")
        [Attribute.mk "id" (some "v1") [], Attribute.mk "xywh" (some "10 20 30 40") []])
      [Attribute.mk "id" (some "v1") []] [] (Attribute.mk "xywh" (some "10 20 30 40") [])
      10 20 30 40 rfl rfl (by decide!) (by simp) (by decide)).1⟩

/-! ## Claim C13 -/

/-- The loop over the `connections` block changes no value and enters no
`Update()`. -/
lemma connections_no_update (h : Heap) (g : NodeGroup) (conatt : Attribute) :
    (dump_in_atts.connections h g conatt).1.vals = h.vals ∧
    (dump_in_atts.connections h g conatt).1.calls = h.calls := by
  have hstep : ∀ (st : Heap × NodeGroup) (att : Attribute),
      (dump_in_atts.connect st att).1.vals = st.1.vals ∧
      (dump_in_atts.connect st att).1.calls = st.1.calls := by
    intro st att
    by_cases hres : ∃ from_ to_ fromprop toprop, Resolves st att from_ to_ fromprop toprop
    · obtain ⟨from_, to_, fromprop, toprop, hr⟩ := hres
      rw [connect_of_resolves st att from_ to_ fromprop toprop hr]
      exact ⟨rfl, rfl⟩
    · rw [connect_of_not_resolves st att hres]
      exact ⟨rfl, rfl⟩
  have hall : ∀ (l : List Attribute) (st : Heap × NodeGroup),
      (l.foldl dump_in_atts.connect st).1.vals = st.1.vals ∧
      (l.foldl dump_in_atts.connect st).1.calls = st.1.calls := by
    intro l
    induction l with
    | nil => intro st; exact ⟨rfl, rfl⟩
    | cons att rest ih =>
      intro st
      obtain ⟨a1, a2⟩ := ih (dump_in_atts.connect st att)
      obtain ⟨b1, b2⟩ := hstep st att
      exact ⟨a1.trans b1, a2.trans b2⟩
  exact hall conatt.attributes (h, g)

/-- C13 (round trip of a written group), evaluated on the graph of `tripHeap`:
the Value node `v1` holding 5 wired into the input `A` of the Math node `m`,
which adds 3 and shows 8, and the unconnected Value node `v2`.  The document
written from it records 8 for `Result` and no value for the connected input `A`.
`dump_in_atts` calls `Update()` on every node right after its block is read,
when no connection exists yet, and calls no `Update()` after the connections are
made: the Math node computes 0 + 3 from the value stored in `A`, and the
document written from the group read records 3 for `Result`.  Nothing else
differs, whether the fresh group has a style or not.  For every store, group
and `connections` block, the loop that makes the connections changes no value
and enters no `Update()`. -/
theorem C13_result_recomputed_before_connecting :
    (dump_out_atts plainText 2 tripHeap tripGroup none 0).map Attribute.outline =
      Except.ok
        [(1, "id", some "group"), (1, "matrix", some "1 0 0 1 0 0"),
         (1, "node", some "Value"),
         (2, "id", some "v1"), (2, "label", some "Value"), (2, "xywh", some "10 20 65 30"),
         (2, "out", some "V"), (3, "DoubleValue", some "5"),
         (1, "node", some "Math"),
         (2, "id", some "m"), (2, "label", some "Math"), (2, "xywh", some "100 20 120 75"),
         (2, "in", some "Op"), (3, "EnumValue", some "Add"),
         (2, "in", some "A"),
         (2, "in", some "B"), (3, "DoubleValue", some "3"),
         (2, "out", some "Result"), (3, "DoubleValue", some "8"),
         (1, "node", some "Value"),
         (2, "id", some "v2"), (2, "label", some "Value"), (2, "xywh", some "10 90 65 30"),
         (2, "out", some "V"), (3, "DoubleValue", some "7"),
         (1, "connections", none), (2, "connect", some "v1,V -> m,A")] ∧
    (writeReadWrite tripHeap tripGroup {} {}).map Attribute.outline =
      Except.ok
        [(1, "id", some "group"), (1, "matrix", some "1 0 0 1 0 0"),
         (1, "node", some "Value"),
         (2, "id", some "v1"), (2, "label", some "Value"), (2, "xywh", some "10 20 65 30"),
         (2, "out", some "V"), (3, "DoubleValue", some "5"),
         (1, "node", some "Math"),
         (2, "id", some "m"), (2, "label", some "Math"), (2, "xywh", some "100 20 120 75"),
         (2, "in", some "Op"), (3, "EnumValue", some "Add"),
         (2, "in", some "A"),
         (2, "in", some "B"), (3, "DoubleValue", some "3"),
         (2, "out", some "Result"), (3, "DoubleValue", some "3"),
         (1, "node", some "Value"),
         (2, "id", some "v2"), (2, "label", some "Value"), (2, "xywh", some "10 90 65 30"),
         (2, "out", some "V"), (3, "DoubleValue", some "7"),
         (1, "connections", none), (2, "connect", some "v1,V -> m,A")] ∧
    (writeReadWrite tripHeap tripGroup styledHeap styledGroup).map Attribute.outline =
      (writeReadWrite tripHeap tripGroup {} {}).map Attribute.outline ∧
    ∀ (h : Heap) (g : NodeGroup) (conatt : Attribute),
      (dump_in_atts.connections h g conatt).1.vals = h.vals ∧
      (dump_in_atts.connections h g conatt).1.calls = h.calls := by
  refine ⟨by decide!, by decide!, by decide!, connections_no_update⟩

/-! ## Claims C23, C25 and C26 -/

/-- C23 (NodeConnection::RemoveConnection), evaluated.  For every store,
connection and `which`: when the call has a side to clear (`which & 1` with
`from` set, or `which & 2` with `to` set) it ends in a dereference of the
property pointer it has just set to null, otherwise it changes nothing.  On the
chain of `chainHeap`, `RemoveConnection(1)` and `RemoveConnection(2)` on
connection 0, whose `from` and `to` are set, both stop there, and no property
list is changed. -/
theorem C23_RemoveConnection_dereferences_null (h : Heap) (c which : Nat) :
    NodeConnection.RemoveConnection h c which =
      (if (which % 2 = 1 ∧ ((h.conns c).from_).isSome) ∨
          (which / 2 % 2 = 1 ∧ ((h.conns c).to_).isSome) then
        Except.error Fault.nullDeref
      else Except.ok h) ∧
    ((chainHeap.conns 0).from_, (chainHeap.conns 0).to_) = (some 0, some 1) ∧
    NodeConnection.RemoveConnection chainHeap 0 1 = Except.error Fault.nullDeref ∧
    NodeConnection.RemoveConnection chainHeap 0 2 = Except.error Fault.nullDeref := by
  refine ⟨?_, by decide, ?_, ?_⟩
  · unfold NodeConnection.RemoveConnection
    by_cases h1 : which % 2 = 1 ∧ ((h.conns c).from_).isSome = true
    · simp [h1]
    · by_cases h2 : which / 2 % 2 = 1 ∧ ((h.conns c).to_).isSome = true
      · simp [h1, h2]
      · simp [h1, h2]
  · simp [NodeConnection.RemoveConnection, chainHeap]
  · simp [NodeConnection.RemoveConnection, chainHeap]

/-- C25 (NodeProperty::IsConnected).  Without connection the result is 0; for an
Input it is the negated number of connections, which is 0 or -1 when the input
has at most one; for an Output it is the number of connections. -/
theorem C25_IsConnected (p : NodeProperty) :
    (p.connections = [] → p.IsConnected = 0) ∧
    (p.IsInput = true → p.IsConnected = -(p.connections.length : Int)) ∧
    (p.IsInput = true → p.connections.length ≤ 1 → p.IsConnected = 0 ∨ p.IsConnected = -1) ∧
    (p.IsOutput = true → p.IsConnected = (p.connections.length : Int)) := by
  refine ⟨?_, ?_, ?_, ?_⟩
  · intro hc
    simp [NodeProperty.IsConnected, hc]
  · intro hi
    simp [NodeProperty.IsConnected, hi]
  · intro hi hl
    simp only [NodeProperty.IsConnected, hi, if_true]
    omega
  · intro ho
    have hi : p.IsInput = false := by
      simp only [NodeProperty.IsOutput, NodeProperty.IsInput, beq_iff_eq] at ho ⊢
      simp [ho]
    simp [NodeProperty.IsConnected, hi]

/-- C25 on the properties of `deleteHeap`: the output of A with its two
connections, the input of B with its one connection, and a property without
connection. -/
theorem C25_IsConnected_witness :
    (deleteHeap.props 0).IsConnected = 2 ∧ (deleteHeap.props 1).IsConnected = -1 ∧
    (deleteHeap.props 9).IsConnected = 0 ∧
    (((deleteHeap.props 9).connections = [] → (deleteHeap.props 9).IsConnected = 0) ∧
    ((deleteHeap.props 1).IsInput = true →
      (deleteHeap.props 1).IsConnected = -((deleteHeap.props 1).connections.length : Int)) ∧
    ((deleteHeap.props 1).IsInput = true → (deleteHeap.props 1).connections.length ≤ 1 →
      (deleteHeap.props 1).IsConnected = 0 ∨ (deleteHeap.props 1).IsConnected = -1) ∧
    ((deleteHeap.props 0).IsOutput = true →
      (deleteHeap.props 0).IsConnected = ((deleteHeap.props 0).connections.length : Int))) :=
  ⟨by decide, by decide, by decide,
    (C25_IsConnected (deleteHeap.props 9)).1, (C25_IsConnected (deleteHeap.props 1)).2.1,
    (C25_IsConnected (deleteHeap.props 1)).2.2.1, (C25_IsConnected (deleteHeap.props 0)).2.2.2⟩

/-- C26, the case the claim does not cover, evaluated: an Output whose
`is_linkable` flag is false.  `AllowOutput()` returns `IsOutput()` and does not
look at the flag. -/
theorem C26_unlinkable_output_allowed :
    ({ type := PropertyTypes.PROP_Output, is_linkable := false } : NodeProperty).AllowOutput =
      true ∧
    ({ type := PropertyTypes.PROP_Output, is_linkable := false } : NodeProperty).AllowInput =
      false := by
  decide

/-- C26 (AllowInput and AllowOutput).  `AllowInput()` is true exactly for an
Input whose `is_linkable` flag is set; `AllowOutput()` is true exactly for an
Output, whatever the flag. -/
theorem C26_AllowInput_AllowOutput (p : NodeProperty) :
    (p.AllowInput = true ↔ p.IsInput = true ∧ p.is_linkable = true) ∧
    (p.AllowOutput = true ↔ p.IsOutput = true) := by
  simp [NodeProperty.AllowInput, NodeProperty.AllowOutput]

/-! ## Claims C29 and C30 -/

/-- C29 (MathNode::GetStatus and connected operands), evaluated on
`divideHeap`, a Divide node whose input `B` is connected to a Value node.  With
0 upstream and 3 stored in `B`, `GetData()` on `B` gives the upstream value and
`Update()` meets the division by zero, but `GetStatus()` reads the stored 3 and
returns 0, not Error.  With 2 upstream and 0 stored in `B`, `GetStatus()` reads
the stored 0 and returns -1 (Error), although the operand `Update()` computes
with is 2 and `A` is 4. -/
theorem C29_GetStatus_reads_stored_operand :
    GetData (divideHeap 3 0) 2 3 = Except.ok (some 0) ∧
    (divideHeap 3 0).vals 0 = Value.DoubleValue 0 ∧
    (GetStatus (divideHeap 3 0) 1).map Prod.fst = Except.ok 0 ∧
    (Update tickEnv 2 (divideHeap 3 0) 1).map Prod.fst = Except.ok (-1) ∧
    (divideHeap 0 2).vals 0 = Value.DoubleValue 2 ∧
    (GetStatus (divideHeap 0 2) 1).map Prod.fst = Except.ok (-1) ∧
    (Update tickEnv 2 (divideHeap 0 2) 1).map (fun r => (r.1, r.2.vals 4)) =
      Except.ok (-1, Value.DoubleValue 2) := by
  refine ⟨by decide, by decide!, by decide!, by decide!, by decide!, by decide!, by decide!⟩

/-- C30 (NodeGroup::DeleteNodes and the selection), evaluated.  For every store
and group, a selection of one node is emptied when that node is deletable.  In
the group of `deleteHeap`, the selection B, C, D (nodes 1, 2, 3, of which C is
not deletable) comes back as C alone: the loop calls `selected.remove(c)` for
every node it deletes. -/
theorem C30_DeleteNodes_removes_from_selection (h : Heap) (g : NodeGroup) (x : Nat) :
    (NodeGroup.DeleteNodes h g [x]).selected = (if (h.nodes x).deletable then [] else [x]) ∧
    (NodeGroup.DeleteNodes deleteHeap deleteGroup [1, 2, 3]).selected = [2] ∧
    (NodeGroup.DeleteNodes deleteHeap deleteGroup [1, 2, 3]).numdel = 2 := by
  refine ⟨?_, by decide, by decide⟩
  cases hd : (h.nodes x).deletable <;>
    simp [NodeGroup.DeleteNodes, DeleteNodes.loop, hd, remove]


/-! ## Claim C21 -/

/-- `MathNode::GetStatus` returns when properties 1 and 2 store doubles and
property 3 exists. -/
lemma MathNode_GetStatus_ok (h : Heap) (n : Nat) (m : MathNode) (p0 p1 p2 p3 : Nat)
    (rest : List Nat) (v1 v2 : Nat) (a b : ℚ)
    (hprops : (h.nodes n).properties = p0 :: p1 :: p2 :: p3 :: rest)
    (h1 : (h.props p1).data = some v1) (hv1 : h.vals v1 = Value.DoubleValue a)
    (h2 : (h.props p2).data = some v2) (hv2 : h.vals v2 = Value.DoubleValue b) :
    ∃ r, MathNode.GetStatus h n m = Except.ok r := by
  simp only [MathNode.GetStatus, propAt, hprops, List.get?_cons_succ, List.get?_cons_zero, h1,
    h2, readDouble, hv1, hv2, bind, Except.bind]
  split_ifs <;> exact ⟨_, rfl⟩

/-- The store of a result into an empty property allocates one value and
writes that property only. -/
lemma storeResult_none (env : Env) (h : Heap) (p3 : Nat) (r : ℚ)
    (h3 : (h.props p3).data = none) :
    ∃ h2, storeResult env h p3 r = Except.ok h2 ∧ h2.nodes = h.nodes ∧
      (∀ q, q ≠ p3 → h2.props q = h.props q) ∧ (∀ v, v ≠ h.nvals → h2.vals v = h.vals v) ∧
      SameWiring h h2 := by
  have e : ∃ h2, storeResult env h p3 r = Except.ok h2 := by
    simp only [storeResult, h3]
    exact ⟨_, rfl⟩
  obtain ⟨h2, e2⟩ := e
  refine ⟨h2, e2, ?_, ?_, ?_, sameWiring_storeResult env h h2 p3 r e2⟩
  · simp only [storeResult, h3] at e2
    cases e2
    rfl
  · intro q hq
    simp only [storeResult, h3] at e2
    cases e2
    simp [Function.update, hq]
  · intro v hv
    simp only [storeResult, h3] at e2
    cases e2
    simp [Function.update, hv]

/-- `MathNode::Update` returns on a math node without connections whose
operator property stores an enum value, whose operand properties store doubles
and whose result property is empty. -/
lemma MathNode_Update_ok (env : Env) (fuel : Nat) (h : Heap) (n : Nat) (m : MathNode)
    (p0 p1 p2 p3 : Nat) (rest : List Nat) (v0 v1 v2 : Nat) (enumdef : EnumDef) (idx : ℤ)
    (a b : ℚ)
    (hm : (h.nodes n).math = some m)
    (hprops : (h.nodes n).properties = p0 :: p1 :: p2 :: p3 :: rest)
    (hu : Unconnected h n)
    (hd0 : (h.props p0).data = some v0) (hv0 : h.vals v0 = Value.EnumValue enumdef idx)
    (hd1 : (h.props p1).data = some v1) (hv1 : h.vals v1 = Value.DoubleValue a)
    (hd2 : (h.props p2).data = some v2) (hv2 : h.vals v2 = Value.DoubleValue b)
    (hd3 : (h.props p3).data = none) (h31 : p1 ≠ p3) (h32 : p2 ≠ p3)
    (hf1 : v1 ≠ h.nvals) (hf2 : v2 ≠ h.nvals) :
    ∃ r, Update env (fuel + 1) h n = Except.ok r := by
  have hc0 : (h.props p0).connections = [] := hu p0 (by simp [hprops])
  have hc1 : (h.props p1).connections = [] := hu p1 (by simp [hprops])
  have hc2 : (h.props p2).connections = [] := hu p2 (by simp [hprops])
  have hprops' : ((enter h n).nodes n).properties = p0 :: p1 :: p2 :: p3 :: rest := hprops
  have hg : ∀ p, (h.props p).connections = [] →
      GetData (enter h n) (fuel + 1) p = Except.ok (h.props p).data :=
    fun p hp => GetData_unconnected (enter h n) fuel p hp
  have hv : (enter h n).vals = h.vals := rfl
  have hpr : ∀ m1 : MathNode,
      ((setMath (enter h n) n m1).nodes n).properties = p0 :: p1 :: p2 :: p3 :: rest := by
    intro m1
    simp [setMath, enter, Function.update, hprops]
  simp only [Update, hm, MathNode.Update, propAt, hprops', hg _ hc0, hg _ hc1, hg _ hc2, hv, hd0,
    hd1, hd2, readDouble, hv1, hv2, readOp, hv0, bind, Except.bind, List.get?_cons_succ,
    List.get?_cons_zero]
  cases hc : compute env (getEnumInfo enumdef idx) a b m.result with
  | none => exact ⟨_, rfl⟩
  | some res =>
    obtain ⟨h2, e2, hn2, hp2, hvals2, hw2⟩ := storeResult_none env
      (setMath (enter h n) n
        { m with a := a, b := b, operation := getEnumInfo enumdef idx, result := res }) p3 res hd3
    have hu2 : Unconnected h2 n :=
      ((hu.of_sameWiring ⟨fun _ => rfl, fun _ => rfl⟩).of_sameWiring
        (sameWiring_setMath (enter h n) n _)).of_sameWiring hw2
    have hmath : ((stampNode env h2 n).nodes n).math =
        some { m with a := a, b := b, operation := getEnumInfo enumdef idx, result := res } := by
      simp [stampNode, hn2, setMath]
    have hprops2 : ((stampNode env h2 n).nodes n).properties = p0 :: p1 :: p2 :: p3 :: rest := by
      simp [stampNode, hn2, setMath, enter, hprops]
    simp only [hpr, List.get?_cons_succ, List.get?_cons_zero, e2, NodeBase.Update,
      updateProps_unconnected _ h2 _ hu2, GetStatus, hmath]
    exact MathNode_GetStatus_ok (stampNode env h2 n) n _ p0 p1 p2 p3 rest v1 v2 a b hprops2
      (by rw [show (stampNode env h2 n).props = h2.props from rfl, hp2 p1 h31]; exact hd1)
      (by rw [show (stampNode env h2 n).vals = h2.vals from rfl, hvals2 v1 hf1]; exact hv1)
      (by rw [show (stampNode env h2 n).props = h2.props from rfl, hp2 p2 h32]; exact hd2)
      (by rw [show (stampNode env h2 n).vals = h2.vals from rfl, hvals2 v2 hf2]; exact hv2)

/-- The constructor of the Math node returns with one unit of fuel: its
`Update()` adds 0 and 0. -/
lemma newMathNode_ok (env : Env) (fuel : Nat) (h : Heap) :
    ∃ h', newMathNode env (fuel + 1) h = Except.ok (some h.nnodes, h') := by
  unfold newMathNode
  simp only []
  generalize hX : NodeBase.AddProperty _ _ PropertyTypes.PROP_Output true "Result" none false = X
  have hm : (X.nodes h.nnodes).math =
      some { a := 0, b := 0, operation := MathNodeOps.OP_None, numargs := 2 } := by
    rw [← hX]
    simp [NodeBase.AddProperty, newValue, newNodeBase, Function.update]
  have hprops : (X.nodes h.nnodes).properties =
      [h.nprops, h.nprops + 1, h.nprops + 1 + 1, h.nprops + 1 + 1 + 1] := by
    rw [← hX]
    simp [NodeBase.AddProperty, newValue, newNodeBase, Function.update, push]
  have hd : (X.props h.nprops).data = some h.nvals ∧
      (X.props (h.nprops + 1)).data = some (h.nvals + 1) ∧
      (X.props (h.nprops + 1 + 1)).data = some (h.nvals + 1 + 1) ∧
      (X.props (h.nprops + 1 + 1 + 1)).data = none ∧
      (∀ p ∈ [h.nprops, h.nprops + 1, h.nprops + 1 + 1, h.nprops + 1 + 1 + 1],
        (X.props p).connections = []) := by
    rw [← hX]
    refine ⟨?_, ?_, ?_, ?_, ?_⟩
    · simp [NodeBase.AddProperty, newValue, newNodeBase, Function.update]
      split_ifs <;> first | rfl | omega
    · simp [NodeBase.AddProperty, newValue, newNodeBase, Function.update]
    · simp [NodeBase.AddProperty, newValue, newNodeBase, Function.update]
    · simp [NodeBase.AddProperty, newValue, newNodeBase, Function.update]
    · intro p hp
      simp at hp
      rcases hp with rfl | rfl | rfl | rfl <;>
        (simp [NodeBase.AddProperty, newValue, newNodeBase, Function.update] <;>
          (split_ifs <;> rfl))
  have hv : X.vals h.nvals = Value.EnumValue DefineMathNodeDef 0 ∧
      X.vals (h.nvals + 1) = Value.DoubleValue 0 ∧
      X.vals (h.nvals + 1 + 1) = Value.DoubleValue 0 ∧ X.nvals = h.nvals + 1 + 1 + 1 := by
    rw [← hX]
    refine ⟨?_, ?_, ?_, ?_⟩
    · simp [NodeBase.AddProperty, newValue, newNodeBase, Function.update]
      first | rfl | omega
    · simp [NodeBase.AddProperty, newValue, newNodeBase, Function.update]
    · simp [NodeBase.AddProperty, newValue, newNodeBase, Function.update]
    · simp [NodeBase.AddProperty, newValue, newNodeBase]
  obtain ⟨d0, d1, d2, d3, dc⟩ := hd
  obtain ⟨v0, v1, v2, vn⟩ := hv
  have hu : Unconnected X h.nnodes := by
    intro p hp
    rw [hprops] at hp
    exact dc p hp
  obtain ⟨r, hr⟩ := MathNode_Update_ok env fuel X h.nnodes _ _ _ _ _ [] _ _ _ DefineMathNodeDef 0 0 0
    hm hprops hu d0 v0 d1 v1 d2 v2 d3 (by omega) (by omega) (by rw [vn]; omega) (by rw [vn]; omega)
  have hn : (newNodeBase h "Math" "Math"
      (some { a := 0, b := 0, operation := MathNodeOps.OP_None, numargs := 2 })).1 = h.nnodes := rfl
  exact ⟨r.2, by rw [hn, hr]⟩

/-- Each default registration, run with one unit of fuel, returns the node it
allocated at the next free address, tagged with the registered name. -/
lemma default_factory_returns (env : Env) (fuel : Nat) (h : Heap) :
    ∀ fnode ∈ SetupDefaultNodeTypes env (fuel + 1), ∃ r, fnode.2 h = Except.ok r ∧
      r.1 = some h.nnodes ∧ (r.2.nodes h.nnodes).type = some fnode.1 := by
  intro fnode hmem
  have hb := default_factory_builds env (fuel + 1) fnode hmem
  have hret : ∃ r, fnode.2 h = Except.ok r := by
    simp only [SetupDefaultNodeTypes, List.mem_cons, List.mem_singleton, List.not_mem_nil,
      or_false] at hmem
    rcases hmem with rfl | rfl | rfl | rfl
    · exact ⟨_, rfl⟩
    · exact ⟨_, rfl⟩
    · obtain ⟨h', e⟩ := newMathNode_ok env fuel h
      exact ⟨_, e⟩
    · exact ⟨_, rfl⟩
  obtain ⟨r, e⟩ := hret
  obtain ⟨h1, _, h3, _⟩ := hb h r e
  exact ⟨r, e, h1, congrArg Prod.fst h3⟩

/-- C21 (`NodeGroup::NewNode`).  For any factory: when no entry has the name
`type` the call returns no node and leaves the store as it was, and otherwise it
returns what the constructor of the first entry with that name returns; so, when
no constructor of the factory returns without a node, a call that returns gives
no node exactly when no entry has the name.  For the default registrations, run
with one unit of fuel or more, the call always returns; it returns no node
exactly when no entry has the name; and for each of `Color`, `NewImage`, `Math`
and `Value` the node returned is the newly allocated one and its type tag is the
requested name. -/
theorem C21_NewNode (env : Env) (fuel : Nat) (factory : ObjectFactory) (type : String)
    (h : Heap) :
    ((∀ fnode ∈ factory, fnode.1 ≠ type) → NewNode factory type h = Except.ok (none, h)) ∧
    (∀ pre fnode post, factory = pre ++ fnode :: post → (∀ e ∈ pre, e.1 ≠ type) →
      fnode.1 = type → NewNode factory type h = fnode.2 h) ∧
    ((∀ fnode ∈ factory, ∀ r, fnode.2 h = Except.ok r → r.1 ≠ none) →
      ∀ r, NewNode factory type h = Except.ok r →
        (r.1 = none ↔ ∀ fnode ∈ factory, fnode.1 ≠ type)) ∧
    ∃ r, NewNode (SetupDefaultNodeTypes env (fuel + 1)) type h = Except.ok r ∧
      (r.1 = none ↔ ∀ fnode ∈ SetupDefaultNodeTypes env (fuel + 1), fnode.1 ≠ type) ∧
      (type ∈ ["Color", "NewImage", "Math", "Value"] →
        r.1 = some h.nnodes ∧ (r.2.nodes h.nnodes).type = some type) := by
  refine ⟨?_, ?_, ?_, ?_⟩
  · intro hno
    have hf : factory.find? (fun fnode => fnode.1 == type) = none := by
      rw [List.find?_eq_none]
      intro x hx
      simpa using hno x hx
    simp only [NewNode, hf]
  · intro pre fnode post hfac hpre hname
    have hf : factory.find? (fun fnode => fnode.1 == type) = some fnode := by
      have hp : pre.find? (fun fnode => fnode.1 == type) = none := by
        rw [List.find?_eq_none]
        intro x hx
        simpa using hpre x hx
      rw [hfac, List.find?_append, hp]
      simp [List.find?_cons, hname]
    simp only [NewNode, hf]
  · intro hall r hr
    cases hf : factory.find? (fun fnode => fnode.1 == type) with
    | none =>
      have hno : ∀ fnode ∈ factory, fnode.1 ≠ type := by
        intro x hx
        have := List.find?_eq_none.1 hf x hx
        simpa using this
      simp only [NewNode, hf] at hr
      cases hr
      exact ⟨fun _ => hno, fun _ => rfl⟩
    | some fnode =>
      have hmem : fnode ∈ factory := List.mem_of_find?_eq_some hf
      have hname : fnode.1 = type := by
        have := List.find?_some hf
        simpa using this
      simp only [NewNode, hf] at hr
      exact ⟨fun hn => absurd hn (hall fnode hmem r hr), fun hno => absurd hname (hno fnode hmem)⟩
  · cases hf : (SetupDefaultNodeTypes env (fuel + 1)).find? (fun fnode => fnode.1 == type) with
    | none =>
      have hno : ∀ fnode ∈ SetupDefaultNodeTypes env (fuel + 1), fnode.1 ≠ type := by
        intro x hx
        have := List.find?_eq_none.1 hf x hx
        simpa using this
      refine ⟨(none, h), by simp only [NewNode, hf], ⟨fun _ => hno, fun _ => rfl⟩, ?_⟩
      intro hmem
      exfalso
      simp only [List.mem_cons, List.mem_singleton, List.not_mem_nil, or_false] at hmem
      rcases hmem with rfl | rfl | rfl | rfl
      · exact hno ("Color", newColorNode) (by simp [SetupDefaultNodeTypes]) rfl
      · exact hno ("NewImage", newImageNode) (by simp [SetupDefaultNodeTypes]) rfl
      · exact hno ("Math", newMathNode env (fuel + 1)) (by simp [SetupDefaultNodeTypes]) rfl
      · exact hno ("Value", newDoubleNode) (by simp [SetupDefaultNodeTypes]) rfl
    | some fnode =>
      have hmem : fnode ∈ SetupDefaultNodeTypes env (fuel + 1) := List.mem_of_find?_eq_some hf
      have hname : fnode.1 = type := by
        have := List.find?_some hf
        simpa using this
      obtain ⟨r, e, h1, h2⟩ := default_factory_returns env fuel h fnode hmem
      refine ⟨r, by simp only [NewNode, hf, e], ⟨?_, ?_⟩, ?_⟩
      · intro hn
        rw [h1] at hn
        cases hn
      · intro hno
        exact absurd hname (hno fnode hmem)
      · intro _
        exact ⟨h1, by rw [h2, hname]⟩

/-- Witness for C21: in the empty store the default factory has no entry named
`Blur` and gives no node for it; asked for `Math` it returns node 0, tagged
`Math`. -/
theorem C21_NewNode_witness :
    NewNode (SetupDefaultNodeTypes tickEnv 1) "Blur" {} = Except.ok (none, {}) ∧
    "Math" ∈ ["Color", "NewImage", "Math", "Value"] ∧
    ∃ r, NewNode (SetupDefaultNodeTypes tickEnv 1) "Math" {} = Except.ok r ∧
      r.1 = some 0 ∧ (r.2.nodes 0).type = some "Math" :=
  ⟨(C21_NewNode tickEnv 0 (SetupDefaultNodeTypes tickEnv 1) "Blur" {}).1
      (by simp [SetupDefaultNodeTypes]),
    by decide,
    match (C21_NewNode tickEnv 0 [] "Math" {}).2.2.2 with
    | ⟨r, hr, _, ht⟩ => ⟨r, hr, ht (by decide)⟩⟩


/-! ## Claim C22 -/

lemma remove_top (l : List Nat) (a : Nat) : remove (l ++ [a]) (-1) = l := by
  simp only [remove, List.length_append, List.length_singleton, Nat.add_sub_cancel]
  rw [if_pos (Or.inl (by decide)), List.eraseIdx_append_of_length_le (le_refl _)]
  simp

/-- The loop of `NodeGroup::Encapsulate` empties the selection and pushes its
nodes onto the new group from the top down. -/
lemma Encapsulate_loop (fuel : Nat) :
    ∀ (selected : List Nat) (group : NodeGroup), selected.length ≤ fuel →
      Encapsulate.loop fuel selected group =
        ([], { group with nodes := group.nodes ++ selected.reverse }) := by
  induction fuel with
  | zero =>
    intro selected group hl
    have : selected = [] := List.length_eq_zero.1 (Nat.le_zero.1 hl)
    subst this
    simp [Encapsulate.loop]
  | succ fuel ih =>
    intro selected group hl
    rcases List.eq_nil_or_concat selected with rfl | ⟨init, a, rfl⟩
    · simp [Encapsulate.loop, pop]
    · have hl2 : init.length ≤ fuel := by
        simp at hl
        omega
      have hlast : (init ++ [a]).getLast? = some a := by simp
      simp only [List.concat_eq_append, Encapsulate.loop, pop, hlast, remove_top,
        ih init _ hl2, push]
      simp

/-- C22 (`NodeGroup::Encapsulate`), the code as it stands.  On an empty selection
the call returns no group and changes nothing.  On a selection `x :: xs` it
returns a new group whose node list is the selection, top first, and nothing
else; the two placeholder nodes it allocates are pushed onto the node list of
the group `this`, from which no selected node is taken out; the selection is
empty afterwards.  In the three-node group, with nodes 0 and 1 selected, the
returned group holds `[1, 0]` without the placeholders 3 and 4, and the parent
holds `[0, 1, 2, 3, 4]`. -/
theorem C22_Encapsulate_keeps_selection_in_parent (h : Heap) (g : NodeGroup) (x : Nat)
    (xs : List Nat) :
    NodeGroup.Encapsulate h g [] = (none, h, g, []) ∧
    (NodeGroup.Encapsulate h g (x :: xs)).1 = some { nodes := (x :: xs).reverse } ∧
    (NodeGroup.Encapsulate h g (x :: xs)).2.2.1.nodes = g.nodes ++ [h.nnodes, h.nnodes + 1] ∧
    (NodeGroup.Encapsulate h g (x :: xs)).2.2.2 = [] ∧
    ((NodeGroup.Encapsulate tripHeap tripGroup [0, 1]).1.map (fun group => group.nodes),
      (NodeGroup.Encapsulate tripHeap tripGroup [0, 1]).2.2.1.nodes,
      (NodeGroup.Encapsulate tripHeap tripGroup [0, 1]).2.2.2) =
      (some [1, 0], [0, 1, 2, 3, 4], []) := by
  refine ⟨rfl, ?_, ?_, ?_, ?_⟩
  · have e := Encapsulate_loop (x :: xs).length (x :: xs) {} (le_refl _)
    simp only [List.length_cons] at e
    simp [NodeGroup.Encapsulate, e]
  · simp [NodeGroup.Encapsulate, push]
  · have e := Encapsulate_loop (x :: xs).length (x :: xs) {} (le_refl _)
    simp only [List.length_cons] at e
    simp [NodeGroup.Encapsulate, e]
  · decide


/-! ## Claim C24 -/

/-- C24 (`NodeProperty::SetData`).  The call returns 1 and the property stores
`newdata` afterwards.  When `newdata` is the value already stored, the store and
every reference count are as before.  Otherwise the count of the previous value,
if there was one, is one lower; the count of the new value, if there is one, is
one higher when `absorb` is false and as before when `absorb` is true; the count
of every other value is as before; and in the store only the member `data` of
that property has changed. -/
theorem C24_SetData (h : Heap) (counts : Nat → Int) (p : Nat) (newdata : Option Nat)
    (absorb : Bool) :
    (NodeProperty.SetData h counts p newdata absorb).1 = 1 ∧
    ((NodeProperty.SetData h counts p newdata absorb).2.1.props p).data = newdata ∧
    (newdata = (h.props p).data →
      (NodeProperty.SetData h counts p newdata absorb).2.1 = h ∧
      (NodeProperty.SetData h counts p newdata absorb).2.2 = counts) ∧
    (newdata ≠ (h.props p).data →
      (∀ old, (h.props p).data = some old →
        (NodeProperty.SetData h counts p newdata absorb).2.2 old = counts old - 1) ∧
      (∀ new, newdata = some new →
        (NodeProperty.SetData h counts p newdata absorb).2.2 new =
          counts new + (if absorb then 0 else 1)) ∧
      (∀ v, some v ≠ (h.props p).data → some v ≠ newdata →
        (NodeProperty.SetData h counts p newdata absorb).2.2 v = counts v) ∧
      (NodeProperty.SetData h counts p newdata absorb).2.1 =
        { h with props := Function.update h.props p { h.props p with data := newdata } }) := by
  by_cases he : newdata = (h.props p).data
  · have e : NodeProperty.SetData h counts p newdata absorb = (1, h, counts) := by
      simp only [NodeProperty.SetData, if_pos he]
    rw [e]
    exact ⟨rfl, he.symm, fun _ => ⟨rfl, rfl⟩, fun hne => absurd he hne⟩
  · refine ⟨?_, ?_, fun e => absurd e he, fun _ => ⟨?_, ?_, ?_, ?_⟩⟩ <;>
      simp only [NodeProperty.SetData, if_neg he, Function.update_same]
    · intro old hold
      have hne : newdata ≠ some old := fun e => he (e.trans hold.symm)
      rw [hold]
      cases hn : newdata with
      | none => simp [dec_count]
      | some new =>
        have hno : old ≠ new := fun e => hne (by rw [hn, e])
        cases absorb <;> simp [dec_count, inc_count, Function.update, hno, Ne.symm hno]
    · intro new hnew
      subst hnew
      cases hd : (h.props p).data with
      | none => cases absorb <;> simp [inc_count]
      | some old =>
        have hno : new ≠ old := fun e => he (by rw [hd, e])
        cases absorb <;> simp [dec_count, inc_count, Function.update, hno, Ne.symm hno]
    · intro v hv1 hv2
      cases hd : (h.props p).data with
      | none =>
        cases hn : newdata with
        | none => rfl
        | some new =>
          have h2 : v ≠ new := fun e => hv2 (by rw [hn, e])
          cases absorb <;> simp [inc_count, Function.update, h2]
      | some old =>
        have h1 : v ≠ old := fun e => hv1 (by rw [hd, e])
        cases hn : newdata with
        | none => simp [dec_count, Function.update, h1]
        | some new =>
          have h2 : v ≠ new := fun e => hv2 (by rw [hn, e])
          cases absorb <;> simp [dec_count, inc_count, Function.update, h1, h2]

/-- Witness for C24: input `A` of the Math node of the three-node graph stores
value 2; with every count at 1, setting it to value 3 without absorbing leaves
value 2 with count 0 and value 3 with count 2, and setting it to value 2 again
moves no count. -/
theorem C24_SetData_witness :
    (some 3 : Option Nat) ≠ (tripHeap.props 2).data ∧
    (tripHeap.props 2).data = some 2 ∧
    (NodeProperty.SetData tripHeap (fun _ => 1) 2 (some 3) false).2.2 2 = 1 - 1 ∧
    (NodeProperty.SetData tripHeap (fun _ => 1) 2 (some 3) false).2.2 3 = 1 + 1 ∧
    (NodeProperty.SetData tripHeap (fun _ => 1) 2 (some 2) false).2.2 = (fun _ => 1) :=
  ⟨by decide, by decide,
    ((C24_SetData tripHeap (fun _ => 1) 2 (some 3) false).2.2.2 (by decide)).1 2 (by decide),
    ((C24_SetData tripHeap (fun _ => 1) 2 (some 3) false).2.2.2 (by decide)).2.1 3 rfl,
    ((C24_SetData tripHeap (fun _ => 1) 2 (some 2) false).2.2.1 (by decide)).2⟩


/-! ## Claim C27 -/

lemma WrapCollapsed_keeps {α : Type} (f : NodeBase → α)
    (hwh : ∀ node w ht, f { node with width := w, height := ht } = f node) (h : Heap) (n : Nat)
    (hc : (h.nodes n).collapsed = true) : Keeps f h (NodeBase.WrapCollapsed h n).2 := by
  have k := Wrap_keeps f hwh h n
  simpa only [NodeBase.Wrap, hc, if_true] using k

/-- `Collapse(1)`: on an expanded node the flag and `fullwidth` are written and
the collapsed layout runs; on a collapsed node nothing happens. -/
lemma Collapse_one (h : Heap) (n : Nat) :
    ((NodeBase.Collapse h n 1).2.nodes n).collapsed = true ∧
    ((h.nodes n).collapsed = false →
      ((NodeBase.Collapse h n 1).2.nodes n).fullwidth = (h.nodes n).width) ∧
    ((h.nodes n).collapsed = true → (NodeBase.Collapse h n 1).2 = h) := by
  cases hc : (h.nodes n).collapsed with
  | true =>
    have e : (NodeBase.Collapse h n 1).2 = h := by simp [NodeBase.Collapse, hc]
    rw [e]
    exact ⟨hc, fun x => absurd x (by decide), fun _ => rfl⟩
  | false =>
    have e : (NodeBase.Collapse h n 1).2 =
        (NodeBase.WrapCollapsed { h with nodes := Function.update h.nodes n { h.nodes n with collapsed := true, fullwidth := (h.nodes n).width } } n).2 := by
      simp [NodeBase.Collapse, hc]
    have k := WrapCollapsed_keeps (fun node => (node.collapsed, node.fullwidth))
      (fun _ _ _ => rfl)
      { h with nodes := Function.update h.nodes n { h.nodes n with collapsed := true, fullwidth := (h.nodes n).width } }
      n (by simp)
    have kn := k.2.2 n
    simp only [Function.update_same, Prod.mk.injEq] at kn
    rw [e]
    exact ⟨kn.1, fun _ => kn.2, fun x => absurd x (by decide)⟩

/-- `Collapse(0)`: on a collapsed node the flag is cleared and the layout runs;
on an expanded node nothing happens. -/
lemma Collapse_zero (h : Heap) (n : Nat) :
    ((NodeBase.Collapse h n 0).2.nodes n).collapsed = false ∧
    ((h.nodes n).collapsed = false → (NodeBase.Collapse h n 0).2 = h) := by
  cases hc : (h.nodes n).collapsed with
  | false =>
    have e : (NodeBase.Collapse h n 0).2 = h := by simp [NodeBase.Collapse, hc]
    rw [e]
    exact ⟨hc, fun _ => rfl⟩
  | true =>
    have e : (NodeBase.Collapse h n 0).2 =
        (NodeBase.Wrap { h with nodes := Function.update h.nodes n { h.nodes n with collapsed := false } } n).2 := by
      simp [NodeBase.Collapse, hc]
    have k := Wrap_keeps (fun node => node.collapsed) (fun _ _ _ => rfl)
      { h with nodes := Function.update h.nodes n { h.nodes n with collapsed := false } } n
    have kn := k.2.2 n
    simp only [Function.update_same] at kn
    rw [e]
    exact ⟨kn, fun x => absurd x (by decide)⟩

/-- `Collapse(-1)` is `Collapse(0)` on a collapsed node and `Collapse(1)` on an
expanded one. -/
lemma Collapse_toggle (h : Heap) (n : Nat) :
    NodeBase.Collapse h n (-1) =
      NodeBase.Collapse h n (if (h.nodes n).collapsed then 0 else 1) := by
  cases hc : (h.nodes n).collapsed <;> simp [NodeBase.Collapse, hc]

/-- C27 (`NodeBase::Collapse`).  `Collapse(0)` leaves the node expanded and
`Collapse(1)` leaves it collapsed; `Collapse(1)` on an expanded node sets
`fullwidth` to the width the node had before the call; `Collapse(-1)` flips the
flag; the returned integer is the flag afterwards, for every argument; a call
with the state the node already has leaves the whole store as it was; and two
toggles in a row give back the original flag.  All of this holds with or without
an installed style. -/
theorem C27_Collapse (h : Heap) (n : Nat) :
    ((NodeBase.Collapse h n 0).2.nodes n).collapsed = false ∧
    ((NodeBase.Collapse h n 1).2.nodes n).collapsed = true ∧
    ((h.nodes n).collapsed = false →
      ((NodeBase.Collapse h n 1).2.nodes n).fullwidth = (h.nodes n).width) ∧
    ((NodeBase.Collapse h n (-1)).2.nodes n).collapsed = !(h.nodes n).collapsed ∧
    (∀ state, (NodeBase.Collapse h n state).1 =
      if ((NodeBase.Collapse h n state).2.nodes n).collapsed then 1 else 0) ∧
    ((h.nodes n).collapsed = false → (NodeBase.Collapse h n 0).2 = h) ∧
    ((h.nodes n).collapsed = true → (NodeBase.Collapse h n 1).2 = h) ∧
    ((NodeBase.Collapse (NodeBase.Collapse h n (-1)).2 n (-1)).2.nodes n).collapsed =
      (h.nodes n).collapsed := by
  have flip : ∀ g : Heap, ((NodeBase.Collapse g n (-1)).2.nodes n).collapsed =
      !(g.nodes n).collapsed := by
    intro g
    rw [Collapse_toggle]
    cases hc : (g.nodes n).collapsed
    · simpa using (Collapse_one g n).1
    · simpa using (Collapse_zero g n).1
  refine ⟨(Collapse_zero h n).1, (Collapse_one h n).1, (Collapse_one h n).2.1, flip h, ?_,
    (Collapse_zero h n).2, (Collapse_one h n).2.2, ?_⟩
  · intro state
    unfold NodeBase.Collapse
    simp only []
    split_ifs <;> rfl
  · rw [flip, flip, Bool.not_not]

/-- Witness for C27: node 1 of the three-node graph is expanded and 120 wide;
`Collapse(1)` stores 120 in `fullwidth`, and `Collapse(0)` leaves the store as it
is. -/
theorem C27_Collapse_witness :
    (tripHeap.nodes 1).collapsed = false ∧
    ((NodeBase.Collapse tripHeap 1 1).2.nodes 1).fullwidth = (tripHeap.nodes 1).width ∧
    (tripHeap.nodes 1).width = 120 ∧
    (NodeBase.Collapse tripHeap 1 0).2 = tripHeap :=
  ⟨by decide, (C27_Collapse tripHeap 1).2.2.1 (by decide), by decide!,
    (C27_Collapse tripHeap 1).2.2.2.2.2.1 (by decide)⟩


/-! ## Claim C28 -/

lemma measure_eq (colors : NodeColors) (st : Heap × ℚ) (p : Nat) :
    WrapFull.measure colors st p =
      ({ st.1 with props := Function.update st.1.props p (WrapFull.measured colors st.1.vals (st.1.props p)) },
        if WrapFull.asked colors st.1.vals (st.1.props p) > st.2 then
          WrapFull.asked colors st.1.vals (st.1.props p)
        else st.2) := by
  unfold WrapFull.measure WrapFull.measured WrapFull.asked
  cases hd : (st.1.props p).data with
  | none =>
    simp only [hd]
    split_ifs <;> simp [Function.update_eq_self]
  | some v =>
    simp only [hd]

lemma asked_measured (colors : NodeColors) (vals : Nat → Value) (q : NodeProperty) :
    WrapFull.asked colors vals (WrapFull.measured colors vals q) = WrapFull.asked colors vals q := by
  unfold WrapFull.measured
  cases hd : q.data with
  | none =>
    simp only []
    split_ifs
    · simp [WrapFull.asked, hd, NodeProperty.Label]
    · rfl
  | some v => simp [WrapFull.asked, hd, NodeProperty.Label]

lemma measured_idem (colors : NodeColors) (vals : Nat → Value) (q : NodeProperty) :
    WrapFull.measured colors vals (WrapFull.measured colors vals q) =
      WrapFull.measured colors vals q := by
  cases hd : q.data with
  | none =>
    by_cases hh : q.height = 0
    · by_cases ht : 3 / 2 * colors.textheight = 0
      · simp [WrapFull.measured, hd, hh, ht]
      · simp [WrapFull.measured, hd, hh, ht]
    · simp [WrapFull.measured, hd, hh]
  | some v =>
    have e := asked_measured colors vals q
    simp only [WrapFull.measured, hd] at e
    simp only [WrapFull.measured, hd, e]

lemma asked_unplaced (colors : NodeColors) (vals : Nat → Value) (q : NodeProperty) :
    WrapFull.asked colors vals q.unplaced = WrapFull.asked colors vals q := rfl

lemma unplaced_measured (colors : NodeColors) (vals : Nat → Value) (q : NodeProperty) :
    (WrapFull.measured colors vals q.unplaced).unplaced =
      (WrapFull.measured colors vals q).unplaced := by
  cases hd : q.data with
  | none =>
    by_cases hh : q.height = 0
    · simp [WrapFull.measured, NodeProperty.unplaced, hd, hh]
    · simp [WrapFull.measured, NodeProperty.unplaced, hd, hh]
  | some v => simp [WrapFull.measured, NodeProperty.unplaced, hd]

/-- The two results of the first loop that the rest of the layout reads depend
on a property only through the members the second loop does not write. -/
lemma measured_congr (colors : NodeColors) (vals : Nat → Value) (q q' : NodeProperty)
    (e : q.unplaced = q'.unplaced) :
    WrapFull.asked colors vals q = WrapFull.asked colors vals q' ∧
    (WrapFull.measured colors vals q).unplaced = (WrapFull.measured colors vals q').unplaced := by
  constructor
  · rw [← asked_unplaced colors vals q, ← asked_unplaced colors vals q', e]
  · rw [← unplaced_measured colors vals q, ← unplaced_measured colors vals q', e]

/-- The first loop of `NodeBase::WrapFull` in closed form. -/
lemma measure_fold (colors : NodeColors) (ps : List Nat) :
    ∀ (h : Heap) (w0 : ℚ), ps.foldl (WrapFull.measure colors) (h, w0) =
      (WrapFull.measuredStore colors ps h, WrapFull.askedWidth colors ps h w0) := by
  induction ps with
  | nil =>
    intro h w0
    simp [WrapFull.measuredStore, WrapFull.askedWidth]
  | cons p ps ih =>
    intro h w0
    rw [List.foldl_cons, measure_eq, ih]
    refine Prod.ext ?_ ?_
    · simp only [WrapFull.measuredStore]
      congr 1
      funext q
      by_cases hq : q = p
      · subst hq
        by_cases hm : q ∈ ps
        · simp [hm, measured_idem]
        · simp [hm]
      · by_cases hm : q ∈ ps
        · simp [hm, hq, Function.update_noteq hq]
        · simp [hm, hq, Function.update_noteq hq]
    · simp only [WrapFull.askedWidth, List.foldl_cons]
      congr 1
      funext acc q
      by_cases hq : q = p
      · subst hq
        simp [asked_measured]
      · simp [Function.update_noteq hq]

lemma placed_congr (qa qb : NodeProperty) (e : qa.unplaced = qb.unplaced) (y py px w : ℚ) :
    ({ qa with y := y, posy := py, posx := px, width := w } : NodeProperty) =
      { qb with y := y, posy := py, posx := px, width := w } := by
  cases qa
  cases qb
  simp only [NodeProperty.unplaced, NodeProperty.mk.injEq] at e
  simp only [NodeProperty.mk.injEq]
  tauto

lemma place_eq (W : ℚ) (st : Heap × ℚ × ℚ) (p : Nat) :
    WrapFull.place W st p =
      ({ st.1 with props := Function.update st.1.props p { st.1.props p with y := st.2.1, posy := st.2.1 + (st.1.props p).height / 2, posx := if (st.1.props p).IsInput then 0 else W, width := W } },
        st.2.1 + (st.1.props p).height, st.2.2 + (st.1.props p).height) := rfl

/-- The second loop of `NodeBase::WrapFull` changes the properties only, and of
a property only the four members it writes; it leaves a property outside the
list alone. -/
lemma place_fold_self (W : ℚ) (ps : List Nat) :
    ∀ st : Heap × ℚ × ℚ,
      (ps.foldl (WrapFull.place W) st).1 =
        { st.1 with props := (ps.foldl (WrapFull.place W) st).1.props } ∧
      (∀ q, ((ps.foldl (WrapFull.place W) st).1.props q).unplaced = (st.1.props q).unplaced) ∧
      (∀ q, q ∉ ps → (ps.foldl (WrapFull.place W) st).1.props q = st.1.props q) := by
  induction ps with
  | nil => intro st; exact ⟨rfl, fun _ => rfl, fun _ _ => rfl⟩
  | cons p ps ih =>
    intro st
    obtain ⟨i1, i2, i3⟩ := ih (WrapFull.place W st p)
    rw [List.foldl_cons]
    refine ⟨?_, ?_, ?_⟩
    · rw [i1]
      rfl
    · intro q
      rw [i2 q, place_eq]
      by_cases hq : q = p
      · subst hq
        simp only [Function.update_same]
        rfl
      · simp only [Function.update_noteq hq]
    · intro q hq
      simp only [List.mem_cons, not_or] at hq
      rw [i3 q hq.2, place_eq]
      simp only [Function.update_noteq hq.1]

lemma place_step_sim (W : ℚ) (a b : Heap) (y ht : ℚ) (p : Nat)
    (hab : ∀ q, (a.props q).unplaced = (b.props q).unplaced) :
    (WrapFull.place W (a, y, ht) p).2 = (WrapFull.place W (b, y, ht) p).2 ∧
    (WrapFull.place W (a, y, ht) p).1.props p = (WrapFull.place W (b, y, ht) p).1.props p ∧
    ∀ q, q ≠ p → (WrapFull.place W (a, y, ht) p).1.props q = a.props q ∧
      (WrapFull.place W (b, y, ht) p).1.props q = b.props q := by
  have hh : (a.props p).height = (b.props p).height := by
    have t := congrArg NodeProperty.height (hab p)
    exact t
  have hi : (a.props p).IsInput = (b.props p).IsInput := by
    have t := congrArg NodeProperty.IsInput (hab p)
    exact t
  refine ⟨?_, ?_, fun q hq => ?_⟩
  · simp only [place_eq, hh]
  · simp only [place_eq, Function.update_same]
    rw [placed_congr _ _ (hab p) _ _ _ _, hh, hi]
  · simp only [place_eq, Function.update_noteq hq, and_self]

/-- Two runs of the second loop of `NodeBase::WrapFull`, on stores whose
properties agree in the members the loop does not write, end with the same `y`
and `height`, and agree in every property of the list and in every property the
stores agreed in. -/
lemma place_fold_sim (W : ℚ) (ps : List Nat) :
    ∀ (a b : Heap) (y ht : ℚ), (∀ q, (a.props q).unplaced = (b.props q).unplaced) →
      (ps.foldl (WrapFull.place W) (a, y, ht)).2 = (ps.foldl (WrapFull.place W) (b, y, ht)).2 ∧
      ∀ q, (q ∈ ps ∨ a.props q = b.props q) →
        (ps.foldl (WrapFull.place W) (a, y, ht)).1.props q =
          (ps.foldl (WrapFull.place W) (b, y, ht)).1.props q := by
  induction ps with
  | nil =>
    intro a b y ht _
    refine ⟨rfl, fun q hq => ?_⟩
    rcases hq with hq | hq
    · cases hq
    · exact hq
  | cons p ps ih =>
    intro a b y ht hab
    obtain ⟨s2, sp, so⟩ := place_step_sim W a b y ht p hab
    have hab2 : ∀ q, ((WrapFull.place W (a, y, ht) p).1.props q).unplaced =
        ((WrapFull.place W (b, y, ht) p).1.props q).unplaced := by
      intro q
      by_cases hq : q = p
      · subst hq
        rw [sp]
      · rw [(so q hq).1, (so q hq).2]
        exact hab q
    have ih2 := ih (WrapFull.place W (a, y, ht) p).1 (WrapFull.place W (b, y, ht) p).1
      (WrapFull.place W (a, y, ht) p).2.1 (WrapFull.place W (a, y, ht) p).2.2 hab2
    have eb : ((WrapFull.place W (b, y, ht) p).1, (WrapFull.place W (a, y, ht) p).2.1,
        (WrapFull.place W (a, y, ht) p).2.2) = WrapFull.place W (b, y, ht) p := by
      rw [s2]
    rw [eb] at ih2
    simp only [List.foldl_cons]
    refine ⟨ih2.1, fun q hq => ih2.2 q ?_⟩
    by_cases hqp : q = p
    · subst hqp
      exact Or.inr sp
    · rcases hq with hq | hq
      · left
        simpa [hqp] using hq
      · right
        rw [(so q hqp).1, (so q hqp).2]
        exact hq

/-- After the second loop of `NodeBase::WrapFull` every property of the list is
anchored. -/
lemma place_fold_anchored (W : ℚ) (ps : List Nat) :
    ∀ (st : Heap × ℚ × ℚ) (q : Nat), (q ∈ ps ∨ Anchored W (st.1.props q)) →
      Anchored W ((ps.foldl (WrapFull.place W) st).1.props q) := by
  induction ps with
  | nil =>
    intro st q hq
    rcases hq with hq | hq
    · cases hq
    · exact hq
  | cons p ps ih =>
    intro st q hq
    rw [List.foldl_cons]
    apply ih
    by_cases hqp : q = p
    · subst hqp
      right
      rw [place_eq]
      simp only [Function.update_same]
      exact ⟨rfl, rfl, rfl⟩
    · rcases hq with hq | hq
      · left
        simpa [hqp] using hq
      · right
        rw [place_eq]
        simp only [Function.update_noteq hqp]
        exact hq

/-- The first loop of `NodeBase::WrapFull`, run on the store a second loop left,
measures what it measured before. -/
lemma remeasure (colors : NodeColors) (ps : List Nat) (h : Heap) (W y ht : ℚ) (h1 : Heap)
    (hv : h1.vals = h.vals)
    (hp : h1.props =
      (ps.foldl (WrapFull.place W) (WrapFull.measuredStore colors ps h, y, ht)).1.props) :
    (∀ q, ((WrapFull.measuredStore colors ps h1).props q).unplaced =
      ((WrapFull.measuredStore colors ps h).props q).unplaced) ∧
    (∀ q, q ∉ ps → (WrapFull.measuredStore colors ps h1).props q =
      (WrapFull.measuredStore colors ps h).props q) ∧
    (∀ w0, WrapFull.askedWidth colors ps h1 w0 = WrapFull.askedWidth colors ps h w0) := by
  obtain ⟨_, hun, hout⟩ := place_fold_self W ps (WrapFull.measuredStore colors ps h, y, ht)
  simp only [] at hun hout
  have hA : ∀ q, (WrapFull.measuredStore colors ps h).props q =
      if q ∈ ps then WrapFull.measured colors h.vals (h.props q) else h.props q := fun _ => rfl
  have hB : ∀ q, (WrapFull.measuredStore colors ps h1).props q =
      if q ∈ ps then WrapFull.measured colors h.vals (h1.props q) else h1.props q := by
    intro q
    simp only [WrapFull.measuredStore, hv]
  have hasked : ∀ q, WrapFull.asked colors h.vals (h1.props q) =
      WrapFull.asked colors h.vals (h.props q) := by
    intro q
    rw [hp, (measured_congr colors h.vals _ _ (hun q)).1, hA]
    split_ifs
    · exact asked_measured colors h.vals _
    · rfl
  refine ⟨?_, ?_, ?_⟩
  · intro q
    rw [hB]
    by_cases hq : q ∈ ps
    · rw [if_pos hq, hp, (measured_congr colors h.vals _ _ (hun q)).2, hA, if_pos hq,
        measured_idem]
    · rw [if_neg hq, hp]
      exact hun q
  · intro q hq
    rw [hB, if_neg hq, hp]
    exact hout q hq
  · intro w0
    simp only [WrapFull.askedWidth, hv, hasked]

/-- `NodeBase::WrapFull` on a node with a style, in closed form: it writes the
properties and the width and height of the node. -/
lemma WrapFull_some (h : Heap) (n c : Nat) (hc : (h.nodes n).colors = some c) :
    NodeBase.WrapFull h n =
      (0, { h with props := (WrapFull.placedFold (h.styles c) (h.nodes n) h).1.props, nodes := Function.update h.nodes n { h.nodes n with width := WrapFull.nodeWidth (h.styles c) (h.nodes n) h, height := (WrapFull.placedFold (h.styles c) (h.nodes n) h).2.2 } }) := by
  obtain ⟨f1, _, _⟩ := place_fold_self (WrapFull.nodeWidth (h.styles c) (h.nodes n) h)
    (h.nodes n).properties
    (WrapFull.measuredStore (h.styles c) (h.nodes n).properties h, WrapFull.top (h.styles c) (h.nodes n),
      WrapFull.top (h.styles c) (h.nodes n))
  unfold NodeBase.WrapFull
  simp only [hc, measure_fold]
  have e : ∀ x : Heap × ℚ × ℚ, x = WrapFull.placedFold (h.styles c) (h.nodes n) h →
      x.1 = { h with props := x.1.props } → 
      ((0 : Int), ({ x.1 with nodes := Function.update x.1.nodes n { x.1.nodes n with width := WrapFull.nodeWidth (h.styles c) (h.nodes n) h, height := x.2.2 } } : Heap)) =
      (0, { h with props := x.1.props, nodes := Function.update h.nodes n { h.nodes n with width := WrapFull.nodeWidth (h.styles c) (h.nodes n) h, height := x.2.2 } }) := by
    intro x _ hx
    rw [hx]
  exact (e _ rfl f1).trans (by simp only [hc])

/-- The layout of a node whose properties are those a layout left measures and
places what that layout measured and placed. -/
lemma relayout (colors : NodeColors) (node node1 : NodeBase) (h h1 : Heap)
    (hn : node1.properties = node.properties) (hname : node1.Name = node.Name)
    (hfw : node1.fullwidth = node.fullwidth) (htp : node1.total_preview = node.total_preview)
    (hsp : node1.show_preview = node.show_preview) (hv : h1.vals = h.vals)
    (hp : h1.props = (WrapFull.placedFold colors node h).1.props) :
    WrapFull.nodeWidth colors node1 h1 = WrapFull.nodeWidth colors node h ∧
    (WrapFull.placedFold colors node1 h1).2 = (WrapFull.placedFold colors node h).2 ∧
    (WrapFull.placedFold colors node1 h1).1.props = (WrapFull.placedFold colors node h).1.props := by
  obtain ⟨r1, r2, r3⟩ := remeasure colors node.properties h (WrapFull.nodeWidth colors node h)
    (WrapFull.top colors node) (WrapFull.top colors node) h1 hv hp
  have hW : WrapFull.nodeWidth colors node1 h1 = WrapFull.nodeWidth colors node h := by
    simp only [WrapFull.nodeWidth, hn, hname, hfw, r3]
  have htop : WrapFull.top colors node1 = WrapFull.top colors node := by
    simp only [WrapFull.top, NodeBase.UsesPreview, htp, hsp]
  obtain ⟨s1, s2⟩ := place_fold_sim (WrapFull.nodeWidth colors node h) node.properties
    (WrapFull.measuredStore colors node.properties h1)
    (WrapFull.measuredStore colors node.properties h) (WrapFull.top colors node)
    (WrapFull.top colors node) r1
  refine ⟨hW, ?_, ?_⟩
  · simp only [WrapFull.placedFold, hn, hW, htop]
    exact s1
  · simp only [WrapFull.placedFold, hn, hW, htop]
    funext q
    apply s2
    by_cases hq : q ∈ node.properties
    · exact Or.inl hq
    · exact Or.inr (r2 q hq)

/-- C28 (idempotent layout).  `NodeBase::WrapFull`, run on the store that a run
of `NodeBase::WrapFull` on the same node left, returns the same integer and
leaves that store exactly as it is: the width and height of the node and every
member of every property, the x, y, width, height and anchor among them, are
those of the first run.  After a run on a node with a style, every property of
the node is as wide as the node and is anchored at x = 0 when it is an input and
at x = width otherwise, at y plus half its height. -/
theorem C28_WrapFull_idempotent (h : Heap) (n : Nat) :
    NodeBase.WrapFull (NodeBase.WrapFull h n).2 n = NodeBase.WrapFull h n ∧
    ∀ c, (h.nodes n).colors = some c → ∀ p ∈ (h.nodes n).properties,
      Anchored ((NodeBase.WrapFull h n).2.nodes n).width ((NodeBase.WrapFull h n).2.props p) := by
  constructor
  · cases hc : (h.nodes n).colors with
    | none =>
      have e : NodeBase.WrapFull h n = (-1, h) := by simp only [NodeBase.WrapFull, hc]
      rw [e]
      exact e
    | some c =>
      have e1 := WrapFull_some h n c hc
      rw [e1]
      have hc1 : (({ h with props := (WrapFull.placedFold (h.styles c) (h.nodes n) h).1.props, nodes := Function.update h.nodes n { h.nodes n with width := WrapFull.nodeWidth (h.styles c) (h.nodes n) h, height := (WrapFull.placedFold (h.styles c) (h.nodes n) h).2.2 } } : Heap).nodes n).colors = some c := by
        simp only [Function.update_same, hc]
      have e2 := WrapFull_some _ n c hc1
      simp only [] at e2 ⊢
      rw [e2]
      obtain ⟨k1, k2, k3⟩ := relayout (h.styles c) (h.nodes n)
        (Function.update h.nodes n { h.nodes n with width := WrapFull.nodeWidth (h.styles c) (h.nodes n) h, height := (WrapFull.placedFold (h.styles c) (h.nodes n) h).2.2 } n)
        h
        { h with props := (WrapFull.placedFold (h.styles c) (h.nodes n) h).1.props, nodes := Function.update h.nodes n { h.nodes n with width := WrapFull.nodeWidth (h.styles c) (h.nodes n) h, height := (WrapFull.placedFold (h.styles c) (h.nodes n) h).2.2 } }
        (by simp only [Function.update_same]) (by simp only [Function.update_same])
        (by simp only [Function.update_same]) (by simp only [Function.update_same])
        (by simp only [Function.update_same]) rfl rfl
      rw [k1, k2, k3]
      simp only [Function.update_same, Function.update_idem]
  · intro c hc p hp
    rw [WrapFull_some h n c hc]
    simp only [Function.update_same]
    exact place_fold_anchored _ _ _ p (Or.inl hp)

/-- Witness for C28: the Math node of the three-node graph, with a style of text
height 10.  Its property 2, the input `A`, is anchored at the left edge and its
property 4, the output `Result`, at the right edge, 120; the node is 120 wide
and 75 high. -/
theorem C28_WrapFull_idempotent_witness :
    (layoutHeap.nodes 1).colors = some 0 ∧ 2 ∈ (layoutHeap.nodes 1).properties ∧
    Anchored ((NodeBase.WrapFull layoutHeap 1).2.nodes 1).width
      ((NodeBase.WrapFull layoutHeap 1).2.props 2) ∧
    (((NodeBase.WrapFull layoutHeap 1).2.nodes 1).width,
      ((NodeBase.WrapFull layoutHeap 1).2.nodes 1).height,
      ((NodeBase.WrapFull layoutHeap 1).2.props 2).posx,
      ((NodeBase.WrapFull layoutHeap 1).2.props 2).posy,
      ((NodeBase.WrapFull layoutHeap 1).2.props 4).posx,
      ((NodeBase.WrapFull layoutHeap 1).2.props 4).posy) = (120, 75, 0, 75 / 2, 120, 135 / 2) :=
  ⟨by decide, by decide, (C28_WrapFull_idempotent layoutHeap 1).2 0 (by decide) 2 (by decide),
    by decide!⟩

end Laidout
